import Mathlib

/-!
# Pod cache of the k8s attributes processor, and five smaller modules

A shallow embedding of

* `processor/k8sattributesprocessor/internal/kube/client.go`: the `WatchClient`
  cache (the `Pods` map keyed by `PodIdentifier`, the `Namespaces` map and the
  delete queue), its event handlers and one pass of the eviction loop
  (namespace `Kube`);
* `processor/k8sattributesprocessor/config.go`: `Config.Validate` (namespace
  `K8sAttributesProcessor`);
* `processor/tailsamplingprocessor/and_helper.go`: the construction of the
  sub-policies of an `and` policy (namespace `TailSampling`);
* `pkg/stanza/entry/body_field.go`: the body field operations (namespace
  `Stanza`);
* `receiver/postgresqlreceiver/client.go`: the table metrics and the query
  filter (namespace `PostgreSQL`);
* `pkg/telemetryquerylanguage/functions/tqlotel/func_trace_id.go`: the function
  `TraceID` (namespace `TQL`).

Conventions of the embedding.

* A Go map is a partial function (`key → Option value`); `delete` writes `none`.
* A `*Pod` stored in the map is never mutated after it is stored, so the map
  holds `Pod` values.
* `time.Time`, `metav1.Time` and `time.Duration` are integers (nanoseconds); a
  `*metav1.Time` is an `Option`.
* A run-time panic (index out of range on the fixed-length identifier array)
  is the result `none`.
* Locks and the calls into the `observability` package do not touch the cache
  state and are left out.
* `time.Now()` is an explicit argument.
* An `error` is an `Option String`, `none` being nil.
-/

namespace Kube

/-- An instant (`time.Time`, `metav1.Time`), in nanoseconds. -/
abbrev Time := Int

/-- A `time.Duration`, in nanoseconds. -/
abbrev Duration := Int

/-- A `*metav1.Time`: `none` is the nil pointer. -/
abbrev MetaTime := Option Time

/-- The method `func (t *Time) Before(u *Time) bool` of `metav1.Time`
(k8s.io/apimachinery): `t.Time.Before(u.Time)` when both pointers are non-nil,
`false` otherwise. -/
def MetaTime.Before (t u : MetaTime) : Bool :=
  match t, u with
  | some a, some b => decide (a < b)
  | _, _ => false

/-- The constant `ConnectionSource` ("Allowed values are "connection" and
"resource_attribute"", config.go). -/
def ConnectionSource : String := "connection"

/-- The constant `ResourceSource`. -/
def ResourceSource : String := "resource_attribute"

/-- The semantic-convention constant `conventions.AttributeK8SNamespaceName`. -/
def AttributeK8SNamespaceName : String := "k8s.namespace.name"

/-- The semantic-convention constant `conventions.AttributeK8SPodName`. -/
def AttributeK8SPodName : String := "k8s.pod.name"

/-- The semantic-convention constant `conventions.AttributeK8SPodUID`. -/
def AttributeK8SPodUID : String := "k8s.pod.uid"

/-- The semantic-convention constant `conventions.AttributeHostName`. -/
def AttributeHostName : String := "host.name"

/-- One source of an association rule: `From` is the source kind, `Name` the
attribute name. -/
structure AssociationSource where
  From : String
  Name : String
deriving DecidableEq, Repr

/-- One association rule: an ordered list of sources. -/
structure Association where
  Sources : List AssociationSource
deriving DecidableEq, Repr

/-- Modelled from the spec: the type `PodIdentifierAttribute` is declared in
kube.go, which is not among the source files; the spec describes an identifier
as a tuple of (source-kind, attribute-name, value) entries, which is a source
together with a value. -/
structure PodIdentifierAttribute where
  Source : AssociationSource
  Value : String
deriving DecidableEq, Repr

/-- The zero value of `PodIdentifierAttribute`. -/
def PodIdentifierAttribute.zero : PodIdentifierAttribute :=
  { Source := { From := "", Name := "" }, Value := "" }

/-- Modelled from the spec: `PodIdentifierAttributeFromSource` (kube.go, not
among the source files) pairs a source with its resolved value. -/
def PodIdentifierAttributeFromSource (source : AssociationSource) (value : String) :
    PodIdentifierAttribute :=
  { Source := source, Value := value }

/-- Modelled from the spec: `PodIdentifierAttributeFromConnection` (kube.go,
not among the source files): the connection-derived entry for an address; a
connection source carries no attribute name. -/
def PodIdentifierAttributeFromConnection (value : String) : PodIdentifierAttribute :=
  PodIdentifierAttributeFromSource { From := ConnectionSource, Name := "" } value

/-- Modelled from the spec: `PodIdentifierAttributeFromResourceAttribute`
(kube.go, not among the source files): the resource-attribute-derived entry for
an attribute name and a value. -/
def PodIdentifierAttributeFromResourceAttribute (key value : String) : PodIdentifierAttribute :=
  PodIdentifierAttributeFromSource { From := ResourceSource, Name := key } value

/-- A `PodIdentifier` is the Go array `[PodIdentifierMaxLength]PodIdentifierAttribute`,
held as the list of its slots. -/
abbrev PodIdentifier := List PodIdentifierAttribute

/-- Container data of a pod record (`Container` of kube.go): image name, image
tag and the container id per restart count (the Go map `Statuses`, held as an
association list). -/
structure Container where
  ImageName : String := ""
  ImageTag : String := ""
  Statuses : List (Int × String) := []
deriving DecidableEq, Repr

/-- The pod record kept in the cache, with the fields client.go reads and
writes. `Attributes` and `Containers` are Go maps held as association lists. -/
structure Pod where
  Name : String := ""
  Namespace : String := ""
  Address : String := ""
  HostNetwork : Bool := false
  PodUID : String := ""
  StartTime : MetaTime := none
  Ignore : Bool := false
  Attributes : List (String × String) := []
  Containers : List (String × Container) := []
deriving DecidableEq, Repr

/-- The namespace record kept in the cache. -/
structure Namespace where
  Name : String := ""
  NamespaceUID : String := ""
  StartTime : Time := 0
  Attributes : List (String × String) := []
deriving DecidableEq, Repr

/-- An owner reference of a pod (`metav1.OwnerReference`). -/
structure OwnerReference where
  Kind : String := ""
  Name : String := ""
  UID : String := ""
deriving DecidableEq, Repr

/-- A container of a pod spec (`api_v1.Container`). -/
structure ContainerSpec where
  Name : String := ""
  Image : String := ""
deriving DecidableEq, Repr

/-- A container status of a pod (`api_v1.ContainerStatus`). -/
structure ContainerStatusAPI where
  Name : String := ""
  ContainerID : String := ""
  RestartCount : Int := 0
deriving DecidableEq, Repr

/-- The fields of `api_v1.PodSpec` that client.go reads. -/
structure PodSpec where
  HostNetwork : Bool := false
  NodeName : String := ""
  Containers : List ContainerSpec := []
  InitContainers : List ContainerSpec := []
deriving DecidableEq, Repr

/-- The fields of `api_v1.PodStatus` that client.go reads. -/
structure PodStatus where
  PodIP : String := ""
  StartTime : MetaTime := none
  ContainerStatuses : List ContainerStatusAPI := []
  InitContainerStatuses : List ContainerStatusAPI := []
deriving DecidableEq, Repr

/-- The Kubernetes pod object delivered by the informer (`api_v1.Pod`), with the
fields client.go reads. -/
structure APIPod where
  Name : String := ""
  Namespace : String := ""
  UID : String := ""
  CreationTimestamp : Time := 0
  Labels : List (String × String) := []
  Annotations : List (String × String) := []
  OwnerReferences : List OwnerReference := []
  Spec : PodSpec := {}
  Status : PodStatus := {}
deriving DecidableEq, Repr

/-- The Kubernetes namespace object delivered by the informer
(`api_v1.Namespace`). -/
structure APINamespace where
  Name : String := ""
  UID : String := ""
  CreationTimestamp : Time := 0
  Labels : List (String × String) := []
  Annotations : List (String × String) := []
deriving DecidableEq, Repr

/-- The `interface{}` value an event handler receives. -/
inductive Obj where
  | ofPod (pod : APIPod)
  | ofNamespace (ns : APINamespace)
  | other
deriving DecidableEq, Repr

/-- A queued eviction (`deleteRequest`). -/
structure deleteRequest where
  id : PodIdentifier
  podName : String
  ts : Time
deriving DecidableEq, Repr

/-- What the fields `Rules`, `Exclude` and `deploymentRegex` of the client
decide: the results of `shouldIgnorePod`, `extractPodAttributes`,
`needContainerAttributes`, `extractPodContainersAttributes` and
`extractNamespaceAttributes`. These go through regular expressions and through
`FieldExtractionRule` methods declared outside client.go; the cache operations
below are stated for every such behaviour. -/
structure ExtractionRules where
  shouldIgnorePod : APIPod → Bool
  extractPodAttributes : APIPod → List (String × String)
  needContainerAttributes : Bool
  extractPodContainersAttributes : APIPod → List (String × Container)
  extractNamespaceAttributes : APINamespace → List (String × String)

/-- The state of `WatchClient`: the delete queue, the two maps and the
configuration the cache operations read. -/
structure WatchClient where
  deleteQueue : List deleteRequest
  Pods : PodIdentifier → Option Pod
  Rules : ExtractionRules
  Associations : List Association
  Namespaces : String → Option Namespace

/-- The Go statement `m[k] = v` on a map. -/
def mapSet {κ ν : Type} [DecidableEq κ] (m : κ → Option ν) (k : κ) (v : ν) : κ → Option ν :=
  fun x => if x = k then some v else m x

/-- The Go statement `delete(m, k)` on a map. -/
def mapDelete {κ ν : Type} [DecidableEq κ] (m : κ → Option ν) (k : κ) : κ → Option ν :=
  fun x => if x = k then none else m x

/-- The empty Go map. -/
def mapEmpty {κ ν : Type} : κ → Option ν := fun _ => none

section Operations

/- The constant `PodIdentifierMaxLength` of kube.go (not among the source
files): the number of slots of a `PodIdentifier`. It is a parameter of the
development. -/
variable (PodIdentifierMaxLength : Nat)

/-- The zero value `PodIdentifier{}`: every slot holds the zero attribute. -/
def PodIdentifier.zero : PodIdentifier :=
  List.replicate PodIdentifierMaxLength PodIdentifierAttribute.zero

/-- The composite literal `PodIdentifier{a}`: slot 0 holds `a`, the other slots
the zero attribute. -/
def PodIdentifier.lit (a : PodIdentifierAttribute) : PodIdentifier :=
  (PodIdentifier.zero PodIdentifierMaxLength).set 0 a

/-- The assignment `ret[i] = a` on the array: a panic (`none`) when `i` is out
of range. -/
def PodIdentifier.assign (ret : PodIdentifier) (i : Nat) (a : PodIdentifierAttribute) :
    Option PodIdentifier :=
  if i < ret.length then some (ret.set i a) else none

/-- The body of `podFromAPI`. -/
def podFromAPI (c : WatchClient) (pod : APIPod) : Pod :=
  let newPod : Pod :=
    { Name := pod.Name
      Namespace := pod.Namespace
      Address := pod.Status.PodIP
      HostNetwork := pod.Spec.HostNetwork
      PodUID := pod.UID
      StartTime := pod.Status.StartTime }
  if c.Rules.shouldIgnorePod pod then
    { newPod with Ignore := true }
  else
    let newPod := { newPod with Attributes := c.Rules.extractPodAttributes pod }
    if c.Rules.needContainerAttributes then
      { newPod with Containers := c.Rules.extractPodContainersAttributes pod }
    else newPod

/-- The inner `switch source.Name` of `getIdentifiersFromAssoc`: the value of a
resource-attribute source for a pod (the empty string when it has none). -/
def getIdentifiersFromAssoc.attr (pod : Pod) (source : AssociationSource) : String :=
  if source.Name = AttributeK8SNamespaceName then pod.Namespace
  else if source.Name = AttributeK8SPodName then pod.Name
  else if source.Name = AttributeK8SPodUID then pod.PodUID
  else if source.Name = AttributeHostName then pod.Address
  else
    match pod.Attributes.lookup source.Name with
    | some v => v
    | none => ""

/-- One iteration of the loop over `assoc.Sources` in `getIdentifiersFromAssoc`,
on the loop state `(ret, skip)`. A `break` inside the `switch` leaves the
switch only, so the loop goes on to the next source. -/
def getIdentifiersFromAssoc.source (pod : Pod) (i : Nat) (source : AssociationSource)
    (st : PodIdentifier × Bool) : Option (PodIdentifier × Bool) :=
  if source.From = ConnectionSource then
    if pod.Address = "" then some (st.1, true)
    else if pod.HostNetwork then some (st.1, true)
    else
      (PodIdentifier.assign st.1 i (PodIdentifierAttributeFromSource source pod.Address)).map
        (fun ret => (ret, st.2))
  else if source.From = ResourceSource then
    let attr := getIdentifiersFromAssoc.attr pod source
    if attr = "" then some (st.1, true)
    else
      (PodIdentifier.assign st.1 i (PodIdentifierAttributeFromSource source attr)).map
        (fun ret => (ret, st.2))
  else some st

/-- The loop `for i, source := range assoc.Sources`, from index `i` on. -/
def getIdentifiersFromAssoc.sources (pod : Pod) :
    Nat → List AssociationSource → PodIdentifier × Bool → Option (PodIdentifier × Bool)
  | _, [], st => some st
  | i, source :: rest, st =>
    match getIdentifiersFromAssoc.source pod i source st with
    | none => none
    | some st1 => getIdentifiersFromAssoc.sources pod (i + 1) rest st1

/-- The loop `for _, assoc := range c.Associations`, on the accumulator `ids`. -/
def getIdentifiersFromAssoc.assocs (pod : Pod) :
    List Association → List PodIdentifier → Option (List PodIdentifier)
  | [], ids => some ids
  | assoc :: rest, ids =>
    match getIdentifiersFromAssoc.sources pod 0 assoc.Sources
        (PodIdentifier.zero PodIdentifierMaxLength, false) with
    | none => none
    | some (ret, skip) =>
      getIdentifiersFromAssoc.assocs pod rest (if skip then ids else ids ++ [ret])

/-- The function `getIdentifiersFromAssoc`: the identifiers of the configured
associations, then the two identifiers kept for backward compatibility. -/
def getIdentifiersFromAssoc (c : WatchClient) (pod : Pod) : Option (List PodIdentifier) :=
  match getIdentifiersFromAssoc.assocs PodIdentifierMaxLength pod c.Associations [] with
  | none => none
  | some ids =>
    let ids :=
      if pod.PodUID ≠ "" then
        ids ++ [PodIdentifier.lit PodIdentifierMaxLength
          (PodIdentifierAttributeFromResourceAttribute AttributeK8SPodUID pod.PodUID)]
      else ids
    let ids :=
      if pod.Address ≠ "" ∧ ¬ pod.HostNetwork then
        ids ++ [PodIdentifier.lit PodIdentifierMaxLength
          (PodIdentifierAttributeFromConnection pod.Address)]
      else ids
    some ids

/-- The loop of `addOrUpdatePod` over the identifiers: an occupied identifier
whose record has a start time that is not before the incoming start time ends
the whole loop (`return`); otherwise the identifier is written. -/
def addOrUpdatePod.loop (newPod : Pod) (startTime : MetaTime) :
    List PodIdentifier → (PodIdentifier → Option Pod) → (PodIdentifier → Option Pod)
  | [], pods => pods
  | id :: rest, pods =>
    match pods id with
    | some p =>
      if p.StartTime ≠ none ∧ ¬ MetaTime.Before p.StartTime startTime then pods
      else addOrUpdatePod.loop newPod startTime rest (mapSet pods id newPod)
    | none => addOrUpdatePod.loop newPod startTime rest (mapSet pods id newPod)

/-- The function `addOrUpdatePod`. -/
def addOrUpdatePod (c : WatchClient) (pod : APIPod) : Option WatchClient :=
  let newPod := podFromAPI c pod
  match getIdentifiersFromAssoc PodIdentifierMaxLength c newPod with
  | none => none
  | some ids =>
    some { c with Pods := addOrUpdatePod.loop newPod pod.Status.StartTime ids c.Pods }

/-- The function `GetPod`: the state after the call (the body only reads) and
the returned pair. -/
def GetPod (c : WatchClient) (identifier : PodIdentifier) : WatchClient × Option Pod × Bool :=
  match c.Pods identifier with
  | some pod => if pod.Ignore then (c, none, false) else (c, some pod, true)
  | none => (c, none, false)

/-- The function `GetNamespace`. -/
def GetNamespace (c : WatchClient) (name : String) : WatchClient × Option Namespace × Bool :=
  match c.Namespaces name with
  | some ns => (c, some ns, true)
  | none => (c, none, false)

/-- The function `appendDeleteQueue`; `now` is the value read from `time.Now()`. -/
def appendDeleteQueue (c : WatchClient) (podID : PodIdentifier) (podName : String)
    (now : Time) : WatchClient :=
  { c with deleteQueue := c.deleteQueue ++ [{ id := podID, podName := podName, ts := now }] }

/-- The loop of `forgetPod` over the identifiers; the iteration of the
identifier at position `k` reads the clock value `clock k` when it enqueues. -/
def forgetPod.loop (podName : String) (clock : Nat → Time) :
    Nat → List PodIdentifier → WatchClient → WatchClient
  | _, [], c => c
  | k, id :: rest, c =>
    match GetPod c id with
    | (c1, some p, true) =>
      if p.Name = podName then
        forgetPod.loop podName clock (k + 1) rest (appendDeleteQueue c1 id podName (clock k))
      else forgetPod.loop podName clock (k + 1) rest c1
    | (c1, _, _) => forgetPod.loop podName clock (k + 1) rest c1

/-- The function `forgetPod`. -/
def forgetPod (c : WatchClient) (pod : APIPod) (clock : Nat → Time) : Option WatchClient :=
  let podToRemove := podFromAPI c pod
  match getIdentifiersFromAssoc PodIdentifierMaxLength c podToRemove with
  | none => none
  | some ids => some (forgetPod.loop pod.Name clock 0 ids c)

/-- The first loop of an eviction pass of `deleteLoop`: the value of `cutoff`
after scanning the queue from index `i`. -/
def deleteLoop.cutoff (gracePeriod : Duration) (now : Time) :
    List deleteRequest → Nat → Nat → Nat
  | [], _, cutoff => cutoff
  | d :: rest, i, cutoff =>
    if now < d.ts + gracePeriod then cutoff
    else deleteLoop.cutoff gracePeriod now rest (i + 1) (i + 1)

/-- The second loop of an eviction pass of `deleteLoop`, over `toDelete`. -/
def deleteLoop.apply : List deleteRequest → (PodIdentifier → Option Pod) →
    (PodIdentifier → Option Pod)
  | [], pods => pods
  | d :: rest, pods =>
    match pods d.id with
    | some p =>
      if p.Name = d.podName then deleteLoop.apply rest (mapDelete pods d.id)
      else deleteLoop.apply rest pods
    | none => deleteLoop.apply rest pods

/-- The slice `toDelete := c.deleteQueue[:cutoff]` of an eviction pass. -/
def deleteLoop.toDelete (c : WatchClient) (gracePeriod : Duration) (now : Time) :
    List deleteRequest :=
  c.deleteQueue.take (deleteLoop.cutoff gracePeriod now c.deleteQueue 0 0)

/-- One eviction pass of `deleteLoop` (the `time.After(interval)` case of the
`select`), run when the clock reads `now`. -/
def deleteLoop.pass (c : WatchClient) (gracePeriod : Duration) (now : Time) : WatchClient :=
  let cutoff := deleteLoop.cutoff gracePeriod now c.deleteQueue 0 0
  let toDelete := c.deleteQueue.take cutoff
  { c with
    deleteQueue := c.deleteQueue.drop cutoff
    Pods := deleteLoop.apply toDelete c.Pods }

/-- The function `handlePodAdd`. -/
def handlePodAdd (c : WatchClient) (obj : Obj) : Option WatchClient :=
  match obj with
  | Obj.ofPod pod => addOrUpdatePod PodIdentifierMaxLength c pod
  | _ => some c

/-- The function `handlePodUpdate`; only the new object is used. -/
def handlePodUpdate (c : WatchClient) (_old new : Obj) : Option WatchClient :=
  match new with
  | Obj.ofPod pod => addOrUpdatePod PodIdentifierMaxLength c pod
  | _ => some c

/-- The function `handlePodDelete`. -/
def handlePodDelete (c : WatchClient) (obj : Obj) (clock : Nat → Time) : Option WatchClient :=
  match obj with
  | Obj.ofPod pod => forgetPod PodIdentifierMaxLength c pod clock
  | _ => some c

/-- The function `addOrUpdateNamespace`. -/
def addOrUpdateNamespace (c : WatchClient) (ns : APINamespace) : WatchClient :=
  let newNamespace : Namespace :=
    { Name := ns.Name
      NamespaceUID := ns.UID
      StartTime := ns.CreationTimestamp
      Attributes := c.Rules.extractNamespaceAttributes ns }
  if ns.Name ≠ "" then
    { c with Namespaces := mapSet c.Namespaces ns.Name newNamespace }
  else c

/-- The function `handleNamespaceAdd`. -/
def handleNamespaceAdd (c : WatchClient) (obj : Obj) : WatchClient :=
  match obj with
  | Obj.ofNamespace ns => addOrUpdateNamespace c ns
  | _ => c

/-- The function `handleNamespaceUpdate`; only the new object is used. -/
def handleNamespaceUpdate (c : WatchClient) (_old new : Obj) : WatchClient :=
  match new with
  | Obj.ofNamespace ns => addOrUpdateNamespace c ns
  | _ => c

/-- The function `handleNamespaceDelete`. -/
def handleNamespaceDelete (c : WatchClient) (obj : Obj) : WatchClient :=
  match obj with
  | Obj.ofNamespace ns =>
    match c.Namespaces ns.Name with
    | some stored => { c with Namespaces := mapDelete c.Namespaces stored.Name }
    | none => c
  | _ => c

end Operations

/-! ## The cache as a transition system -/

/-- The state built by `New`: both maps empty, no queued request, the given
extraction behaviour and associations. -/
def New (rules : ExtractionRules) (associations : List Association) : WatchClient :=
  { deleteQueue := [], Pods := mapEmpty, Rules := rules, Associations := associations,
    Namespaces := mapEmpty }

/-- What can happen to the cache: the six informer callbacks registered by
`Start` and one eviction pass of `deleteLoop` at the time `now`. A pod delete
event carries the clock values its `forgetPod` reads. -/
inductive Event where
  | podAdd (obj : Obj)
  | podUpdate (old new : Obj)
  | podDelete (obj : Obj) (clock : Nat → Time)
  | namespaceAdd (obj : Obj)
  | namespaceUpdate (old new : Obj)
  | namespaceDelete (obj : Obj)
  | sweep (now : Time)

/-- The effect of one event on the cache, with the grace period the eviction
loop was started with. -/
def step (PodIdentifierMaxLength : Nat) (gracePeriod : Duration) (c : WatchClient) :
    Event → Option WatchClient
  | Event.podAdd obj => handlePodAdd PodIdentifierMaxLength c obj
  | Event.podUpdate old new => handlePodUpdate PodIdentifierMaxLength c old new
  | Event.podDelete obj clock => handlePodDelete PodIdentifierMaxLength c obj clock
  | Event.namespaceAdd obj => some (handleNamespaceAdd c obj)
  | Event.namespaceUpdate old new => some (handleNamespaceUpdate c old new)
  | Event.namespaceDelete obj => some (handleNamespaceDelete c obj)
  | Event.sweep now => some (deleteLoop.pass c gracePeriod now)

/-- The state after a sequence of events; `none` when a handler panicked. -/
def run (PodIdentifierMaxLength : Nat) (gracePeriod : Duration) :
    WatchClient → List Event → Option WatchClient
  | c, [] => some c
  | c, e :: rest =>
    match step PodIdentifierMaxLength gracePeriod c e with
    | none => none
    | some c1 => run PodIdentifierMaxLength gracePeriod c1 rest

/-- A queued request was enqueued by a pod delete event of the run: the run
splits at a delete event whose handler appended the request, stamped with a
clock value of that event. -/
def EnqueuedByDelete (n : Nat) (g : Duration) (init : WatchClient) (events : List Event)
    (d : deleteRequest) : Prop :=
  ∃ (pre post : List Event) (obj : Obj) (clock : Nat → Time) (c1 c2 : WatchClient)
    (new : List deleteRequest) (k : Nat),
    events = pre ++ Event.podDelete obj clock :: post ∧
    run n g init pre = some c1 ∧
    handlePodDelete n c1 obj clock = some c2 ∧
    c2.deleteQueue = c1.deleteQueue ++ new ∧ d ∈ new ∧ d.ts = clock k

/-- The value a source resolves to for a pod, in the words of the spec: a
connection source resolves to the pod address unless the pod is in
host-network mode; a resource-attribute source resolves to the namespace, the
pod name, the pod UID, the address or the extracted attribute of its name; a source of
another kind does not resolve; the empty string stands for "does not resolve". -/
def resolvedValue (pod : Pod) (source : AssociationSource) : String :=
  if source.From = ConnectionSource then
    if pod.HostNetwork then "" else pod.Address
  else if source.From = ResourceSource then
    if source.Name = AttributeK8SNamespaceName then pod.Namespace
    else if source.Name = AttributeK8SPodName then pod.Name
    else if source.Name = AttributeK8SPodUID then pod.PodUID
    else if source.Name = AttributeHostName then pod.Address
    else (pod.Attributes.lookup source.Name).getD ""
  else ""

/-! ## Concrete configurations and objects used in the worked cases -/

namespace Examples

/-- Extraction behaviour that ignores no pod and extracts no attribute. -/
def rules : ExtractionRules :=
  { shouldIgnorePod := fun _ => false
    extractPodAttributes := fun _ => []
    needContainerAttributes := false
    extractPodContainersAttributes := fun _ => []
    extractNamespaceAttributes := fun _ => [] }

/-- The behaviour under `exclude: pods: [{name: "^ignored$"}]`: `shouldIgnorePod`
holds for the pods named `ignored`. -/
def ignoreRules : ExtractionRules :=
  { rules with shouldIgnorePod := fun pod => decide (pod.Name = "ignored") }

/-- An empty cache with the given extraction behaviour and associations. -/
def emptyClient (r : ExtractionRules) (assocs : List Association) : WatchClient :=
  { deleteQueue := [], Pods := mapEmpty, Rules := r, Associations := assocs,
    Namespaces := mapEmpty }

/-- The association rule `sources: [{from: resource_attribute, name: k8s.pod.uid}]`. -/
def uidRule : Association :=
  { Sources := [{ From := ResourceSource, Name := AttributeK8SPodUID }] }

/-- The pod-UID identifier of UID `uid` with four slots. -/
def uidId (uid : String) : PodIdentifier :=
  PodIdentifier.lit 4 (PodIdentifierAttributeFromResourceAttribute AttributeK8SPodUID uid)

/-- The connection identifier of address `ip` with four slots. -/
def connId (ip : String) : PodIdentifier :=
  PodIdentifier.lit 4 (PodIdentifierAttributeFromConnection ip)

/-- A pod `a` with a UID, an address and a start time. -/
def podA : APIPod :=
  { Name := "a", UID := "uid-a", Status := { PodIP := "10.0.0.1", StartTime := some 10 } }

/-- A pod `b` at the address of `podA`, started earlier. -/
def podB : APIPod :=
  { Name := "b", UID := "uid-b", Status := { PodIP := "10.0.0.1", StartTime := some 5 } }

/-- The pod `a` as first seen with a start time: no address is assigned yet. -/
def podAStarted : APIPod :=
  { Name := "a", UID := "uid-a", Status := { StartTime := some 10 } }

/-- The association rule `sources: [{from: connection}]`. -/
def connRule : Association :=
  { Sources := [{ From := ConnectionSource, Name := "" }] }

/-- The state reached from `c` by the pod event handler result `r`; `c` itself
when the handler panicked. -/
def after (c : WatchClient) (r : Option WatchClient) : WatchClient :=
  r.getD c

/-- The cache that has seen the add event of `podA`, with no association
configured. -/
def cacheA : WatchClient :=
  after (emptyClient rules []) (addOrUpdatePod 4 (emptyClient rules []) podA)

/-- A pod `n` started at time 10 at the address 10.0.0.1. -/
def podNew : APIPod :=
  { Name := "n", UID := "uid-n", Status := { PodIP := "10.0.0.1", StartTime := some 10 } }

/-- A pod `o` started at time 5 that held the address 10.0.0.1 before `podNew`. -/
def podOld : APIPod :=
  { Name := "o", UID := "uid-o", Status := { PodIP := "10.0.0.1", StartTime := some 5 } }

/-- The cache that has seen the add event of `podNew`, with the connection
association configured. -/
def cacheNew : WatchClient :=
  after (emptyClient rules [connRule]) (addOrUpdatePod 4 (emptyClient rules [connRule]) podNew)

/-- A pod named `ignored`. -/
def podI : APIPod :=
  { Name := "ignored", UID := "uid-i", Status := { PodIP := "10.0.0.9", StartTime := some 1 } }

/-- The cache that has seen the event of `podAStarted`, with no association
configured. -/
def cacheAStarted : WatchClient :=
  after (emptyClient rules []) (addOrUpdatePod 4 (emptyClient rules []) podAStarted)

/-- The cache that has seen the add event of `podI` under `ignoreRules`: both
identifiers of `podI` hold a record flagged `Ignore`. -/
def cacheIgnored : WatchClient :=
  after (emptyClient ignoreRules []) (addOrUpdatePod 4 (emptyClient ignoreRules []) podI)

/-- The cache `cacheA` after the delete event of `podA`, the clock reading 0 at
the first identifier and 10 at the second. -/
def cacheADeleted : WatchClient :=
  after cacheA (forgetPod 4 cacheA podA (fun k => 10 * (k : Int)))

/-- The cache `cacheA` after a delete event of `podA` at time `t`. -/
def cacheADeletedAt (t : Time) : WatchClient :=
  after cacheA (forgetPod 4 cacheA podA (fun _ => t))

/-- A stateful-set pod `web-0` at the address 10.0.0.7. -/
def podWeb : APIPod :=
  { Name := "web-0", UID := "uid-1", Status := { PodIP := "10.0.0.7", StartTime := some 10 } }

/-- The pod `web-0` created again after its deletion: same name and address,
another UID and a later start time. -/
def podWebNew : APIPod :=
  { Name := "web-0", UID := "uid-2", Status := { PodIP := "10.0.0.7", StartTime := some 20 } }

/-- A pod `api-5` that is given the address 10.0.0.7 after `web-0`. -/
def podApi : APIPod :=
  { Name := "api-5", UID := "uid-3", Status := { PodIP := "10.0.0.7", StartTime := some 20 } }

/-- The pod `web-0` is added and deleted at time 100, then `newPod` is added. -/
def reuseEvents (newPod : APIPod) : List Event :=
  [Event.podAdd (Obj.ofPod podWeb), Event.podDelete (Obj.ofPod podWeb) (fun _ => 100),
    Event.podAdd (Obj.ofPod newPod)]

/-- The association rule `sources: [{from: resource, name: k8s.pod.uid}]`, whose
source kind is none of the allowed values. -/
def typoRule : Association :=
  { Sources := [{ From := "resource", Name := AttributeK8SPodUID }] }

/-- An association rule with five sources, each the pod name. -/
def longRule : Association :=
  { Sources := List.replicate 5 { From := ResourceSource, Name := AttributeK8SPodName } }

/-- The association rule with the sources pod name and namespace. -/
def nameRule : Association :=
  { Sources := [{ From := ResourceSource, Name := AttributeK8SPodName },
                { From := ResourceSource, Name := AttributeK8SNamespaceName }] }

/-- A pod `h` in host-network mode. -/
def podHost : APIPod :=
  { Name := "h", Namespace := "kube-system", UID := "uid-h",
    Spec := { HostNetwork := true }, Status := { PodIP := "192.168.0.4", StartTime := some 3 } }

end Examples

end Kube

/-! # Configuration of the k8s attributes processor (`config.go`) -/

namespace K8sAttributesProcessor

/-- One source of a pod association in the configuration. -/
structure PodAssociationSourceConfig where
  From : String := ""
  Name : String := ""
deriving DecidableEq, Repr

/-- One pod association rule in the configuration. -/
structure PodAssociationConfig where
  From : String := ""
  Name : String := ""
  Sources : List PodAssociationSourceConfig := []
deriving DecidableEq, Repr

/-- The fields of `Config` that `Validate` reads. The embedded
`k8sconfig.APIConfig` is declared outside config.go; its type is the parameter
`α`. -/
structure Config (α : Type) where
  APIConfig : α
  Passthrough : Bool := false
  Association : List PodAssociationConfig := []

/-- The loop of `Config.Validate` over the associations; an `error` is an
`Option String`, `none` being nil. -/
def Config.Validate.loop (PodIdentifierMaxLength : Nat) :
    List PodAssociationConfig → Option String
  | [] => none
  | assoc :: rest =>
    if assoc.Sources.length > PodIdentifierMaxLength then
      some ("too many association sources. limit is " ++ toString PodIdentifierMaxLength)
    else Config.Validate.loop PodIdentifierMaxLength rest

/-- The method `Config.Validate`. `APIConfigValidate` is the method
`Validate` of `k8sconfig.APIConfig`, declared outside config.go. -/
def Config.Validate {α : Type} (PodIdentifierMaxLength : Nat)
    (APIConfigValidate : α → Option String) (cfg : Config α) : Option String :=
  match APIConfigValidate cfg.APIConfig with
  | some err => some err
  | none => Config.Validate.loop PodIdentifierMaxLength cfg.Association

end K8sAttributesProcessor

/-! # Sub-policies of the `and` policy of the tail sampling processor
(`and_helper.go`) -/

namespace TailSampling

/-- The type `PolicyType`, a string. -/
abbrev PolicyType := String

/-- Modelled from the spec: the policy type constants are declared in the
config.go of the tail sampling processor, which is not among the source files;
the values are the configuration names of the policy types. -/
def AlwaysSample : PolicyType := "always_sample"

/-- Modelled from the spec: see `AlwaysSample`. -/
def NumericAttribute : PolicyType := "numeric_attribute"

/-- Modelled from the spec: see `AlwaysSample`. -/
def StringAttribute : PolicyType := "string_attribute"

/-- Modelled from the spec: see `AlwaysSample`. -/
def RateLimiting : PolicyType := "rate_limiting"

/-- Modelled from the spec: see `AlwaysSample`. -/
def StatusCode : PolicyType := "status_code"

/-- Modelled from the spec: see `AlwaysSample`. -/
def Probabilistic : PolicyType := "probabilistic"

/-- Modelled from the spec: see `AlwaysSample`. -/
def TraceState : PolicyType := "trace_state"

/-- Modelled from the spec: see `AlwaysSample`. -/
def SpanCount : PolicyType := "span_count"

/-- The section `NumericAttributeCfg` of a sub-policy, with the fields
and_helper.go reads. -/
structure NumericAttributeCfg where
  Key : String := ""
  MinValue : Int := 0
  MaxValue : Int := 0
deriving DecidableEq, Repr

/-- The section `StringAttributeCfg`. -/
structure StringAttributeCfg where
  Key : String := ""
  Values : List String := []
  EnabledRegexMatching : Bool := false
  CacheMaxSize : Int := 0
  InvertMatch : Bool := false
deriving DecidableEq, Repr

/-- The section `RateLimitingCfg`. -/
structure RateLimitingCfg where
  SpansPerSecond : Int := 0
deriving DecidableEq, Repr

/-- The section `StatusCodeCfg`. -/
structure StatusCodeCfg where
  StatusCodes : List String := []
deriving DecidableEq, Repr

/-- The section `ProbabilisticCfg`; the float `SamplingPercentage` is only
passed on and is held as its bit pattern. -/
structure ProbabilisticCfg where
  HashSalt : String := ""
  SamplingPercentage : Nat := 0
deriving DecidableEq, Repr

/-- The section `TraceStateCfg`. -/
structure TraceStateCfg where
  Key : String := ""
  Values : List String := []
deriving DecidableEq, Repr

/-- The section `SpanCountCfg`. -/
structure SpanCountCfg where
  MinSpans : Int := 0
deriving DecidableEq, Repr

/-- The configuration of one sub-policy of an `and` policy; the field `Type` is
spelled `Type'`. -/
structure AndSubPolicyCfg where
  Type' : PolicyType := ""
  NumericAttributeCfg : NumericAttributeCfg := {}
  StringAttributeCfg : StringAttributeCfg := {}
  RateLimitingCfg : RateLimitingCfg := {}
  StatusCodeCfg : StatusCodeCfg := {}
  ProbabilisticCfg : ProbabilisticCfg := {}
  TraceStateCfg : TraceStateCfg := {}
  SpanCountCfg : SpanCountCfg := {}
deriving DecidableEq, Repr

/-- The configuration of an `and` policy. -/
structure AndCfg where
  SubPolicyCfg : List AndSubPolicyCfg := []
deriving DecidableEq, Repr

/-- The constructors of the package `internal/sampling` that and_helper.go
calls, over the type `ε` of policy evaluators. The package is not among the
source files, so the constructors are parameters. A returned pair
`(evaluator, error)` is a pair of options, `none` being nil; the logger is
left out. -/
structure Sampling (ε : Type) where
  NewAlwaysSample : ε
  NewNumericAttributeFilter : String → Int → Int → ε
  NewStringAttributeFilter : String → List String → Bool → Int → Bool → ε
  NewRateLimiting : Int → ε
  NewStatusCodeFilter : List String → Option ε × Option String
  NewProbabilisticSampler : String → Nat → ε
  NewTraceStateFilter : String → List String → ε
  NewSpanCount : Int → ε
  NewAnd : List (Option ε) → ε

/-- The function `getAndSubPolicyEvaluator`. -/
def getAndSubPolicyEvaluator {ε : Type} (S : Sampling ε) (cfg : AndSubPolicyCfg) :
    Option ε × Option String :=
  if cfg.Type' = AlwaysSample then (some S.NewAlwaysSample, none)
  else if cfg.Type' = NumericAttribute then
    let nafCfg := cfg.NumericAttributeCfg
    (some (S.NewNumericAttributeFilter nafCfg.Key nafCfg.MinValue nafCfg.MaxValue), none)
  else if cfg.Type' = StringAttribute then
    let safCfg := cfg.StringAttributeCfg
    (some (S.NewStringAttributeFilter safCfg.Key safCfg.Values safCfg.EnabledRegexMatching
      safCfg.CacheMaxSize safCfg.InvertMatch), none)
  else if cfg.Type' = RateLimiting then
    let rlfCfg := cfg.RateLimitingCfg
    (some (S.NewRateLimiting rlfCfg.SpansPerSecond), none)
  else if cfg.Type' = StatusCode then S.NewStatusCodeFilter cfg.StatusCodeCfg.StatusCodes
  else if cfg.Type' = Probabilistic then
    let pfCfg := cfg.ProbabilisticCfg
    (some (S.NewProbabilisticSampler pfCfg.HashSalt pfCfg.SamplingPercentage), none)
  else if cfg.Type' = TraceState then
    let tsfCfg := cfg.TraceStateCfg
    (some (S.NewTraceStateFilter tsfCfg.Key tsfCfg.Values), none)
  else if cfg.Type' = SpanCount then
    let scfCfg := cfg.SpanCountCfg
    (some (S.NewSpanCount scfCfg.MinSpans), none)
  else (none, some ("unknown sampling policy type " ++ cfg.Type'))

/-- The loop of `getNewAndPolicy` over `config.SubPolicyCfg`, on the
accumulator `subPolicyEvaluators`: the evaluator of each pair is appended and
the error of the pair is dropped (`policy, _ := ...`). -/
def getNewAndPolicy.loop {ε : Type} (S : Sampling ε) :
    List AndSubPolicyCfg → List (Option ε) → List (Option ε)
  | [], subPolicyEvaluators => subPolicyEvaluators
  | policyCfg :: rest, subPolicyEvaluators =>
    let policy := (getAndSubPolicyEvaluator S policyCfg).1
    getNewAndPolicy.loop S rest (subPolicyEvaluators ++ [policy])

/-- The function `getNewAndPolicy`. -/
def getNewAndPolicy {ε : Type} (S : Sampling ε) (config : AndCfg) : Option ε × Option String :=
  (some (S.NewAnd (getNewAndPolicy.loop S config.SubPolicyCfg [])), none)

/-- A sub-policy configuration whose type is no policy type. -/
def unknownCfg : AndSubPolicyCfg := { Type' := "no_such_policy" }

/-- A policy evaluator that records the constructor that built it and the
arguments of the call. -/
inductive Policy where
  | alwaysSample
  | numericAttribute (key : String) (minValue maxValue : Int)
  | stringAttribute (key : String) (values : List String) (regex : Bool) (cacheMaxSize : Int)
      (invert : Bool)
  | rateLimiting (spansPerSecond : Int)
  | statusCode (codes : List String)
  | probabilistic (hashSalt : String) (samplingPercentage : Nat)
  | traceState (key : String) (values : List String)
  | spanCount (minSpans : Int)
  | and (subPolicies : List (Option Policy))

/-- An instance of the constructors over `Policy`: each constructor records its
call; the status-code constructor fails on an empty list of codes. -/
def recordingSampling : Sampling Policy :=
  { NewAlwaysSample := Policy.alwaysSample
    NewNumericAttributeFilter := Policy.numericAttribute
    NewStringAttributeFilter := Policy.stringAttribute
    NewRateLimiting := Policy.rateLimiting
    NewStatusCodeFilter := fun codes =>
      if codes.isEmpty then (none, some "expected at least one status code to filter on")
      else (some (Policy.statusCode codes), none)
    NewProbabilisticSampler := Policy.probabilistic
    NewTraceStateFilter := Policy.traceState
    NewSpanCount := Policy.spanCount
    NewAnd := Policy.and }

end TailSampling

/-! # Body fields of a log entry (`pkg/stanza/entry/body_field.go`) -/

namespace Stanza

/-- A Go `interface{}` value as the body field operations see it: the nil
interface, a `map[string]interface{}` (a function from keys to values, see the
conventions above), or any other value, taken from the parameter type `α`.
Values are trees: a map is not shared between two places of a body, and the
nil map is not a value. -/
inductive Value (α : Type) where
  | nil : Value α
  | leaf (a : α) : Value α
  | map (m : String → Option (Value α)) : Value α

/-- Modelled from the spec: the type `Entry` is declared in entry.go, which is
not among the source files; the tests build it with a body, attributes, a
resource and two timestamps. -/
structure Entry (α : Type) where
  ObservedTimestamp : Int := 0
  Timestamp : Int := 0
  Body : Value α := Value.nil
  Attributes : String → Option (Value α) := fun _ => none
  Resource : String → Option (Value α) := fun _ => none

/-- The type `BodyField`. -/
structure BodyField where
  Keys : List String
deriving DecidableEq, Repr

section BodyFieldOps

variable {α : Type}

/-- The function `NewBodyField` (the wrapping into `Field` is left out). -/
def NewBodyField (keys : List String) : BodyField :=
  { Keys := keys }

/-- The method `isRoot`. -/
def BodyField.isRoot (f : BodyField) : Bool :=
  f.Keys.length == 0

/-- The method `Parent`. -/
def BodyField.Parent (f : BodyField) : BodyField :=
  if f.isRoot then f else { Keys := f.Keys.take (f.Keys.length - 1) }

/-- The method `Child`. -/
def BodyField.Child (f : BodyField) (key : String) : BodyField :=
  { Keys := f.Keys ++ [key] }

/-- The loop of `Get` over the keys, on `currentValue`; the result is the pair
`(value, existed)`. -/
def BodyField.Get.loop : List String → Value α → Value α × Bool
  | [], currentValue => (currentValue, true)
  | key :: rest, currentValue =>
    match currentValue with
    | Value.map currentMap =>
      match currentMap key with
      | some v => BodyField.Get.loop rest v
      | none => (Value.nil, false)
    | _ => (Value.nil, false)

/-- The method `Get`. -/
def BodyField.Get (f : BodyField) (entry : Entry α) : Value α × Bool :=
  BodyField.Get.loop f.Keys entry.Body

/-- The type assertion `entry.Body.(map[string]interface{})` followed by the
replacement of a body that is no map with an empty map. -/
def bodyMap (body : Value α) : String → Option (Value α) :=
  match body with
  | Value.map m => m
  | _ => Kube.mapEmpty

/-- Modelled from the spec: `getNestedMap` is declared outside body_field.go.
It returns the map stored in `currentMap` under `key`; when the key is absent
or holds a value that is no map, an empty map is stored there and returned
("It will overwrite any intermediate values as necessary"). -/
def getNestedMap (currentMap : String → Option (Value α)) (key : String) :
    String → Option (Value α) :=
  match currentMap key with
  | some (Value.map nextMap) => nextMap
  | _ => Kube.mapEmpty

/-- The loop of `Merge` over the keys followed by the loop over `mapValues`:
the content of `currentMap` when both are done. The Go code walks down by
reference; here the map under each key is rebuilt on the way back. -/
def BodyField.Merge.loop (mapValues : String → Option (Value α)) :
    List String → (String → Option (Value α)) → (String → Option (Value α))
  | [], currentMap => fun key =>
    match mapValues key with
    | some value => some value
    | none => currentMap key
  | key :: rest, currentMap =>
    Kube.mapSet currentMap key
      (Value.map (BodyField.Merge.loop mapValues rest (getNestedMap currentMap key)))

/-- The method `Merge`. -/
def BodyField.Merge (f : BodyField) (entry : Entry α) (mapValues : String → Option (Value α)) :
    Entry α :=
  { entry with Body := Value.map (BodyField.Merge.loop mapValues f.Keys (bodyMap entry.Body)) }

/-- The loop of `Set` over the keys: the content of `currentMap` when the loop
is done. The last key receives the value; the map under every other key is
rebuilt on the way back. -/
def BodyField.Set.loop (value : Value α) :
    List String → (String → Option (Value α)) → (String → Option (Value α))
  | [], currentMap => currentMap
  | [key], currentMap => Kube.mapSet currentMap key value
  | key :: rest, currentMap =>
    Kube.mapSet currentMap key
      (Value.map (BodyField.Set.loop value rest (getNestedMap currentMap key)))

/-- The method `Set`: the entry after the call and the returned error. -/
def BodyField.Set (f : BodyField) (entry : Entry α) (value : Value α) :
    Entry α × Option String :=
  match value with
  | Value.map mapValue => (f.Merge entry mapValue, none)
  | _ =>
    if f.isRoot then ({ entry with Body := value }, none)
    else
      ({ entry with Body := Value.map (BodyField.Set.loop value f.Keys (bodyMap entry.Body)) },
        none)

end BodyFieldOps

/-! ## Concrete entries used in the worked cases -/

namespace Examples

/-- The body `{a: {x: 1}}`. -/
def nestedBody : Value Int :=
  Value.map (Kube.mapSet Kube.mapEmpty "a"
    (Value.map (Kube.mapSet Kube.mapEmpty "x" (Value.leaf 1))))

/-- An entry with the body `{a: {x: 1}}`. -/
def nestedEntry : Entry Int := { Body := nestedBody }

/-- The map value `{y: 2}`. -/
def mapValue : Value Int :=
  Value.map (Kube.mapSet Kube.mapEmpty "y" (Value.leaf 2))

end Examples

end Stanza

/-! # Go string functions used by the modules below -/

namespace Strings

/-- The scan of `strings.Split` for a non-empty separator: `skip` characters of
a matched separator are still to be passed over, `cur` holds the characters of
the current part in reverse. -/
def Split.scan (sep : List Char) : List Char → Nat → List Char → List (List Char)
  | [], _, cur => [cur.reverse]
  | _ :: rest, skip + 1, cur => Split.scan sep rest skip cur
  | c :: rest, 0, cur =>
    if sep.isPrefixOf (c :: rest) then cur.reverse :: Split.scan sep rest (sep.length - 1) []
    else Split.scan sep rest 0 (c :: cur)

/-- The library function `strings.Split(s, sep)` for a non-empty separator: the
parts of `s` between the non-overlapping occurrences of `sep`, from the left. -/
def Split (s sep : String) : List String :=
  (Split.scan sep.data s.data 0 []).map String.mk

/-- The library function `strings.Contains(s, substr)`. -/
def Contains (s substr : String) : Bool :=
  decide (substr.data <:+: s.data)

/-- The library function `strings.Join(elems, sep)`. -/
def Join (elems : List String) (sep : String) : String :=
  sep.intercalate elems

end Strings

namespace Kube

/-! ## Container attributes -/

/-- The flags of `c.Rules` that `extractPodContainersAttributes` reads. -/
structure ContainerRules where
  ContainerImageName : Bool := false
  ContainerImageTag : Bool := false
  ContainerID : Bool := false
deriving DecidableEq, Repr

/-- The Go statement `m[k] = v` on a map held as an association list. -/
def assocSet {κ β : Type} [DecidableEq κ] (m : List (κ × β)) (k : κ) (v : β) : List (κ × β) :=
  match m with
  | [] => [(k, v)]
  | (k1, v1) :: rest => if k1 = k then (k, v) :: rest else (k1, v1) :: assocSet rest k v

/-- The first loop of `extractPodContainersAttributes`, over the container
specs, on the map `containers`. `imageParts[0]` always exists, since
`strings.Split` returns at least one part. -/
def extractPodContainersAttributes.specs (rules : ContainerRules) :
    List ContainerSpec → List (String × Container) → List (String × Container)
  | [], containers => containers
  | spec :: rest, containers =>
    let container : Container := {}
    let imageParts := Strings.Split spec.Image ":"
    let container :=
      if rules.ContainerImageName then { container with ImageName := imageParts.getD 0 "" }
      else container
    let container :=
      if rules.ContainerImageTag ∧ imageParts.length > 1 then
        { container with ImageTag := imageParts.getD 1 "" }
      else container
    extractPodContainersAttributes.specs rules rest (assocSet containers spec.Name container)

/-- The second loop of `extractPodContainersAttributes`, over the container
statuses. The container is held by pointer in Go; here the updated container
is written back under its name. -/
def extractPodContainersAttributes.statuses :
    List ContainerStatusAPI → List (String × Container) → List (String × Container)
  | [], containers => containers
  | apiStatus :: rest, containers =>
    let container : Container := (containers.lookup apiStatus.Name).getD {}
    let idParts := Strings.Split apiStatus.ContainerID "://"
    let containerID := if idParts.length = 2 then idParts.getD 1 "" else apiStatus.ContainerID
    let container :=
      { container with
        Statuses := assocSet container.Statuses apiStatus.RestartCount containerID }
    extractPodContainersAttributes.statuses rest (assocSet containers apiStatus.Name container)

/-- The function `extractPodContainersAttributes`. -/
def extractPodContainersAttributes (rules : ContainerRules) (pod : APIPod) :
    List (String × Container) :=
  let containers : List (String × Container) := []
  let containers :=
    if rules.ContainerImageName ∨ rules.ContainerImageTag then
      extractPodContainersAttributes.specs rules (pod.Spec.Containers ++ pod.Spec.InitContainers)
        containers
    else containers
  if rules.ContainerID then
    extractPodContainersAttributes.statuses
      (pod.Status.ContainerStatuses ++ pod.Status.InitContainerStatuses) containers
  else containers

/-! ## Clocks of a run -/

/-- The clock read by `appendDeleteQueue` is non-decreasing along a run: every
value read by a pod delete event is at least `lo`, the values read by one event
do not decrease, and they are bounded by a value that is a lower bound for the
events that follow. -/
def ClockOrdered : Time → List Event → Prop
  | _, [] => True
  | lo, Event.podDelete _ clock :: rest =>
    (∀ k, lo ≤ clock k) ∧ (∀ j k, j ≤ k → clock j ≤ clock k) ∧
      ∃ hi, (∀ k, clock k ≤ hi) ∧ ClockOrdered hi rest
  | lo, _ :: rest => ClockOrdered lo rest

/-! ## Further objects used in the worked cases -/

namespace Examples

/-- The pod `a` is added and deleted at time 100, a pass runs at time 120 and
the delete event is delivered again at time 200. -/
def deleteTwiceEvents : List Event :=
  [Event.podAdd (Obj.ofPod podA), Event.podDelete (Obj.ofPod podA) (fun _ => 100),
    Event.sweep 120, Event.podDelete (Obj.ofPod podA) (fun _ => 200)]

/-- A pod with two containers and one init container; the image of the first
container names a registry with a port. -/
def podRegistry : APIPod :=
  { Name := "p", UID := "uid-p",
    Spec := { Containers := [{ Name := "app", Image := "registry.local:5000/app:1.2" },
                             { Name := "web", Image := "nginx:1.21" }],
              InitContainers := [{ Name := "init", Image := "busybox" }] } }

end Examples

end Kube

namespace Stanza

section BodyFieldDelete

variable {α : Type}

/-- The loop of `Delete` over the keys, on `currentValue`: the value
`currentValue` stands for when the loop is done, and the returned pair. The
map that loses the key is reached by reference in Go; here the maps above it
are rebuilt on the way back. -/
def BodyField.Delete.loop : List String → Value α → Value α × (Value α × Bool)
  | [], currentValue => (currentValue, (Value.nil, false))
  | [key], currentValue =>
    match currentValue with
    | Value.map currentMap =>
      match currentMap key with
      | some v => (Value.map (Kube.mapDelete currentMap key), (v, true))
      | none => (currentValue, (Value.nil, false))
    | _ => (currentValue, (Value.nil, false))
  | key :: rest, currentValue =>
    match currentValue with
    | Value.map currentMap =>
      match currentMap key with
      | some v =>
        let r := BodyField.Delete.loop rest v
        (Value.map (Kube.mapSet currentMap key r.1), r.2)
      | none => (currentValue, (Value.nil, false))
    | _ => (currentValue, (Value.nil, false))

/-- The method `Delete`: the entry after the call and the returned pair. -/
def BodyField.Delete (f : BodyField) (entry : Entry α) : Entry α × (Value α × Bool) :=
  if f.isRoot then ({ entry with Body := Value.nil }, (entry.Body, true))
  else
    let r := BodyField.Delete.loop f.Keys entry.Body
    ({ entry with Body := r.1 }, r.2)

end BodyFieldDelete

end Stanza

/-! # Queries of the PostgreSQL receiver (`receiver/postgresqlreceiver/client.go`) -/

namespace PostgreSQL

/-- The type `tableStats`. -/
structure tableStats where
  database : String := ""
  table : String := ""
  live : Int := 0
  dead : Int := 0
  inserts : Int := 0
  upd : Int := 0
  del : Int := 0
  hotUpd : Int := 0
  size : Int := 0
  vacuumCount : Int := 0
deriving DecidableEq, Repr

/-- The nine columns of one row of the table-metrics query, in the order of
the `SELECT` and of the arguments of `rows.Scan`. -/
structure Row where
  table : String := ""
  live : Int := 0
  dead : Int := 0
  ins : Int := 0
  upd : Int := 0
  del : Int := 0
  hotUpd : Int := 0
  tableSize : Int := 0
  vacuumCount : Int := 0
deriving DecidableEq, Repr

/-- The function `tableKey`. -/
def tableKey (database table : String) : String :=
  database ++ "|" ++ table

/-- The loop `for rows.Next()` of `getDatabaseTableMetrics`, on the map `ts`
and the accumulated errors. Each element is the outcome of `rows.Scan` on one
row: the scanned columns or the error. -/
def getDatabaseTableMetrics.loop (db : String) :
    List (Except String Row) → (String → Option tableStats) → List String →
      (String → Option tableStats) × List String
  | [], ts, errors => (ts, errors)
  | Except.error err :: rest, ts, errors =>
    getDatabaseTableMetrics.loop db rest ts (errors ++ [err])
  | Except.ok row :: rest, ts, errors =>
    getDatabaseTableMetrics.loop db rest
      (Kube.mapSet ts (tableKey db row.table)
        { database := db
          table := row.table
          live := row.live
          inserts := row.ins
          upd := row.upd
          del := row.del
          hotUpd := row.hotUpd
          size := row.tableSize
          vacuumCount := row.vacuumCount })
      errors

/-- The method `getDatabaseTableMetrics`; `queryResult` is what
`c.client.QueryContext` returns for the table-metrics query: an error, or the
rows with the outcome of their scan. The returned error is the list of the
appended errors, empty for nil. -/
def getDatabaseTableMetrics (queryResult : Except String (List (Except String Row)))
    (db : String) : Option (String → Option tableStats) × List String :=
  match queryResult with
  | Except.error err => (none, [err])
  | Except.ok rows =>
    let r := getDatabaseTableMetrics.loop db rows Kube.mapEmpty []
    (some r.1, r.2)

/-- The loop of `filterQueryByDatabases` that quotes the database names. -/
def filterQueryByDatabases.quote : List String → List String → List String
  | [], queryDatabases => queryDatabases
  | db :: rest, queryDatabases =>
    filterQueryByDatabases.quote rest (queryDatabases ++ ["'" ++ db ++ "'"])

/-- The function `filterQueryByDatabases`. -/
def filterQueryByDatabases (baseQuery : String) (databases : List String) (groupBy : Bool) :
    String :=
  let baseQuery :=
    if databases.length > 0 then
      let queryDatabases := filterQueryByDatabases.quote databases []
      if Strings.Contains baseQuery "WHERE" then
        baseQuery ++ (" AND datname IN (" ++ Strings.Join queryDatabases "," ++ ")")
      else
        baseQuery ++ (" WHERE datname IN (" ++ Strings.Join queryDatabases "," ++ ")")
    else baseQuery
  let baseQuery := if groupBy then baseQuery ++ " GROUP BY datname" else baseQuery
  baseQuery ++ ";"

end PostgreSQL

/-! # The function `TraceID` of the query language
(`pkg/telemetryquerylanguage/functions/tqlotel/func_trace_id.go`) -/

namespace TQL

/-- A `pcommon.TraceID`: the wrapped array of 16 bytes, held as the list of its
bytes. -/
structure PTraceID where
  bytes : List Nat
deriving DecidableEq, Repr

/-- The built-in `copy(dst, src)`: the first `min(len(dst), len(src))` elements
of `dst` are replaced by those of `src`. -/
def copy (dst src : List Nat) : List Nat :=
  src.take dst.length ++ dst.drop (src.take dst.length).length

/-- The function `TraceID`; `κ` is the type `tql.TransformContext`. -/
def TraceID {κ : Type} (bytes : List Nat) : Option (κ → PTraceID) × Option String :=
  if bytes.length ≠ 16 then (none, some "traces ids must be 16 bytes")
  else
    let idArr : List Nat := List.replicate 16 0
    let idArr := copy idArr bytes
    let id : PTraceID := { bytes := idArr }
    (some (fun _ => id), none)

end TQL

namespace Kube

/-! ## Map and loop lemmas -/

section Lemmas

variable {κ ν : Type} [DecidableEq κ]

@[simp] theorem mapSet_self (m : κ → Option ν) (k : κ) (v : ν) : mapSet m k v k = some v := by
  simp [mapSet]

@[simp] theorem mapSet_of_ne (m : κ → Option ν) {k x : κ} (v : ν) (h : x ≠ k) :
    mapSet m k v x = m x := by
  simp [mapSet, h]

@[simp] theorem mapDelete_self (m : κ → Option ν) (k : κ) : mapDelete m k k = none := by
  simp [mapDelete]

@[simp] theorem mapDelete_of_ne (m : κ → Option ν) {k x : κ} (h : x ≠ k) :
    mapDelete m k x = m x := by
  simp [mapDelete, h]

end Lemmas

/-- An identifier occupied by a record whose start time is set and not before
the incoming start time keeps that record through the whole upsert loop. -/
theorem addOrUpdatePod.loop_keeps (newPod : Pod) (startTime : MetaTime) (I : PodIdentifier)
    (P : Pod) (hset : P.StartTime ≠ none) (hnb : MetaTime.Before P.StartTime startTime = false) :
    ∀ (ids : List PodIdentifier) (pods : PodIdentifier → Option Pod),
      pods I = some P → addOrUpdatePod.loop newPod startTime ids pods I = some P := by
  intro ids
  induction ids with
  | nil => intro pods h; simpa [addOrUpdatePod.loop] using h
  | cons id rest ih =>
    intro pods h
    by_cases hid : id = I
    · subst hid
      simp [addOrUpdatePod.loop, h, hset, hnb]
    · have hI : I ≠ id := fun e => hid e.symm
      have hw : mapSet pods id newPod I = some P := by simpa [mapSet_of_ne _ _ hI] using h
      cases hq : pods id with
      | none => simpa [addOrUpdatePod.loop, hq] using ih _ hw
      | some p =>
        simp only [addOrUpdatePod.loop, hq]
        split_ifs
        · exact h
        · exact ih _ hw

/-- The zero identifier has `PodIdentifierMaxLength` slots. -/
theorem PodIdentifier.zero_length (n : Nat) : (PodIdentifier.zero n).length = n := by
  simp [PodIdentifier.zero]

/-- A source at an index inside the array is processed without a panic and
keeps the number of slots. -/
theorem getIdentifiersFromAssoc.source_total (pod : Pod) (i : Nat) (source : AssociationSource)
    (st : PodIdentifier × Bool) (hi : i < st.1.length) :
    ∃ st1, getIdentifiersFromAssoc.source pod i source st = some st1 ∧
      st1.1.length = st.1.length := by
  unfold getIdentifiersFromAssoc.source
  simp only [PodIdentifier.assign, hi, if_true, Option.map_some']
  split_ifs <;> simp

/-- The loop over the sources does not panic when the remaining sources fit
into the array. -/
theorem getIdentifiersFromAssoc.sources_total (pod : Pod) :
    ∀ (srcs : List AssociationSource) (i : Nat) (st : PodIdentifier × Bool),
      i + srcs.length ≤ st.1.length →
      ∃ st1, getIdentifiersFromAssoc.sources pod i srcs st = some st1 := by
  intro srcs
  induction srcs with
  | nil => intro i st _; exact ⟨st, rfl⟩
  | cons s rest ih =>
    intro i st h
    simp only [List.length_cons] at h
    obtain ⟨st1, h1, hl⟩ := getIdentifiersFromAssoc.source_total pod i s st (by omega)
    obtain ⟨st2, h2⟩ := ih (i + 1) st1 (by omega)
    exact ⟨st2, by simp [getIdentifiersFromAssoc.sources, h1, h2]⟩

/-- The loop over the associations does not panic when every association fits
into the array. -/
theorem getIdentifiersFromAssoc.assocs_total (n : Nat) (pod : Pod) :
    ∀ (assocs : List Association) (ids : List PodIdentifier),
      (∀ a ∈ assocs, a.Sources.length ≤ n) →
      ∃ r, getIdentifiersFromAssoc.assocs n pod assocs ids = some r := by
  intro assocs
  induction assocs with
  | nil => intro ids _; exact ⟨ids, rfl⟩
  | cons a rest ih =>
    intro ids h
    obtain ⟨st1, h1⟩ := getIdentifiersFromAssoc.sources_total pod a.Sources 0
      (PodIdentifier.zero n, false)
      (by simpa [PodIdentifier.zero_length] using h a (List.mem_cons_self _ _))
    obtain ⟨r, hr⟩ := ih (if st1.2 then ids else ids ++ [st1.1])
      (fun b hb => h b (List.mem_cons_of_mem _ hb))
    refine ⟨r, ?_⟩
    obtain ⟨ret, skip⟩ := st1
    simp only [getIdentifiersFromAssoc.assocs, h1]
    exact hr

/-- With at most `PodIdentifierMaxLength` sources in every association (what
`Config.Validate` checks), `getIdentifiersFromAssoc` returns a list. -/
theorem getIdentifiersFromAssoc_total (n : Nat) (c : WatchClient) (pod : Pod)
    (h : ∀ a ∈ c.Associations, a.Sources.length ≤ n) :
    ∃ ids, getIdentifiersFromAssoc n c pod = some ids := by
  obtain ⟨r, hr⟩ := getIdentifiersFromAssoc.assocs_total n pod c.Associations [] h
  simp [getIdentifiersFromAssoc, hr]

/-- The loop of `forgetPod` changes the delete queue only: it appends, in
identifier order, one request per identifier whose stored record is not
flagged `Ignore` and carries the pod name. -/
theorem forgetPod.loop_eq (podName : String) (clock : Nat → Time) :
    ∀ (ids : List PodIdentifier) (k : Nat) (c : WatchClient),
      forgetPod.loop podName clock k ids c =
        { c with
          deleteQueue := c.deleteQueue ++
            ((ids.enumFrom k).filter (fun ki =>
                match c.Pods ki.2 with
                | some p => !p.Ignore && decide (p.Name = podName)
                | none => false)).map
                  (fun ki => ({ id := ki.2, podName := podName, ts := clock ki.1 } :
                    deleteRequest)) } := by
  intro ids
  induction ids with
  | nil => intro k c; simp [forgetPod.loop]
  | cons id rest ih =>
    intro k c
    cases hq : c.Pods id with
    | none => simp [forgetPod.loop, GetPod, hq, ih]
    | some p =>
      cases hi : p.Ignore
      · by_cases hn : p.Name = podName
        · simp [forgetPod.loop, GetPod, hq, hi, hn, ih, appendDeleteQueue]
        · simp [forgetPod.loop, GetPod, hq, hi, hn, ih]
      · simp [forgetPod.loop, GetPod, hq, hi, ih]

/-- The scan for `cutoff` counts the leading requests whose grace period has
passed. -/
theorem deleteLoop.cutoff_eq (g : Duration) (now : Time) :
    ∀ (q : List deleteRequest) (i : Nat),
      deleteLoop.cutoff g now q i i =
        i + (q.takeWhile (fun d => decide (d.ts + g ≤ now))).length := by
  intro q
  induction q with
  | nil => intro i; simp [deleteLoop.cutoff]
  | cons d rest ih =>
    intro i
    by_cases h : now < d.ts + g
    · have h' : ¬ (d.ts + g ≤ now) := not_le.mpr h
      simp [deleteLoop.cutoff, h, List.takeWhile_cons, h']
    · have h' : d.ts + g ≤ now := not_lt.mp h
      simp only [deleteLoop.cutoff, h, if_false, ih (i + 1), List.takeWhile_cons, h',
        decide_True, if_true, List.length_cons]
      omega

/-- Taking as many elements as `takeWhile` keeps gives `takeWhile`. -/
theorem take_length_takeWhile {α : Type} (p : α → Bool) :
    ∀ l : List α, l.take (l.takeWhile p).length = l.takeWhile p := by
  intro l
  induction l with
  | nil => rfl
  | cons a rest ih =>
    cases h : p a <;> simp [List.takeWhile_cons, h, ih]

/-- Dropping as many elements as `takeWhile` keeps gives `dropWhile`. -/
theorem drop_length_takeWhile {α : Type} (p : α → Bool) :
    ∀ l : List α, l.drop (l.takeWhile p).length = l.dropWhile p := by
  intro l
  induction l with
  | nil => rfl
  | cons a rest ih =>
    cases h : p a <;> simp [List.takeWhile_cons, List.dropWhile_cons, h, ih]

/-- On a queue with non-decreasing timestamps the due requests form a prefix. -/
theorem due_prefix_of_sorted (g : Duration) (now : Time) :
    ∀ q : List deleteRequest, (q.map deleteRequest.ts).Sorted (· ≤ ·) →
      q.takeWhile (fun d => decide (d.ts + g ≤ now)) = q.filter (fun d => decide (d.ts + g ≤ now)) ∧
      q.dropWhile (fun d => decide (d.ts + g ≤ now)) = q.filter (fun d => decide (now < d.ts + g)) := by
  intro q
  induction q with
  | nil => intro _; simp
  | cons d rest ih =>
    intro hs
    simp only [List.map_cons, List.sorted_cons] at hs
    obtain ⟨hd, hrest⟩ := hs
    obtain ⟨ih1, ih2⟩ := ih hrest
    by_cases h : d.ts + g ≤ now
    · have h' : ¬ (now < d.ts + g) := not_lt.mpr h
      simp [List.takeWhile_cons, List.dropWhile_cons, List.filter_cons, h, h', ih1, ih2]
    · have h' : now < d.ts + g := not_le.mp h
      have hall : ∀ e ∈ rest, now < e.ts + g := by
        intro e he
        have hle : d.ts ≤ e.ts := hd e.ts (List.mem_map_of_mem _ he)
        exact lt_of_lt_of_le h' (add_le_add_right hle g)
      have hnil : rest.filter (fun d => decide (d.ts + g ≤ now)) = [] := by
        rw [List.filter_eq_nil_iff]
        intro e he
        have := hall e he
        simp only [decide_eq_true_eq, not_le]
        exact this
      have hself : rest.filter (fun d => decide (now < d.ts + g)) = rest := by
        rw [List.filter_eq_self]
        intro e he
        simpa using hall e he
      simp [List.takeWhile_cons, List.dropWhile_cons, List.filter_cons, h, h', hnil, hself]

/-- Processing the popped requests one after the other: `deleteLoop.apply` is
the left fold of its one-request step. -/
theorem deleteLoop.apply_eq_foldl :
    ∀ (ds : List deleteRequest) (pods : PodIdentifier → Option Pod),
      deleteLoop.apply ds pods = ds.foldl (fun m d => deleteLoop.apply [d] m) pods := by
  intro ds
  induction ds with
  | nil => intro pods; rfl
  | cons d rest ih =>
    intro pods
    simp only [List.foldl_cons]
    rw [← ih]
    cases hq : pods d.id with
    | none => simp [deleteLoop.apply, hq]
    | some p =>
      by_cases hn : p.Name = d.podName <;> simp [deleteLoop.apply, hq, hn]

/-- The effect of one popped request on the map. -/
theorem deleteLoop.apply_single (d : deleteRequest) (pods : PodIdentifier → Option Pod) :
    ((∃ p, pods d.id = some p ∧ p.Name = d.podName) →
      deleteLoop.apply [d] pods = mapDelete pods d.id) ∧
    ((¬ ∃ p, pods d.id = some p ∧ p.Name = d.podName) → deleteLoop.apply [d] pods = pods) := by
  cases hq : pods d.id with
  | none => simp [deleteLoop.apply, hq]
  | some p =>
    by_cases hn : p.Name = d.podName <;> simp [deleteLoop.apply, hq, hn]

/-- The effect of a list of popped requests on one identifier: the entry is
removed when some request names the identifier and the name of its record,
and is untouched otherwise. -/
theorem deleteLoop.apply_at (I : PodIdentifier) :
    ∀ (ds : List deleteRequest) (pods : PodIdentifier → Option Pod),
      ((∃ d ∈ ds, d.id = I ∧ ∃ p, pods I = some p ∧ p.Name = d.podName) →
        deleteLoop.apply ds pods I = none) ∧
      ((¬ ∃ d ∈ ds, d.id = I ∧ ∃ p, pods I = some p ∧ p.Name = d.podName) →
        deleteLoop.apply ds pods I = pods I) := by
  intro ds
  induction ds with
  | nil => intro pods; simp [deleteLoop.apply]
  | cons d rest ih =>
    intro pods
    by_cases hid : d.id = I
    · subst hid
      cases hq : pods d.id with
      | none =>
        have := ih pods
        simp only [hq] at this
        simp [deleteLoop.apply, hq]
        simpa using this.2
      | some p =>
        by_cases hn : p.Name = d.podName
        · have h1 := ih (mapDelete pods d.id)
          simp only [mapDelete_self] at h1
          have : deleteLoop.apply rest (mapDelete pods d.id) d.id = none := by
            simpa using h1.2
          simp [deleteLoop.apply, hq, hn, this]
        · have h1 := ih pods
          simp only [hq] at h1
          simp only [deleteLoop.apply, hq, hn, if_false]
          constructor
          · intro hex
            apply h1.1
            obtain ⟨e, he, hei, q, hq1, hq2⟩ := hex
            rcases List.mem_cons.mp he with rfl | he
            · simp only [Option.some.injEq] at hq1; subst hq1; exact absurd hq2 hn
            · exact ⟨e, he, hei, q, hq1, hq2⟩
          · intro hnex
            apply h1.2
            intro hex
            apply hnex
            obtain ⟨e, he, hei, q, hq1, hq2⟩ := hex
            exact ⟨e, List.mem_cons_of_mem _ he, hei, q, hq1, hq2⟩
    · have hI : I ≠ d.id := fun e => hid e.symm
      have hstep : ∀ m : PodIdentifier → Option Pod, m I = pods I →
          ((∃ e ∈ d :: rest, e.id = I ∧ ∃ p, pods I = some p ∧ p.Name = e.podName) →
            deleteLoop.apply rest m I = none) ∧
          ((¬ ∃ e ∈ d :: rest, e.id = I ∧ ∃ p, pods I = some p ∧ p.Name = e.podName) →
            deleteLoop.apply rest m I = pods I) := by
        intro m hm
        have h1 := ih m
        rw [hm] at h1
        constructor
        · intro hex
          apply h1.1
          obtain ⟨e, he, hei, q, hq1, hq2⟩ := hex
          rcases List.mem_cons.mp he with rfl | he
          · exact absurd hei hid
          · exact ⟨e, he, hei, q, hq1, hq2⟩
        · intro hnex
          apply h1.2
          intro hex
          apply hnex
          obtain ⟨e, he, hei, q, hq1, hq2⟩ := hex
          exact ⟨e, List.mem_cons_of_mem _ he, hei, q, hq1, hq2⟩
      cases hq : pods d.id with
      | none => simpa [deleteLoop.apply, hq] using hstep pods rfl
      | some p =>
        by_cases hn : p.Name = d.podName
        · simpa [deleteLoop.apply, hq, hn] using hstep (mapDelete pods d.id)
            (mapDelete_of_ne _ hI)
        · simpa [deleteLoop.apply, hq, hn] using hstep pods rfl

/-- The requests popped by an eviction pass are the leading due requests. -/
theorem deleteLoop.toDelete_eq (c : WatchClient) (g : Duration) (now : Time) :
    deleteLoop.toDelete c g now = c.deleteQueue.takeWhile (fun d => decide (d.ts + g ≤ now)) := by
  unfold deleteLoop.toDelete
  rw [deleteLoop.cutoff_eq, Nat.zero_add, take_length_takeWhile]

/-- The queue left by an eviction pass starts at the first request that is not
due. -/
theorem deleteLoop.pass_deleteQueue (c : WatchClient) (g : Duration) (now : Time) :
    (deleteLoop.pass c g now).deleteQueue =
      c.deleteQueue.dropWhile (fun d => decide (d.ts + g ≤ now)) := by
  unfold deleteLoop.pass
  simp only
  rw [deleteLoop.cutoff_eq, Nat.zero_add, drop_length_takeWhile]

/-- The map left by an eviction pass. -/
theorem deleteLoop.pass_Pods (c : WatchClient) (g : Duration) (now : Time) :
    (deleteLoop.pass c g now).Pods = deleteLoop.apply (deleteLoop.toDelete c g now) c.Pods :=
  rfl


/-! ## The upsert `addOrUpdatePod` -/

/-- C1, evaluated on the code: with the association `k8s.pod.uid` configured and
an empty cache, the pod `a` (UID, address and start time set) resolves to the
identifiers uid, uid, connection; `addOrUpdatePod` writes the uid identifier,
meets it again occupied by the record just written, whose start time is not
before the incoming one, and returns: the connection identifier is left
unmapped. -/
theorem addOrUpdatePod_empty_cache_duplicate_identifier :
    (Examples.emptyClient Examples.rules [Examples.uidRule]).Pods = mapEmpty ∧
    getIdentifiersFromAssoc 4 (Examples.emptyClient Examples.rules [Examples.uidRule])
        (podFromAPI (Examples.emptyClient Examples.rules [Examples.uidRule]) Examples.podA)
      = some [Examples.uidId "uid-a", Examples.uidId "uid-a", Examples.connId "10.0.0.1"] ∧
    (addOrUpdatePod 4 (Examples.emptyClient Examples.rules [Examples.uidRule]) Examples.podA).map
        (fun c => (c.Pods (Examples.uidId "uid-a"), c.Pods (Examples.connId "10.0.0.1")))
      = some (some (podFromAPI (Examples.emptyClient Examples.rules [Examples.uidRule])
          Examples.podA), none) :=
  ⟨rfl, by decide, by decide⟩

/-- C2: if before `addOrUpdatePod(R)` an identifier is mapped to a record `P`
whose start time is set and is not earlier than the start time of `R`, then
after the call the identifier is still mapped to `P`. This holds for every
identifier, those of `R` included. -/
theorem addOrUpdatePod_rejects_stale_write (n : Nat) (c c' : WatchClient) (pod : APIPod)
    (I : PodIdentifier) (P : Pod) (tP : Time)
    (hocc : c.Pods I = some P) (hset : P.StartTime = some tP)
    (hnotEarlier : ∀ tR, pod.Status.StartTime = some tR → tR ≤ tP)
    (hcall : addOrUpdatePod n c pod = some c') :
    c'.Pods I = some P := by
  have hnb : MetaTime.Before P.StartTime pod.Status.StartTime = false := by
    rw [hset]
    cases hR : pod.Status.StartTime with
    | none => rfl
    | some tR =>
      have := hnotEarlier tR hR
      simp only [MetaTime.Before, decide_eq_false_iff_not, not_lt]
      exact this
  have hne : P.StartTime ≠ none := by simp [hset]
  unfold addOrUpdatePod at hcall
  cases hids : getIdentifiersFromAssoc n c (podFromAPI c pod) with
  | none => simp [hids] at hcall
  | some ids =>
    simp only [hids, Option.some.injEq] at hcall
    subst hcall
    exact addOrUpdatePod.loop_keeps _ _ I P hne hnb ids c.Pods hocc

/-- C2 on the scenario of the spec: pod `a` (start 10) is upserted at the
address 10.0.0.1, then pod `b` (start 5) with the same address; the connection
identifier is an identifier of `b` and stays mapped to the record of `a`. -/
theorem addOrUpdatePod_rejects_stale_write_witness :
    getIdentifiersFromAssoc 4 Examples.cacheA (podFromAPI Examples.cacheA Examples.podB)
      = some [Examples.uidId "uid-b", Examples.connId "10.0.0.1"] ∧
    Examples.cacheA.Pods (Examples.connId "10.0.0.1")
      = some (podFromAPI Examples.cacheA Examples.podA) ∧
    (Examples.after Examples.cacheA (addOrUpdatePod 4 Examples.cacheA Examples.podB)).Pods
        (Examples.connId "10.0.0.1")
      = some (podFromAPI Examples.cacheA Examples.podA) :=
  ⟨by decide, by decide,
    addOrUpdatePod_rejects_stale_write 4 Examples.cacheA
      (Examples.after Examples.cacheA (addOrUpdatePod 4 Examples.cacheA Examples.podB))
      Examples.podB (Examples.connId "10.0.0.1") (podFromAPI Examples.cacheA Examples.podA) 10
      (by decide) (by decide) (by intro tR h; cases h; decide) rfl⟩

/-- C3, evaluated on the code: the connection association is configured and the
cache holds pod `n` (start 10) at the address 10.0.0.1. A late event for pod
`o` (start 5, same address) resolves to the identifiers connection, uid,
connection. The connection identifier is occupied by the newer record, and
`addOrUpdatePod` returns there: the uid identifier of `o`, occupied by no
record, is not written and `GetPod` does not find it. -/
theorem addOrUpdatePod_stale_identifier_ends_upsert :
    getIdentifiersFromAssoc 4 Examples.cacheNew (podFromAPI Examples.cacheNew Examples.podOld)
      = some [Examples.connId "10.0.0.1", Examples.uidId "uid-o", Examples.connId "10.0.0.1"] ∧
    Examples.cacheNew.Pods (Examples.connId "10.0.0.1")
      = some (podFromAPI Examples.cacheNew Examples.podNew) ∧
    Examples.cacheNew.Pods (Examples.uidId "uid-o") = none ∧
    (podFromAPI Examples.cacheNew Examples.podOld).Ignore = false ∧
    (addOrUpdatePod 4 Examples.cacheNew Examples.podOld).map
        (fun c => (GetPod c (Examples.uidId "uid-o")).2) = some (none, false) := by
  decide

/-- C4, evaluated on the code: the cache holds the record of pod `a`, started at
time 10 and without an address; the update event that brings the address of the
same pod, with the same start time, meets the uid identifier occupied by a
record whose start time is not before the incoming one and returns: the cached
record is not replaced, and the connection identifier is not written. -/
theorem handlePodUpdate_equal_start_time_keeps_old_record :
    Examples.podA.Status.StartTime = Examples.podAStarted.Status.StartTime ∧
    Examples.cacheAStarted.Pods (Examples.uidId "uid-a")
      = some (podFromAPI Examples.cacheAStarted Examples.podAStarted) ∧
    getIdentifiersFromAssoc 4 Examples.cacheAStarted
        (podFromAPI Examples.cacheAStarted Examples.podA)
      = some [Examples.uidId "uid-a", Examples.connId "10.0.0.1"] ∧
    podFromAPI Examples.cacheAStarted Examples.podA
      ≠ podFromAPI Examples.cacheAStarted Examples.podAStarted ∧
    (handlePodUpdate 4 Examples.cacheAStarted (Obj.ofPod Examples.podAStarted)
        (Obj.ofPod Examples.podA)).map
        (fun c => (c.Pods (Examples.uidId "uid-a"), c.Pods (Examples.connId "10.0.0.1")))
      = some (some (podFromAPI Examples.cacheAStarted Examples.podAStarted), none) := by
  decide

/-! ## The lookup `GetPod` -/

/-- C5: `GetPod(I)` returns `(P, true)` exactly when the `Pods` map holds at `I`
a record `P` whose `Ignore` flag is false; it returns `(nil, false)` exactly
when `I` is absent or the stored record has `Ignore` set; the state after the
call is the state before it. -/
theorem GetPod_spec (c : WatchClient) (I : PodIdentifier) :
    (GetPod c I).1 = c ∧
    (∀ P : Pod, (GetPod c I).2 = (some P, true) ↔ (c.Pods I = some P ∧ P.Ignore = false)) ∧
    ((GetPod c I).2 = (none, false) ↔
      (c.Pods I = none ∨ ∃ P : Pod, c.Pods I = some P ∧ P.Ignore = true)) := by
  unfold GetPod
  cases h : c.Pods I with
  | none => simp
  | some Q =>
    cases hq : Q.Ignore <;> simp [hq]

/-! ## The delete event `forgetPod` -/

/-- C6, evaluated on the code: the pod named `ignored` is excluded by name, so
its record is cached with `Ignore` set, under its uid and connection
identifiers and with its name. The claim asks for one delete request for each
of the two identifiers. `forgetPod` of the pod enqueues nothing: it looks the
identifiers up through `GetPod`, which reports a record flagged `Ignore` as not
found, while `addOrUpdatePod` and the name check of the eviction pass read the
`Pods` map itself. So after the add event, the delete event and a pass at time
1000000 both entries of the ignored pod are still in the map, whereas the same
three events for the pod `a`, which is not ignored, leave none of its
entries. -/
theorem forgetPod_ignored_record_not_enqueued :
    getIdentifiersFromAssoc 4 Examples.cacheIgnored
        (podFromAPI Examples.cacheIgnored Examples.podI)
      = some [Examples.uidId "uid-i", Examples.connId "10.0.0.9"] ∧
    (Examples.cacheIgnored.Pods (Examples.uidId "uid-i")).map (fun p => (p.Name, p.Ignore))
      = some (Examples.podI.Name, true) ∧
    (Examples.cacheIgnored.Pods (Examples.connId "10.0.0.9")).map (fun p => (p.Name, p.Ignore))
      = some (Examples.podI.Name, true) ∧
    Examples.cacheIgnored.deleteQueue = [] ∧
    (forgetPod 4 Examples.cacheIgnored Examples.podI (fun _ => 7)).map
        (fun c => c.deleteQueue) = some [] ∧
    (run 4 50 (New Examples.ignoreRules [])
        [Event.podAdd (Obj.ofPod Examples.podI),
          Event.podDelete (Obj.ofPod Examples.podI) (fun _ => 7), Event.sweep 1000000]).map
        (fun c => ((c.Pods (Examples.uidId "uid-i")).isSome,
          (c.Pods (Examples.connId "10.0.0.9")).isSome, c.deleteQueue))
      = some (true, true, []) ∧
    (run 4 50 (New Examples.rules [])
        [Event.podAdd (Obj.ofPod Examples.podA),
          Event.podDelete (Obj.ofPod Examples.podA) (fun _ => 7), Event.sweep 1000000]).map
        (fun c => ((c.Pods (Examples.uidId "uid-a")).isSome,
          (c.Pods (Examples.connId "10.0.0.1")).isSome, c.deleteQueue))
      = some (false, false, []) := by
  decide

/-- The queue after `forgetPod`, as the code computes it: the queue before the
call followed by one request `(I, R.Name)` for each identifier `I` of `R` that
`GetPod` finds with a record named `R.Name`, in identifier order, stamped with
the clock value read at that identifier. A record flagged `Ignore` is passed
over, which is the defect shown above. -/
theorem forgetPod_enqueues (n : Nat) (c c' : WatchClient) (pod : APIPod) (clock : Nat → Time)
    (ids : List PodIdentifier)
    (hids : getIdentifiersFromAssoc n c (podFromAPI c pod) = some ids)
    (hcall : forgetPod n c pod clock = some c') :
    c'.deleteQueue = c.deleteQueue ++
      (ids.enum.filter (fun ki =>
          match c.Pods ki.2 with
          | some p => !p.Ignore && decide (p.Name = pod.Name)
          | none => false)).map
        (fun ki => ({ id := ki.2, podName := pod.Name, ts := clock ki.1 } : deleteRequest)) := by
  simp only [forgetPod, hids, Option.some.injEq] at hcall
  subst hcall
  rw [forgetPod.loop_eq]
  rfl

/-- The queue after `forgetPod` on a concrete cache: pod `a` is cached under its
uid and connection identifiers; `forgetPod` of pod `a` enqueues one request for
each, in that order. -/
theorem forgetPod_enqueues_witness :
    (Examples.after Examples.cacheA
        (forgetPod 4 Examples.cacheA Examples.podA (fun k => 100 + k))).deleteQueue
      = [{ id := Examples.uidId "uid-a", podName := "a", ts := 100 },
         { id := Examples.connId "10.0.0.1", podName := "a", ts := 101 }] :=
  (forgetPod_enqueues 4 Examples.cacheA
      (Examples.after Examples.cacheA
        (forgetPod 4 Examples.cacheA Examples.podA (fun k => 100 + k)))
      Examples.podA (fun k => 100 + k)
      [Examples.uidId "uid-a", Examples.connId "10.0.0.1"] (by decide) rfl).trans (by decide)

/-- C7: `forgetPod` and `handlePodDelete` leave the `Pods` map and the
`Namespaces` map as they were and only append to the delete queue, whatever
object the handler receives; with at most `PodIdentifierMaxLength` sources in
every association both calls return. -/
theorem forgetPod_frame (n : Nat) (c : WatchClient) (pod : APIPod) (obj : Obj)
    (clock : Nat → Time) :
    (∀ c', (forgetPod n c pod clock = some c' ∨ handlePodDelete n c obj clock = some c') →
      c'.Pods = c.Pods ∧ c'.Namespaces = c.Namespaces ∧
        ∃ new, c'.deleteQueue = c.deleteQueue ++ new) ∧
    ((∀ a ∈ c.Associations, a.Sources.length ≤ n) →
      (forgetPod n c pod clock).isSome = true ∧ (handlePodDelete n c obj clock).isSome = true) := by
  have key : ∀ (q : APIPod) (c' : WatchClient), forgetPod n c q clock = some c' →
      c'.Pods = c.Pods ∧ c'.Namespaces = c.Namespaces ∧
        ∃ new, c'.deleteQueue = c.deleteQueue ++ new := by
    intro q c' h
    unfold forgetPod at h
    cases hids : getIdentifiersFromAssoc n c (podFromAPI c q) with
    | none => simp [hids] at h
    | some ids =>
      simp only [hids, Option.some.injEq] at h
      subst h
      rw [forgetPod.loop_eq]
      exact ⟨rfl, rfl, _, rfl⟩
  have tot : (∀ a ∈ c.Associations, a.Sources.length ≤ n) →
      ∀ q : APIPod, (forgetPod n c q clock).isSome = true := by
    intro hv q
    obtain ⟨ids, hids⟩ := getIdentifiersFromAssoc_total n c (podFromAPI c q) hv
    simp [forgetPod, hids]
  refine ⟨?_, ?_⟩
  · intro c' h
    rcases h with h | h
    · exact key pod c' h
    · cases obj with
      | ofPod q => exact key q c' h
      | ofNamespace ns =>
        simp only [handlePodDelete, Option.some.injEq] at h
        subst h
        exact ⟨rfl, rfl, [], by simp⟩
      | other =>
        simp only [handlePodDelete, Option.some.injEq] at h
        subst h
        exact ⟨rfl, rfl, [], by simp⟩
  · intro hv
    refine ⟨tot hv pod, ?_⟩
    cases obj with
    | ofPod q => exact tot hv q
    | ofNamespace ns => rfl
    | other => rfl

/-- C7 on a concrete cache: the delete event of pod `a` returns and leaves the
entries of both identifiers of `a` in the `Pods` map. -/
theorem forgetPod_frame_witness :
    (handlePodDelete 4 Examples.cacheA (Obj.ofPod Examples.podA) (fun _ => 100)).isSome = true ∧
    (Examples.after Examples.cacheA
        (handlePodDelete 4 Examples.cacheA (Obj.ofPod Examples.podA) (fun _ => 100))).Pods
      = Examples.cacheA.Pods :=
  ⟨((forgetPod_frame 4 Examples.cacheA Examples.podA (Obj.ofPod Examples.podA)
      (fun _ => 100)).2 (by decide)).2,
   ((forgetPod_frame 4 Examples.cacheA Examples.podA (Obj.ofPod Examples.podA)
      (fun _ => 100)).1 _ (Or.inr rfl)).1⟩

/-! ## The eviction pass of `deleteLoop` -/

/-- C8: one eviction pass pops the longest prefix of requests with
`ts + gracePeriod ≤ now`, applies the popped requests in queue order and keeps
the rest of the queue in order; on a queue with non-decreasing timestamps the
popped requests are exactly those with `ts + gracePeriod ≤ now` and the
remaining ones exactly those with `ts + gracePeriod > now`. -/
theorem deleteLoop_pass_pops_due_requests (c : WatchClient) (g : Duration) (now : Time) :
    deleteLoop.toDelete c g now = c.deleteQueue.takeWhile (fun d => decide (d.ts + g ≤ now)) ∧
    (deleteLoop.pass c g now).deleteQueue
      = c.deleteQueue.dropWhile (fun d => decide (d.ts + g ≤ now)) ∧
    deleteLoop.toDelete c g now ++ (deleteLoop.pass c g now).deleteQueue = c.deleteQueue ∧
    (deleteLoop.pass c g now).Pods
      = (deleteLoop.toDelete c g now).foldl (fun m d => deleteLoop.apply [d] m) c.Pods ∧
    ((c.deleteQueue.map deleteRequest.ts).Sorted (· ≤ ·) →
      deleteLoop.toDelete c g now = c.deleteQueue.filter (fun d => decide (d.ts + g ≤ now)) ∧
      (deleteLoop.pass c g now).deleteQueue
        = c.deleteQueue.filter (fun d => decide (now < d.ts + g))) := by
  refine ⟨deleteLoop.toDelete_eq c g now, deleteLoop.pass_deleteQueue c g now, ?_, ?_, ?_⟩
  · rw [deleteLoop.toDelete_eq, deleteLoop.pass_deleteQueue, List.takeWhile_append_dropWhile]
  · rw [deleteLoop.pass_Pods, deleteLoop.apply_eq_foldl]
  · intro hs
    rw [deleteLoop.toDelete_eq, deleteLoop.pass_deleteQueue]
    exact due_prefix_of_sorted g now c.deleteQueue hs

/-- C9: an eviction pass applies the popped requests one after the other; a
request `(I, name)` removes the entry at `I` exactly when `I` is present with a
record of that name when the request is applied; over the whole pass the entry
at `I` is removed when some popped request names `I` and the name of its
record, and is unchanged otherwise, so an identifier named by no popped request
keeps its entry and no entry is added or rewritten. -/
theorem deleteLoop_pass_name_guard (c : WatchClient) (g : Duration) (now : Time) :
    (deleteLoop.pass c g now).Pods
      = (deleteLoop.toDelete c g now).foldl (fun m d => deleteLoop.apply [d] m) c.Pods ∧
    (∀ (d : deleteRequest) (pods : PodIdentifier → Option Pod),
      ((∃ p, pods d.id = some p ∧ p.Name = d.podName) →
        deleteLoop.apply [d] pods = mapDelete pods d.id) ∧
      ((¬ ∃ p, pods d.id = some p ∧ p.Name = d.podName) → deleteLoop.apply [d] pods = pods)) ∧
    (∀ I : PodIdentifier,
      ((∃ d ∈ deleteLoop.toDelete c g now,
          d.id = I ∧ ∃ p, c.Pods I = some p ∧ p.Name = d.podName) →
        (deleteLoop.pass c g now).Pods I = none) ∧
      ((¬ ∃ d ∈ deleteLoop.toDelete c g now,
          d.id = I ∧ ∃ p, c.Pods I = some p ∧ p.Name = d.podName) →
        (deleteLoop.pass c g now).Pods I = c.Pods I)) ∧
    (∀ I : PodIdentifier, (∀ d ∈ deleteLoop.toDelete c g now, d.id ≠ I) →
      (deleteLoop.pass c g now).Pods I = c.Pods I) ∧
    (∀ I : PodIdentifier,
      (deleteLoop.pass c g now).Pods I = none ∨ (deleteLoop.pass c g now).Pods I = c.Pods I) := by
  have hat := fun I => deleteLoop.apply_at I (deleteLoop.toDelete c g now) c.Pods
  refine ⟨?_, fun d pods => deleteLoop.apply_single d pods, fun I => hat I, ?_, ?_⟩
  · rw [deleteLoop.pass_Pods, deleteLoop.apply_eq_foldl]
  · intro I hI
    apply (hat I).2
    rintro ⟨d, hd, hid, _⟩
    exact hI d hd hid
  · intro I
    by_cases h : ∃ d ∈ deleteLoop.toDelete c g now,
        d.id = I ∧ ∃ p, c.Pods I = some p ∧ p.Name = d.podName
    · exact Or.inl ((hat I).1 h)
    · exact Or.inr ((hat I).2 h)

/-- C8 on a concrete queue: after the delete event of pod `a` the queue holds
the requests for its two identifiers, stamped 0 and 10; a pass at time 7 with a
grace period of 5 pops the first and keeps the second. -/
theorem deleteLoop_pass_pops_due_requests_witness :
    (Examples.cacheADeleted.deleteQueue.map deleteRequest.ts).Sorted (· ≤ ·) ∧
    deleteLoop.toDelete Examples.cacheADeleted 5 7
      = [{ id := Examples.uidId "uid-a", podName := "a", ts := 0 }] ∧
    (deleteLoop.pass Examples.cacheADeleted 5 7).deleteQueue
      = [{ id := Examples.connId "10.0.0.1", podName := "a", ts := 10 }] :=
  ⟨by decide,
    ((deleteLoop_pass_pops_due_requests Examples.cacheADeleted 5 7).2.2.2.2
      (by decide)).1.trans (by decide),
    ((deleteLoop_pass_pops_due_requests Examples.cacheADeleted 5 7).2.2.2.2
      (by decide)).2.trans (by decide)⟩

/-- C9 on a concrete queue: the pass at time 7 with a grace period of 5 pops
the request for the uid identifier of pod `a`, whose record has the name `a`,
and removes that entry; the connection identifier, named by no popped request,
keeps its record. -/
theorem deleteLoop_pass_name_guard_witness :
    (deleteLoop.pass Examples.cacheADeleted 5 7).Pods (Examples.uidId "uid-a") = none ∧
    (deleteLoop.pass Examples.cacheADeleted 5 7).Pods (Examples.connId "10.0.0.1")
      = Examples.cacheADeleted.Pods (Examples.connId "10.0.0.1") :=
  ⟨((deleteLoop_pass_name_guard Examples.cacheADeleted 5 7).2.2.1 (Examples.uidId "uid-a")).1
      ⟨{ id := Examples.uidId "uid-a", podName := "a", ts := 0 }, by decide, rfl,
        podFromAPI Examples.cacheA Examples.podA, by decide, by decide⟩,
    (deleteLoop_pass_name_guard Examples.cacheADeleted 5 7).2.2.2.1 (Examples.connId "10.0.0.1")
      (by decide)⟩

/-! ## Delete event followed by an eviction pass -/

/-- C10 as stated fails when an older request is queued: pod `a` is cached and
its delete event was seen at time 0; the event is delivered again at time 100;
a pass at time 120, before 100 plus the grace period of 50, pops the requests
stamped 0 and removes the uid identifier of `a`, which was mapped to the record
of `a` when `forgetPod` was called at time 100. -/
theorem forgetPod_then_pass_older_request_due :
    (Examples.cacheADeletedAt 0).Pods (Examples.uidId "uid-a")
      = some (podFromAPI (Examples.cacheADeletedAt 0) Examples.podA) ∧
    (forgetPod 4 (Examples.cacheADeletedAt 0) Examples.podA (fun _ => 100)).isSome = true ∧
    (120 : Time) < 100 + 50 ∧
    (deleteLoop.pass
        (Examples.after (Examples.cacheADeletedAt 0)
          (forgetPod 4 (Examples.cacheADeletedAt 0) Examples.podA (fun _ => 100)))
        50 120).Pods (Examples.uidId "uid-a") = none ∧
    (GetPod
        (deleteLoop.pass
          (Examples.after (Examples.cacheADeletedAt 0)
            (forgetPod 4 (Examples.cacheADeletedAt 0) Examples.podA (fun _ => 100)))
          50 120)
        (Examples.uidId "uid-a")).2 = (none, false) := by
  decide

/-- C10, amended: after `forgetPod(R)` called at time `t` (every clock value it
reads is at least `t`), an eviction pass at a time `now < t + gracePeriod`
leaves an identifier mapped to a record `P` before the call mapped to `P`, and
`GetPod` answers as before, provided every request that was already queued for
that identifier under the name of `P` is not due at `now`. -/
theorem forgetPod_then_pass_within_grace (n : Nat) (c c' : WatchClient) (pod : APIPod)
    (clock : Nat → Time) (t : Time) (g : Duration) (now : Time) (I : PodIdentifier) (P : Pod)
    (hcall : forgetPod n c pod clock = some c')
    (hclock : ∀ k, t ≤ clock k)
    (hnow : now < t + g)
    (hmapped : c.Pods I = some P)
    (hold : ∀ d ∈ c.deleteQueue, d.id = I → d.podName = P.Name → now < d.ts + g) :
    (deleteLoop.pass c' g now).Pods I = some P ∧
    (GetPod (deleteLoop.pass c' g now) I).2 = (GetPod c I).2 := by
  have hfacts : c'.Pods = c.Pods ∧
      ∃ new, c'.deleteQueue = c.deleteQueue ++ new ∧ ∀ d ∈ new, t ≤ d.ts := by
    unfold forgetPod at hcall
    cases hids : getIdentifiersFromAssoc n c (podFromAPI c pod) with
    | none => simp [hids] at hcall
    | some ids =>
      simp only [hids, Option.some.injEq] at hcall
      rw [forgetPod.loop_eq] at hcall
      subst hcall
      refine ⟨rfl, _, rfl, ?_⟩
      intro d hd
      simp only [List.mem_map] at hd
      obtain ⟨ki, _, rfl⟩ := hd
      exact hclock ki.1
  obtain ⟨hP, new, hQ, hnew⟩ := hfacts
  have hpods : (deleteLoop.pass c' g now).Pods I = c.Pods I := by
    rw [deleteLoop.pass_Pods, hP]
    apply (deleteLoop.apply_at I _ _).2
    rintro ⟨d, hd, hid, p, hp, hname⟩
    rw [deleteLoop.toDelete_eq] at hd
    have hdue : d.ts + g ≤ now := by simpa using List.mem_takeWhile_imp hd
    have hmem := List.takeWhile_subset _ hd
    rw [hQ, List.mem_append] at hmem
    simp only [hmapped, Option.some.injEq] at hp
    subst hp
    rcases hmem with hmem | hmem
    · exact absurd hdue (not_le.mpr (hold d hmem hid hname.symm))
    · have h1 : t ≤ d.ts := hnew d hmem
      have h2 : now < d.ts + g := lt_of_lt_of_le hnow (add_le_add_right h1 g)
      exact absurd hdue (not_le.mpr h2)
  refine ⟨hpods.trans hmapped, ?_⟩
  simp only [GetPod, hpods]
  cases c.Pods I with
  | none => rfl
  | some q => cases hi : q.Ignore <;> simp [hi]

/-- C10, amended, on a concrete cache: the delete event of pod `a` was seen at
time 90 and is delivered again at time 100; at time 120, with a grace period of
50, no queued request is due and the uid identifier of `a` keeps its record. -/
theorem forgetPod_then_pass_within_grace_witness :
    (deleteLoop.pass
        (Examples.after (Examples.cacheADeletedAt 90)
          (forgetPod 4 (Examples.cacheADeletedAt 90) Examples.podA (fun _ => 100)))
        50 120).Pods (Examples.uidId "uid-a")
      = some (podFromAPI Examples.cacheA Examples.podA) :=
  (forgetPod_then_pass_within_grace 4 (Examples.cacheADeletedAt 90)
    (Examples.after (Examples.cacheADeletedAt 90)
      (forgetPod 4 (Examples.cacheADeletedAt 90) Examples.podA (fun _ => 100)))
    Examples.podA (fun _ => 100) 100 50 120 (Examples.uidId "uid-a")
    (podFromAPI Examples.cacheA Examples.podA)
    rfl (fun _ => le_refl _) (by decide) (by decide) (by decide)).1

/-! ## Lemmas on the handlers and on runs of events -/

/-- The upsert loop never removes a key. -/
theorem addOrUpdatePod.loop_keeps_keys (newPod : Pod) (startTime : MetaTime) (I : PodIdentifier) :
    ∀ (ids : List PodIdentifier) (pods : PodIdentifier → Option Pod),
      pods I ≠ none → addOrUpdatePod.loop newPod startTime ids pods I ≠ none := by
  intro ids
  induction ids with
  | nil => intro pods h; simpa [addOrUpdatePod.loop] using h
  | cons id rest ih =>
    intro pods h
    have hw : mapSet pods id newPod I ≠ none := by
      by_cases e : I = id
      · subst e; simp
      · simpa [mapSet_of_ne _ _ e] using h
    cases hq : pods id with
    | none => simpa [addOrUpdatePod.loop, hq] using ih _ hw
    | some p =>
      simp only [addOrUpdatePod.loop, hq]
      split_ifs
      · exact h
      · exact ih _ hw

/-- A pod add or update event changes the `Pods` map only, and removes no key. -/
theorem addOrUpdatePod_frame (n : Nat) (c c' : WatchClient) (pod : APIPod)
    (h : addOrUpdatePod n c pod = some c') :
    c'.deleteQueue = c.deleteQueue ∧ c'.Namespaces = c.Namespaces ∧
      ∀ I, c.Pods I ≠ none → c'.Pods I ≠ none := by
  unfold addOrUpdatePod at h
  cases hids : getIdentifiersFromAssoc n c (podFromAPI c pod) with
  | none => simp [hids] at h
  | some ids =>
    simp only [hids, Option.some.injEq] at h
    subst h
    exact ⟨rfl, rfl, fun I hI => addOrUpdatePod.loop_keeps_keys _ _ I ids c.Pods hI⟩

/-- What a pod delete event does to the state: the maps are unchanged and the
queue grows by requests stamped with clock values of the event. -/
theorem handlePodDelete_effect (n : Nat) (c c' : WatchClient) (obj : Obj) (clock : Nat → Time)
    (h : handlePodDelete n c obj clock = some c') :
    c'.Pods = c.Pods ∧ c'.Namespaces = c.Namespaces ∧
      ∃ new, c'.deleteQueue = c.deleteQueue ++ new ∧ ∀ d ∈ new, ∃ k, d.ts = clock k := by
  cases obj with
  | ofPod pod =>
    simp only [handlePodDelete, forgetPod] at h
    cases hids : getIdentifiersFromAssoc n c (podFromAPI c pod) with
    | none => simp [hids] at h
    | some ids =>
      simp only [hids, Option.some.injEq] at h
      rw [forgetPod.loop_eq] at h
      subst h
      refine ⟨rfl, rfl, _, rfl, ?_⟩
      intro d hd
      simp only [List.mem_map] at hd
      obtain ⟨ki, _, rfl⟩ := hd
      exact ⟨ki.1, rfl⟩
  | ofNamespace ns =>
    simp only [handlePodDelete, Option.some.injEq] at h
    subst h
    exact ⟨rfl, rfl, [], by simp, by simp⟩
  | other =>
    simp only [handlePodDelete, Option.some.injEq] at h
    subst h
    exact ⟨rfl, rfl, [], by simp, by simp⟩

/-- The namespace handlers touch neither the `Pods` map nor the queue. -/
theorem namespace_handlers_frame (c : WatchClient) (old obj : Obj) :
    ((handleNamespaceAdd c obj).Pods = c.Pods ∧
      (handleNamespaceAdd c obj).deleteQueue = c.deleteQueue) ∧
    ((handleNamespaceUpdate c old obj).Pods = c.Pods ∧
      (handleNamespaceUpdate c old obj).deleteQueue = c.deleteQueue) ∧
    ((handleNamespaceDelete c obj).Pods = c.Pods ∧
      (handleNamespaceDelete c obj).deleteQueue = c.deleteQueue) := by
  cases obj with
  | ofPod pod => exact ⟨⟨rfl, rfl⟩, ⟨rfl, rfl⟩, ⟨rfl, rfl⟩⟩
  | other => exact ⟨⟨rfl, rfl⟩, ⟨rfl, rfl⟩, ⟨rfl, rfl⟩⟩
  | ofNamespace ns =>
    refine ⟨?_, ?_, ?_⟩
    · simp only [handleNamespaceAdd, addOrUpdateNamespace]
      split_ifs <;> exact ⟨rfl, rfl⟩
    · simp only [handleNamespaceUpdate, addOrUpdateNamespace]
      split_ifs <;> exact ⟨rfl, rfl⟩
    · simp only [handleNamespaceDelete]
      cases c.Namespaces ns.Name <;> exact ⟨rfl, rfl⟩

/-- Running a sequence of events followed by one more event. -/
theorem run_snoc (n : Nat) (g : Duration) :
    ∀ (events : List Event) (c : WatchClient) (e : Event),
      run n g c (events ++ [e]) = (run n g c events).bind (fun c1 => step n g c1 e) := by
  intro events
  induction events with
  | nil =>
    intro c e
    simp only [List.nil_append, run, Option.some_bind]
    cases step n g c e <;> rfl
  | cons e0 rest ih =>
    intro c e
    simp only [List.cons_append, run]
    cases step n g c e0 with
    | none => rfl
    | some c1 => exact ih c1 e

/-- A request enqueued by a delete event of a run is enqueued by a delete event
of every longer run. -/
theorem EnqueuedByDelete.snoc {n : Nat} {g : Duration} {init : WatchClient}
    {events : List Event} {d : deleteRequest} (h : EnqueuedByDelete n g init events d)
    (e : Event) : EnqueuedByDelete n g init (events ++ [e]) d := by
  obtain ⟨pre, post, obj, clock, c1, c2, new, k, he, h1, h2, h3, h4, h5⟩ := h
  exact ⟨pre, post ++ [e], obj, clock, c1, c2, new, k, by simp [he], h1, h2, h3, h4, h5⟩

/-- In every state reached from an empty queue, every queued request was
enqueued by a pod delete event of the run. -/
theorem queue_enqueued_by_delete (n : Nat) (g : Duration) (init : WatchClient)
    (hinit : init.deleteQueue = []) :
    ∀ (events : List Event) (c : WatchClient), run n g init events = some c →
      ∀ d ∈ c.deleteQueue, EnqueuedByDelete n g init events d := by
  intro events
  induction events using List.reverseRecOn with
  | nil =>
    intro c h d hd
    simp only [run, Option.some.injEq] at h
    subst h
    rw [hinit] at hd
    cases hd
  | append_singleton events e ih =>
    intro c' h d hd
    rw [run_snoc] at h
    cases hc : run n g init events with
    | none => simp [hc] at h
    | some c =>
      simp only [hc, Option.some_bind] at h
      have keep : d ∈ c.deleteQueue → EnqueuedByDelete n g init (events ++ [e]) d :=
        fun hm => (ih c hc d hm).snoc e
      cases e with
      | podAdd obj =>
        cases obj with
        | ofPod pod =>
          have := (addOrUpdatePod_frame n c c' pod h).1
          exact keep (this ▸ hd)
        | ofNamespace ns =>
          simp only [step, handlePodAdd, Option.some.injEq] at h
          exact keep (h ▸ hd)
        | other =>
          simp only [step, handlePodAdd, Option.some.injEq] at h
          exact keep (h ▸ hd)
      | podUpdate old obj =>
        cases obj with
        | ofPod pod =>
          have := (addOrUpdatePod_frame n c c' pod h).1
          exact keep (this ▸ hd)
        | ofNamespace ns =>
          simp only [step, handlePodUpdate, Option.some.injEq] at h
          exact keep (h ▸ hd)
        | other =>
          simp only [step, handlePodUpdate, Option.some.injEq] at h
          exact keep (h ▸ hd)
      | podDelete obj clock =>
        obtain ⟨_, _, new, hq, hnew⟩ := handlePodDelete_effect n c c' obj clock h
        rw [hq, List.mem_append] at hd
        rcases hd with hd | hd
        · exact keep hd
        · obtain ⟨k, hk⟩ := hnew d hd
          exact ⟨events, [], obj, clock, c, c', new, k, rfl, hc, h, hq, hd, hk⟩
      | namespaceAdd obj =>
        simp only [step, Option.some.injEq] at h
        subst h
        exact keep ((namespace_handlers_frame c obj obj).1.2 ▸ hd)
      | namespaceUpdate old obj =>
        simp only [step, Option.some.injEq] at h
        subst h
        exact keep ((namespace_handlers_frame c old obj).2.1.2 ▸ hd)
      | namespaceDelete obj =>
        simp only [step, Option.some.injEq] at h
        subst h
        exact keep ((namespace_handlers_frame c obj obj).2.2.2 ▸ hd)
      | sweep now =>
        simp only [step, Option.some.injEq] at h
        subst h
        rw [deleteLoop.pass_deleteQueue] at hd
        exact keep ((List.dropWhile_suffix _).subset hd)

/-- A key of the `Pods` map that is gone after a step was removed by an
eviction pass that popped a due request for it. -/
theorem step_removes_key (n : Nat) (g : Duration) (c c' : WatchClient) (e : Event)
    (I : PodIdentifier) (h : step n g c e = some c')
    (hpresent : c.Pods I ≠ none) (hgone : c'.Pods I = none) :
    ∃ now, e = Event.sweep now ∧ ∃ d ∈ c.deleteQueue, d.id = I ∧ d.ts + g ≤ now := by
  cases e with
  | podAdd obj =>
    cases obj with
    | ofPod pod => exact absurd hgone ((addOrUpdatePod_frame n c c' pod h).2.2 I hpresent)
    | ofNamespace ns =>
      simp only [step, handlePodAdd, Option.some.injEq] at h
      exact absurd (h ▸ hgone) hpresent
    | other =>
      simp only [step, handlePodAdd, Option.some.injEq] at h
      exact absurd (h ▸ hgone) hpresent
  | podUpdate old obj =>
    cases obj with
    | ofPod pod => exact absurd hgone ((addOrUpdatePod_frame n c c' pod h).2.2 I hpresent)
    | ofNamespace ns =>
      simp only [step, handlePodUpdate, Option.some.injEq] at h
      exact absurd (h ▸ hgone) hpresent
    | other =>
      simp only [step, handlePodUpdate, Option.some.injEq] at h
      exact absurd (h ▸ hgone) hpresent
  | podDelete obj clock =>
    have := (handlePodDelete_effect n c c' obj clock h).1
    exact absurd (this ▸ hgone) hpresent
  | namespaceAdd obj =>
    simp only [step, Option.some.injEq] at h
    subst h
    exact absurd ((namespace_handlers_frame c obj obj).1.1 ▸ hgone) hpresent
  | namespaceUpdate old obj =>
    simp only [step, Option.some.injEq] at h
    subst h
    exact absurd ((namespace_handlers_frame c old obj).2.1.1 ▸ hgone) hpresent
  | namespaceDelete obj =>
    simp only [step, Option.some.injEq] at h
    subst h
    exact absurd ((namespace_handlers_frame c obj obj).2.2.1 ▸ hgone) hpresent
  | sweep now =>
    simp only [step, Option.some.injEq] at h
    subst h
    refine ⟨now, rfl, ?_⟩
    by_contra hno
    apply hpresent
    rw [← (deleteLoop.apply_at I (deleteLoop.toDelete c g now) c.Pods).2 ?_]
    · exact hgone
    · rintro ⟨d, hd, hid, _⟩
      apply hno
      rw [deleteLoop.toDelete_eq] at hd
      exact ⟨d, List.takeWhile_subset _ hd, hid, by simpa using List.mem_takeWhile_imp hd⟩

/-! ## Lemmas on `getIdentifiersFromAssoc` -/

/-- The two allowed source kinds are different strings. -/
theorem ConnectionSource_ne_ResourceSource : ConnectionSource ≠ ResourceSource := by decide

/-- For a resource-attribute source the value read by the code is the resolved
value of the spec. -/
theorem getIdentifiersFromAssoc.attr_eq (pod : Pod) (source : AssociationSource)
    (h : source.From = ResourceSource) :
    getIdentifiersFromAssoc.attr pod source = resolvedValue pod source := by
  have hne : source.From ≠ ConnectionSource := by
    rw [h]; exact fun e => ConnectionSource_ne_ResourceSource e.symm
  unfold getIdentifiersFromAssoc.attr resolvedValue
  rw [if_neg hne, if_pos h]
  cases pod.Attributes.lookup source.Name <;> rfl

/-- One source of an allowed kind at an index inside the array: an unresolved
source sets `skip`, a resolved one fills its slot. -/
theorem getIdentifiersFromAssoc.source_eq (pod : Pod) (i : Nat) (source : AssociationSource)
    (st : PodIdentifier × Bool) (hi : i < st.1.length)
    (hk : source.From = ConnectionSource ∨ source.From = ResourceSource) :
    getIdentifiersFromAssoc.source pod i source st =
      some (if resolvedValue pod source = "" then (st.1, true)
        else (st.1.set i (PodIdentifierAttributeFromSource source (resolvedValue pod source)),
          st.2)) := by
  rcases hk with hk | hk
  · unfold getIdentifiersFromAssoc.source resolvedValue
    simp only [hk, if_true, PodIdentifier.assign, hi, Option.map_some']
    by_cases ha : pod.Address = ""
    · cases pod.HostNetwork <;> simp [ha]
    · cases pod.HostNetwork <;> simp [ha]
  · have hne : source.From ≠ ConnectionSource := by
      rw [hk]; exact fun e => ConnectionSource_ne_ResourceSource e.symm
    unfold getIdentifiersFromAssoc.source
    rw [if_neg hne, if_pos hk]
    simp only [PodIdentifier.assign, hi, if_true, Option.map_some',
      getIdentifiersFromAssoc.attr_eq pod source hk]
    split_ifs <;> rfl

/-- The loop over sources of allowed kinds that fit into the array returns,
keeps the number of slots and sets `skip` exactly when a source is unresolved. -/
theorem getIdentifiersFromAssoc.sources_skip (pod : Pod) :
    ∀ (srcs : List AssociationSource) (i : Nat) (st : PodIdentifier × Bool),
      i + srcs.length ≤ st.1.length →
      (∀ s ∈ srcs, s.From = ConnectionSource ∨ s.From = ResourceSource) →
      ∃ ret, getIdentifiersFromAssoc.sources pod i srcs st
          = some (ret, st.2 || srcs.any (fun s => decide (resolvedValue pod s = ""))) ∧
        ret.length = st.1.length := by
  intro srcs
  induction srcs with
  | nil => intro i st _ _; exact ⟨st.1, by simp [getIdentifiersFromAssoc.sources], rfl⟩
  | cons s rest ih =>
    intro i st hlen hk
    simp only [List.length_cons] at hlen
    have hs := getIdentifiersFromAssoc.source_eq pod i s st (by omega)
      (hk s (List.mem_cons_self _ _))
    have hk' : ∀ t ∈ rest, t.From = ConnectionSource ∨ t.From = ResourceSource :=
      fun t ht => hk t (List.mem_cons_of_mem _ ht)
    by_cases hr : resolvedValue pod s = ""
    · rw [if_pos hr] at hs
      obtain ⟨ret, h1, h2⟩ := ih (i + 1) (st.1, true) (by simpa using by omega) hk'
      exact ⟨ret, by simp [getIdentifiersFromAssoc.sources, hs, h1, hr], h2⟩
    · rw [if_neg hr] at hs
      obtain ⟨ret, h1, h2⟩ := ih (i + 1)
        (st.1.set i (PodIdentifierAttributeFromSource s (resolvedValue pod s)), st.2)
        (by simpa using by omega) hk'
      exact ⟨ret, by simp [getIdentifiersFromAssoc.sources, hs, h1, hr], by simpa using h2⟩

/-- When every source is resolved, the loop over the sources replaces the slots
it walks over by the pairs of source and resolved value, in order. -/
theorem getIdentifiersFromAssoc.sources_fill (pod : Pod) :
    ∀ (srcs : List AssociationSource) (pre mid post : PodIdentifier) (skip : Bool),
      mid.length = srcs.length →
      (∀ s ∈ srcs, s.From = ConnectionSource ∨ s.From = ResourceSource) →
      (∀ s ∈ srcs, resolvedValue pod s ≠ "") →
      getIdentifiersFromAssoc.sources pod pre.length srcs (pre ++ mid ++ post, skip)
        = some (pre ++ srcs.map
            (fun s => PodIdentifierAttributeFromSource s (resolvedValue pod s)) ++ post,
          skip) := by
  intro srcs
  induction srcs with
  | nil =>
    intro pre mid post skip hm _ _
    have : mid = [] := List.length_eq_zero.mp (by simpa using hm)
    subst this
    simp [getIdentifiersFromAssoc.sources]
  | cons s rest ih =>
    intro pre mid post skip hm hk hr
    cases mid with
    | nil => simp at hm
    | cons x mid' =>
      simp only [List.length_cons, Nat.add_right_cancel_iff] at hm
      have hs := getIdentifiersFromAssoc.source_eq pod pre.length s
        (pre ++ (x :: mid') ++ post, skip) (by simp) (hk s (List.mem_cons_self _ _))
      rw [if_neg (hr s (List.mem_cons_self _ _))] at hs
      have hset : (pre ++ (x :: mid') ++ post).set pre.length
          (PodIdentifierAttributeFromSource s (resolvedValue pod s))
          = (pre ++ [PodIdentifierAttributeFromSource s (resolvedValue pod s)]) ++ mid' ++ post := by
        simp [List.append_assoc, List.set_append_right]
      have h1 := ih (pre ++ [PodIdentifierAttributeFromSource s (resolvedValue pod s)]) mid' post
        skip hm (fun t ht => hk t (List.mem_cons_of_mem _ ht))
        (fun t ht => hr t (List.mem_cons_of_mem _ ht))
      simp only [List.length_append, List.length_singleton] at h1
      simp only [getIdentifiersFromAssoc.sources, hs, hset, h1]
      simp [List.append_assoc]

/-- The loop over the associations appends to the accumulator the identifiers
of the rules whose `skip` stayed false, in order. -/
theorem getIdentifiersFromAssoc.assocs_eq (n : Nat) (pod : Pod) :
    ∀ (assocs : List Association) (ids0 r : List PodIdentifier),
      getIdentifiersFromAssoc.assocs n pod assocs ids0 = some r →
      ∃ results : List (PodIdentifier × Bool),
        List.Forall₂ (fun a res =>
          getIdentifiersFromAssoc.sources pod 0 a.Sources (PodIdentifier.zero n, false)
            = some res) assocs results ∧
        r = ids0 ++ (results.filter (fun res => !res.2)).map (fun res => res.1) := by
  intro assocs
  induction assocs with
  | nil =>
    intro ids0 r h
    simp only [getIdentifiersFromAssoc.assocs, Option.some.injEq] at h
    exact ⟨[], List.Forall₂.nil, by simp [h]⟩
  | cons a rest ih =>
    intro ids0 r h
    cases hs : getIdentifiersFromAssoc.sources pod 0 a.Sources (PodIdentifier.zero n, false) with
    | none => simp [getIdentifiersFromAssoc.assocs, hs] at h
    | some res =>
      obtain ⟨ret, skip⟩ := res
      simp only [getIdentifiersFromAssoc.assocs, hs] at h
      obtain ⟨results, hf, hr⟩ := ih _ r h
      refine ⟨(ret, skip) :: results, List.Forall₂.cons hs hf, ?_⟩
      cases skip <;> simp [hr]

/-! ## Name guard, reachable states, namespaces and malformed events -/

/-- C11 as stated fails for a pod of the same name: the pod `web-0` is cached
under the address 10.0.0.7, its delete event at time 100 enqueues a request for
that address under the name `web-0`; a new pod `web-0` (another UID, a later
start time) is then upserted at the same address. The pass at time 200 with a
grace period of 50 applies the request and removes the address of the new pod,
since the guard compares names only. -/
theorem deleteLoop_pass_removes_same_name_pod :
    podFromAPI (New Examples.rules []) Examples.podWebNew
      ≠ podFromAPI (New Examples.rules []) Examples.podWeb ∧
    (run 4 50 (New Examples.rules []) (Examples.reuseEvents Examples.podWebNew)).map
        (fun c => (c.Pods (Examples.connId "10.0.0.7"), c.deleteQueue.map (fun d => d.podName)))
      = some (some (podFromAPI (New Examples.rules []) Examples.podWebNew),
          ["web-0", "web-0"]) ∧
    (run 4 50 (New Examples.rules [])
        (Examples.reuseEvents Examples.podWebNew ++ [Event.sweep 200])).map
        (fun c => c.Pods (Examples.connId "10.0.0.7")) = some none := by
  decide

/-- C11, amended: an eviction pass leaves an identifier mapped to the record
`P` it holds when every popped request for that identifier carries a name other
than the name of `P`; so a pod with another name that was upserted at the
identifier after the delete request was enqueued is not removed by that
request. -/
theorem deleteLoop_pass_keeps_other_name (c : WatchClient) (g : Duration) (now : Time)
    (I : PodIdentifier) (P : Pod) (hmapped : c.Pods I = some P)
    (hname : ∀ d ∈ deleteLoop.toDelete c g now, d.id = I → d.podName ≠ P.Name) :
    (deleteLoop.pass c g now).Pods I = some P ∧
    (GetPod (deleteLoop.pass c g now) I).2 = (GetPod c I).2 := by
  have hpods : (deleteLoop.pass c g now).Pods I = c.Pods I := by
    rw [deleteLoop.pass_Pods]
    apply (deleteLoop.apply_at I _ _).2
    rintro ⟨d, hd, hid, p, hp, hpn⟩
    rw [hmapped, Option.some.injEq] at hp
    subst hp
    exact hname d hd hid hpn.symm
  refine ⟨hpods.trans hmapped, ?_⟩
  simp only [GetPod, hpods]
  cases c.Pods I with
  | none => rfl
  | some q => cases hi : q.Ignore <;> simp [hi]

/-- C11, amended, on a concrete run: after the delete event of `web-0` the pod
`api-5` is upserted at the same address; the pass at time 200 applies the
requests for `web-0` and the address stays mapped to `api-5`. -/
theorem deleteLoop_pass_keeps_other_name_witness :
    (deleteLoop.toDelete
        (Examples.after (New Examples.rules [])
          (run 4 50 (New Examples.rules []) (Examples.reuseEvents Examples.podApi))) 50 200).map
        (fun d => d.podName) = ["web-0", "web-0"] ∧
    (deleteLoop.pass
        (Examples.after (New Examples.rules [])
          (run 4 50 (New Examples.rules []) (Examples.reuseEvents Examples.podApi))) 50 200).Pods
        (Examples.connId "10.0.0.7")
      = some (podFromAPI (New Examples.rules []) Examples.podApi) :=
  ⟨by decide,
    (deleteLoop_pass_keeps_other_name
      (Examples.after (New Examples.rules [])
        (run 4 50 (New Examples.rules []) (Examples.reuseEvents Examples.podApi)))
      50 200 (Examples.connId "10.0.0.7") (podFromAPI (New Examples.rules []) Examples.podApi)
      (by decide) (by decide)).1⟩

/-- C12: in a state reached from the state built by `New`, a key of the `Pods`
map that is gone after one more event was removed by an eviction pass, which
popped a request for that key with `ts + gracePeriod ≤ now`, and that request
was enqueued by a pod delete event of the run; the add, update, delete
and namespace handlers remove no key. -/
theorem Pods_key_removed_only_by_due_sweep (n : Nat) (g : Duration) (rules : ExtractionRules)
    (associations : List Association) (events : List Event) (c c' : WatchClient) (e : Event)
    (I : PodIdentifier)
    (hreach : run n g (New rules associations) events = some c)
    (hstep : step n g c e = some c')
    (hpresent : c.Pods I ≠ none) (hgone : c'.Pods I = none) :
    ∃ now, e = Event.sweep now ∧
      ∃ d ∈ c.deleteQueue, d.id = I ∧ d.ts + g ≤ now ∧
        EnqueuedByDelete n g (New rules associations) events d := by
  obtain ⟨now, he, d, hd, hid, hdue⟩ := step_removes_key n g c c' e I hstep hpresent hgone
  exact ⟨now, he, d, hd, hid, hdue,
    queue_enqueued_by_delete n g (New rules associations) rfl events c hreach d hd⟩

/-- C12 on a concrete run: pod `a` is added and deleted at time 100; the pass
at time 200 with a grace period of 50 removes its uid identifier. -/
theorem Pods_key_removed_only_by_due_sweep_witness :
    ∃ now, Event.sweep 200 = Event.sweep now ∧
      ∃ d ∈ (Examples.cacheADeletedAt 100).deleteQueue,
        d.id = Examples.uidId "uid-a" ∧ d.ts + 50 ≤ now ∧
        EnqueuedByDelete 4 50 (New Examples.rules [])
          [Event.podAdd (Obj.ofPod Examples.podA),
            Event.podDelete (Obj.ofPod Examples.podA) (fun _ => 100)] d :=
  Pods_key_removed_only_by_due_sweep 4 50 Examples.rules []
    [Event.podAdd (Obj.ofPod Examples.podA),
      Event.podDelete (Obj.ofPod Examples.podA) (fun _ => 100)]
    (Examples.cacheADeletedAt 100) (deleteLoop.pass (Examples.cacheADeletedAt 100) 50 200)
    (Event.sweep 200) (Examples.uidId "uid-a") rfl rfl (by decide) (by decide)

/-- C13 as stated fails for the empty name: `addOrUpdateNamespace` of an object
whose name is empty stores nothing. -/
theorem addOrUpdateNamespace_empty_name_not_stored :
    (addOrUpdateNamespace (New Examples.rules []) { Name := "", UID := "uid-ns" }).Namespaces ""
      = none := by
  decide

/-- C13, amended: for a namespace object with a non-empty name,
`addOrUpdateNamespace` stores at the key `ns.Name` the record built from the
object (name, UID, creation time, extracted attributes), whatever was stored
there; for an empty name the cache is unchanged; in both cases the keys of
other namespaces, the `Pods` map and the delete queue are unchanged. -/
theorem addOrUpdateNamespace_spec (c : WatchClient) (ns : APINamespace) :
    (ns.Name ≠ "" →
      (addOrUpdateNamespace c ns).Namespaces ns.Name =
        some { Name := ns.Name, NamespaceUID := ns.UID, StartTime := ns.CreationTimestamp,
               Attributes := c.Rules.extractNamespaceAttributes ns }) ∧
    (ns.Name = "" → (addOrUpdateNamespace c ns).Namespaces = c.Namespaces) ∧
    (∀ k, k ≠ ns.Name → (addOrUpdateNamespace c ns).Namespaces k = c.Namespaces k) ∧
    (addOrUpdateNamespace c ns).Pods = c.Pods ∧
    (addOrUpdateNamespace c ns).deleteQueue = c.deleteQueue := by
  unfold addOrUpdateNamespace
  by_cases h : ns.Name = ""
  · simp [h]
  · rw [if_pos h]
    exact ⟨fun _ => mapSet_self _ _ _, fun h' => absurd h' h,
      fun k hk => mapSet_of_ne _ _ hk, rfl, rfl⟩

/-- C13, amended, on a concrete cache: the namespace `prod` is stored over the
record an earlier event left at that key. -/
theorem addOrUpdateNamespace_spec_witness :
    (addOrUpdateNamespace
        (addOrUpdateNamespace (New Examples.rules []) { Name := "prod", UID := "uid-1" })
        { Name := "prod", UID := "uid-2", CreationTimestamp := 7 }).Namespaces "prod"
      = some { Name := "prod", NamespaceUID := "uid-2", StartTime := 7, Attributes := [] } :=
  (addOrUpdateNamespace_spec
    (addOrUpdateNamespace (New Examples.rules []) { Name := "prod", UID := "uid-1" })
    { Name := "prod", UID := "uid-2", CreationTimestamp := 7 }).1 (by decide)

/-- C16: a pod handler that receives an object that is no pod, and a namespace
handler that receives an object that is no namespace, return and leave the
whole state as it was; upserting a pod that resolves to no identifier returns
and leaves the state as it was. -/
theorem handlers_ignore_wrong_type (n : Nat) (c : WatchClient) (old obj : Obj)
    (clock : Nat → Time) (pod : APIPod) :
    ((∀ p, obj ≠ Obj.ofPod p) →
      handlePodAdd n c obj = some c ∧ handlePodUpdate n c old obj = some c ∧
        handlePodDelete n c obj clock = some c) ∧
    ((∀ ns, obj ≠ Obj.ofNamespace ns) →
      handleNamespaceAdd c obj = c ∧ handleNamespaceUpdate c old obj = c ∧
        handleNamespaceDelete c obj = c) ∧
    (getIdentifiersFromAssoc n c (podFromAPI c pod) = some [] →
      addOrUpdatePod n c pod = some c) := by
  refine ⟨?_, ?_, ?_⟩
  · intro h
    cases obj with
    | ofPod p => exact absurd rfl (h p)
    | ofNamespace ns => exact ⟨rfl, rfl, rfl⟩
    | other => exact ⟨rfl, rfl, rfl⟩
  · intro h
    cases obj with
    | ofPod p => exact ⟨rfl, rfl, rfl⟩
    | ofNamespace ns => exact absurd rfl (h ns)
    | other => exact ⟨rfl, rfl, rfl⟩
  · intro h
    simp [addOrUpdatePod, h, addOrUpdatePod.loop]

/-- C16 on concrete objects: the pod handlers given a namespace object leave
the cache of pod `a` as it was, and a pod without UID and address, which
resolves to no identifier, is upserted without effect. -/
theorem handlers_ignore_wrong_type_witness :
    handlePodAdd 4 Examples.cacheA (Obj.ofNamespace { Name := "prod" }) = some Examples.cacheA ∧
    handlePodDelete 4 Examples.cacheA (Obj.ofNamespace { Name := "prod" }) (fun _ => 0)
      = some Examples.cacheA ∧
    addOrUpdatePod 4 Examples.cacheA { Name := "x" } = some Examples.cacheA :=
  ⟨((handlers_ignore_wrong_type 4 Examples.cacheA Obj.other (Obj.ofNamespace { Name := "prod" })
      (fun _ => 0) { Name := "x" }).1 (by intro p h; cases h)).1,
   ((handlers_ignore_wrong_type 4 Examples.cacheA Obj.other (Obj.ofNamespace { Name := "prod" })
      (fun _ => 0) { Name := "x" }).1 (by intro p h; cases h)).2.2,
   (handlers_ignore_wrong_type 4 Examples.cacheA Obj.other (Obj.ofNamespace { Name := "prod" })
      (fun _ => 0) { Name := "x" }).2.2 (by decide)⟩

/-! ## Identifier resolution -/

/-- C14 as stated fails for a source whose kind is neither `connection` nor
`resource_attribute`: the rule `sources: [{from: resource, name: k8s.pod.uid}]`
has one source, which resolves to nothing, yet the loop neither sets `skip` nor
fills the slot, and the all-zero identifier is emitted for the rule. It also
fails for a rule with more sources than the identifier has slots: with five
resolved sources and four slots the write to slot 4 is out of range and no
identifier is returned at all. -/
theorem getIdentifiersFromAssoc_unknown_source_kind :
    resolvedValue (podFromAPI (New Examples.rules [Examples.typoRule]) Examples.podA)
        { From := "resource", Name := AttributeK8SPodUID } = "" ∧
    getIdentifiersFromAssoc.sources
        (podFromAPI (New Examples.rules [Examples.typoRule]) Examples.podA) 0
        Examples.typoRule.Sources (PodIdentifier.zero 4, false)
      = some (PodIdentifier.zero 4, false) ∧
    getIdentifiersFromAssoc 4 (New Examples.rules [Examples.typoRule])
        (podFromAPI (New Examples.rules [Examples.typoRule]) Examples.podA)
      = some [PodIdentifier.zero 4, Examples.uidId "uid-a", Examples.connId "10.0.0.1"] ∧
    (∀ s ∈ Examples.longRule.Sources,
      resolvedValue (podFromAPI (New Examples.rules [Examples.longRule]) Examples.podA) s ≠ "") ∧
    getIdentifiersFromAssoc 4 (New Examples.rules [Examples.longRule])
        (podFromAPI (New Examples.rules [Examples.longRule]) Examples.podA) = none := by
  decide

/-- C14, amended: for an association rule with at most
`PodIdentifierMaxLength` sources, each of kind `connection` or
`resource_attribute`, the loop over its sources returns; the identifier of the
rule is emitted exactly when every source resolves to a non-empty value; when
emitted, slot `i` holds the pair of source `i` and its resolved value and the
slots after the sources hold the zero attribute. -/
theorem getIdentifiersFromAssoc_rule (n : Nat) (pod : Pod) (rule : Association)
    (hlen : rule.Sources.length ≤ n)
    (hkind : ∀ s ∈ rule.Sources, s.From = ConnectionSource ∨ s.From = ResourceSource) :
    ∃ ret skip,
      getIdentifiersFromAssoc.sources pod 0 rule.Sources (PodIdentifier.zero n, false)
        = some (ret, skip) ∧
      (skip = false ↔ ∀ s ∈ rule.Sources, resolvedValue pod s ≠ "") ∧
      (skip = false →
        ret = rule.Sources.map
            (fun s => PodIdentifierAttributeFromSource s (resolvedValue pod s)) ++
          List.replicate (n - rule.Sources.length) PodIdentifierAttribute.zero) ∧
      getIdentifiersFromAssoc.assocs n pod [rule] [] = some (if skip then [] else [ret]) := by
  obtain ⟨ret, hret, _⟩ := getIdentifiersFromAssoc.sources_skip pod rule.Sources 0
    (PodIdentifier.zero n, false) (by simpa [PodIdentifier.zero_length] using hlen) hkind
  simp only [Bool.false_or] at hret
  have hiff : (rule.Sources.any (fun s => decide (resolvedValue pod s = "")) = false) ↔
      ∀ s ∈ rule.Sources, resolvedValue pod s ≠ "" := by
    simp [List.any_eq_false]
  refine ⟨ret, _, hret, hiff, ?_, ?_⟩
  · intro hskip
    have hall := hiff.mp hskip
    have hzero : PodIdentifier.zero n
        = [] ++ List.replicate rule.Sources.length PodIdentifierAttribute.zero ++
          List.replicate (n - rule.Sources.length) PodIdentifierAttribute.zero := by
      simp only [PodIdentifier.zero, List.nil_append, List.append_replicate_replicate]
      congr 1
      omega
    have hfill := getIdentifiersFromAssoc.sources_fill pod rule.Sources []
      (List.replicate rule.Sources.length PodIdentifierAttribute.zero)
      (List.replicate (n - rule.Sources.length) PodIdentifierAttribute.zero) false
      (by simp) hkind hall
    rw [← hzero] at hfill
    simp only [List.length_nil] at hfill
    rw [hfill] at hret
    simp only [Option.some.injEq, Prod.mk.injEq] at hret
    simpa using hret.1.symm
  · simp only [getIdentifiersFromAssoc.assocs, hret, List.nil_append]

/-- C14, amended, on concrete pods: the rule with the two sources pod name,
then namespace, is emitted for the pod `h` with both slots filled; the connection
rule is skipped for that pod, which is in host-network mode. -/
theorem getIdentifiersFromAssoc_rule_witness :
    getIdentifiersFromAssoc.assocs 4 (podFromAPI (New Examples.rules []) Examples.podHost)
        [Examples.nameRule] []
      = some [[PodIdentifierAttributeFromSource
                { From := ResourceSource, Name := AttributeK8SPodName } "h",
               PodIdentifierAttributeFromSource
                { From := ResourceSource, Name := AttributeK8SNamespaceName } "kube-system",
               PodIdentifierAttribute.zero, PodIdentifierAttribute.zero]] ∧
    getIdentifiersFromAssoc.assocs 4 (podFromAPI (New Examples.rules []) Examples.podHost)
        [Examples.connRule] [] = some [] ∧
    ∃ ret skip,
      getIdentifiersFromAssoc.sources (podFromAPI (New Examples.rules []) Examples.podHost) 0
          Examples.nameRule.Sources (PodIdentifier.zero 4, false) = some (ret, skip) ∧
      (skip = false ↔ ∀ s ∈ Examples.nameRule.Sources,
        resolvedValue (podFromAPI (New Examples.rules []) Examples.podHost) s ≠ "") :=
  ⟨by decide, by decide,
    (getIdentifiersFromAssoc_rule 4 (podFromAPI (New Examples.rules []) Examples.podHost)
      Examples.nameRule (by decide) (by decide)).imp
      (fun _ h => h.imp (fun _ h2 => ⟨h2.1, h2.2.1⟩))⟩

/-- C15: the list returned by `getIdentifiersFromAssoc` is made of the
identifiers of the rules that were not skipped, in configuration order, then
the pod-UID identifier exactly when `PodUID` is non-empty, then the connection
identifier exactly when `Address` is non-empty and `HostNetwork` is false; its
length is the number of rules not skipped plus one for each of the two that is
present. -/
theorem getIdentifiersFromAssoc_list (n : Nat) (c : WatchClient) (pod : Pod)
    (ids : List PodIdentifier) (h : getIdentifiersFromAssoc n c pod = some ids) :
    ∃ results : List (PodIdentifier × Bool),
      List.Forall₂ (fun a res =>
        getIdentifiersFromAssoc.sources pod 0 a.Sources (PodIdentifier.zero n, false)
          = some res) c.Associations results ∧
      ids = (results.filter (fun res => !res.2)).map (fun res => res.1) ++
          (if pod.PodUID ≠ "" then
            [PodIdentifier.lit n
              (PodIdentifierAttributeFromResourceAttribute AttributeK8SPodUID pod.PodUID)]
           else []) ++
          (if pod.Address ≠ "" ∧ ¬ pod.HostNetwork then
            [PodIdentifier.lit n (PodIdentifierAttributeFromConnection pod.Address)]
           else []) ∧
      ids.length = (results.filter (fun res => !res.2)).length +
          (if pod.PodUID ≠ "" then 1 else 0) +
          (if pod.Address ≠ "" ∧ ¬ pod.HostNetwork then 1 else 0) := by
  unfold getIdentifiersFromAssoc at h
  cases ha : getIdentifiersFromAssoc.assocs n pod c.Associations [] with
  | none => simp [ha] at h
  | some r =>
    obtain ⟨results, hf, hr⟩ := getIdentifiersFromAssoc.assocs_eq n pod c.Associations [] r ha
    simp only [List.nil_append] at hr
    simp only [ha, Option.some.injEq] at h
    subst h
    subst hr
    refine ⟨results, hf, ?_, ?_⟩
    · split_ifs <;> simp
    · split_ifs <;> simp

/-- C15 on concrete pods: with the pod-name rule and the connection rule
configured, the pod `h` in host-network mode gets the identifier of the first
rule and its pod-UID identifier, and no connection identifier. -/
theorem getIdentifiersFromAssoc_list_witness :
    getIdentifiersFromAssoc 4 (New Examples.rules [Examples.nameRule, Examples.connRule])
        (podFromAPI (New Examples.rules [Examples.nameRule, Examples.connRule]) Examples.podHost)
      = some [[PodIdentifierAttributeFromSource
                { From := ResourceSource, Name := AttributeK8SPodName } "h",
               PodIdentifierAttributeFromSource
                { From := ResourceSource, Name := AttributeK8SNamespaceName } "kube-system",
               PodIdentifierAttribute.zero, PodIdentifierAttribute.zero],
              Examples.uidId "uid-h"] ∧
    ∃ results : List (PodIdentifier × Bool),
      List.Forall₂ (fun a res =>
        getIdentifiersFromAssoc.sources
          (podFromAPI (New Examples.rules [Examples.nameRule, Examples.connRule])
            Examples.podHost) 0 a.Sources (PodIdentifier.zero 4, false) = some res)
        [Examples.nameRule, Examples.connRule] results ∧
      (results.filter (fun res => !res.2)).length + 1 + 0 = 2 :=
  ⟨by decide,
    (getIdentifiersFromAssoc_list 4 (New Examples.rules [Examples.nameRule, Examples.connRule])
      (podFromAPI (New Examples.rules [Examples.nameRule, Examples.connRule]) Examples.podHost)
      [[PodIdentifierAttributeFromSource
          { From := ResourceSource, Name := AttributeK8SPodName } "h",
        PodIdentifierAttributeFromSource
          { From := ResourceSource, Name := AttributeK8SNamespaceName } "kube-system",
        PodIdentifierAttribute.zero, PodIdentifierAttribute.zero],
       Examples.uidId "uid-h"] (by decide)).imp
      (fun _ hres => ⟨hres.1, hres.2.2.symm⟩)⟩

end Kube

/-! # Validation of the processor configuration -/

namespace K8sAttributesProcessor

/-- The loop of `Validate` fails exactly when some association has too many
sources, with the error naming the limit. -/
theorem Config.Validate.loop_spec (n : Nat) :
    ∀ assocs : List PodAssociationConfig,
      ((∃ a ∈ assocs, a.Sources.length > n) →
        Config.Validate.loop n assocs
          = some ("too many association sources. limit is " ++ toString n)) ∧
      ((∀ a ∈ assocs, a.Sources.length ≤ n) → Config.Validate.loop n assocs = none) := by
  intro assocs
  induction assocs with
  | nil => simp [Config.Validate.loop]
  | cons a rest ih =>
    by_cases h : a.Sources.length > n
    · refine ⟨fun _ => by simp [Config.Validate.loop, h], fun hall => ?_⟩
      exact absurd (hall a (List.mem_cons_self _ _)) (by omega)
    · refine ⟨?_, ?_⟩
      · rintro ⟨b, hb, hlen⟩
        rcases List.mem_cons.mp hb with rfl | hb
        · exact absurd hlen h
        · simpa [Config.Validate.loop, h] using ih.1 ⟨b, hb, hlen⟩
      · intro hall
        simpa [Config.Validate.loop, h] using ih.2 (fun b hb => hall b (List.mem_cons_of_mem _ hb))

/-- C19: `Config.Validate` returns the error of the API config when that is
invalid; with a valid API config it returns the error "too many association
sources" when some pod association has more than `PodIdentifierMaxLength`
sources, and nil when every association has at most that many; so it returns
nil exactly when the API config is valid and no association is too long. -/
theorem Config_Validate_spec {α : Type} (n : Nat) (APIConfigValidate : α → Option String)
    (cfg : Config α) :
    (∀ err, APIConfigValidate cfg.APIConfig = some err →
      Config.Validate n APIConfigValidate cfg = some err) ∧
    (APIConfigValidate cfg.APIConfig = none → (∃ a ∈ cfg.Association, a.Sources.length > n) →
      Config.Validate n APIConfigValidate cfg
        = some ("too many association sources. limit is " ++ toString n)) ∧
    (APIConfigValidate cfg.APIConfig = none → (∀ a ∈ cfg.Association, a.Sources.length ≤ n) →
      Config.Validate n APIConfigValidate cfg = none) ∧
    (Config.Validate n APIConfigValidate cfg = none ↔
      (APIConfigValidate cfg.APIConfig = none ∧ ∀ a ∈ cfg.Association, a.Sources.length ≤ n)) := by
  have hl := Config.Validate.loop_spec n cfg.Association
  refine ⟨?_, ?_, ?_, ?_⟩
  · intro err h
    simp [Config.Validate, h]
  · intro h hex
    simpa [Config.Validate, h] using hl.1 hex
  · intro h hall
    simpa [Config.Validate, h] using hl.2 hall
  · constructor
    · intro hv
      cases h : APIConfigValidate cfg.APIConfig with
      | some err => simp [Config.Validate, h] at hv
      | none =>
        refine ⟨rfl, ?_⟩
        by_contra hno
        push_neg at hno
        obtain ⟨a, ha, hlen⟩ := hno
        have := hl.1 ⟨a, ha, hlen⟩
        simp [Config.Validate, h, this] at hv
    · rintro ⟨h, hall⟩
      simpa [Config.Validate, h] using hl.2 hall

/-- C19 on concrete configurations, with an API config that is valid when it
is the string `serviceAccount`: one association with five sources is rejected
at the limit 4, and one with two sources is accepted. -/
theorem Config_Validate_spec_witness :
    Config.Validate 4 (fun a : String => if a = "serviceAccount" then none else some "invalid")
        { APIConfig := "serviceAccount",
          Association := [{ Sources := [{}, {}] }, { Sources := [{}, {}, {}, {}, {}] }] }
      = some "too many association sources. limit is 4" ∧
    Config.Validate 4 (fun a : String => if a = "serviceAccount" then none else some "invalid")
        { APIConfig := "serviceAccount", Association := [{ Sources := [{}, {}] }] } = none :=
  ⟨((Config_Validate_spec 4
      (fun a : String => if a = "serviceAccount" then none else some "invalid")
      { APIConfig := "serviceAccount",
        Association := [{ Sources := [{}, {}] }, { Sources := [{}, {}, {}, {}, {}] }] }).2.1
      (by decide) ⟨{ Sources := [{}, {}, {}, {}, {}] }, by decide, by decide⟩).trans (by decide),
   (Config_Validate_spec 4
      (fun a : String => if a = "serviceAccount" then none else some "invalid")
      { APIConfig := "serviceAccount", Association := [{ Sources := [{}, {}] }] }).2.2.1
      (by decide) (by decide)⟩

end K8sAttributesProcessor

/-! # Construction of the `and` policy -/

namespace TailSampling

/-- C17, evaluated on the code: `getNewAndPolicy` drops the error of every
sub-policy (`policy, _ := ...`) and always returns a nil error; for a
configuration whose only sub-policy has an unknown type,
`getAndSubPolicyEvaluator` returns a nil evaluator with an error, and
`getNewAndPolicy` returns the `and` evaluator built over that nil evaluator,
with a nil error. -/
theorem getNewAndPolicy_drops_sub_policy_error {ε : Type} (S : Sampling ε) :
    getAndSubPolicyEvaluator S unknownCfg
      = (none, some "unknown sampling policy type no_such_policy") ∧
    getNewAndPolicy S { SubPolicyCfg := [unknownCfg] } = (some (S.NewAnd [none]), none) ∧
    ∀ config : AndCfg, (getNewAndPolicy S config).2 = none := by
  refine ⟨?_, ?_, fun _ => rfl⟩
  · have h : getAndSubPolicyEvaluator S unknownCfg
        = (none, some ("unknown sampling policy type " ++ unknownCfg.Type')) := by
      unfold getAndSubPolicyEvaluator
      rw [if_neg (by decide), if_neg (by decide), if_neg (by decide), if_neg (by decide),
        if_neg (by decide), if_neg (by decide), if_neg (by decide), if_neg (by decide)]
    rw [h]
    rfl
  · have h : getAndSubPolicyEvaluator S unknownCfg
        = (none, some ("unknown sampling policy type " ++ unknownCfg.Type')) := by
      unfold getAndSubPolicyEvaluator
      rw [if_neg (by decide), if_neg (by decide), if_neg (by decide), if_neg (by decide),
        if_neg (by decide), if_neg (by decide), if_neg (by decide), if_neg (by decide)]
    simp [getNewAndPolicy, getNewAndPolicy.loop, h]

/-- C18: `getAndSubPolicyEvaluator` returns a nil evaluator and the error
"unknown sampling policy type" followed by the type for every configuration
whose type is none of the eight policy types, and for each of the eight types
it returns what the constructor of that type returns on the fields of the
matching configuration section. -/
theorem getAndSubPolicyEvaluator_spec {ε : Type} (S : Sampling ε) (cfg : AndSubPolicyCfg) :
    (cfg.Type' ∉ [AlwaysSample, NumericAttribute, StringAttribute, RateLimiting, StatusCode,
        Probabilistic, TraceState, SpanCount] →
      getAndSubPolicyEvaluator S cfg
        = (none, some ("unknown sampling policy type " ++ cfg.Type'))) ∧
    (cfg.Type' = AlwaysSample →
      getAndSubPolicyEvaluator S cfg = (some S.NewAlwaysSample, none)) ∧
    (cfg.Type' = NumericAttribute →
      getAndSubPolicyEvaluator S cfg
        = (some (S.NewNumericAttributeFilter cfg.NumericAttributeCfg.Key
            cfg.NumericAttributeCfg.MinValue cfg.NumericAttributeCfg.MaxValue), none)) ∧
    (cfg.Type' = StringAttribute →
      getAndSubPolicyEvaluator S cfg
        = (some (S.NewStringAttributeFilter cfg.StringAttributeCfg.Key
            cfg.StringAttributeCfg.Values cfg.StringAttributeCfg.EnabledRegexMatching
            cfg.StringAttributeCfg.CacheMaxSize cfg.StringAttributeCfg.InvertMatch), none)) ∧
    (cfg.Type' = RateLimiting →
      getAndSubPolicyEvaluator S cfg
        = (some (S.NewRateLimiting cfg.RateLimitingCfg.SpansPerSecond), none)) ∧
    (cfg.Type' = StatusCode →
      getAndSubPolicyEvaluator S cfg = S.NewStatusCodeFilter cfg.StatusCodeCfg.StatusCodes) ∧
    (cfg.Type' = Probabilistic →
      getAndSubPolicyEvaluator S cfg
        = (some (S.NewProbabilisticSampler cfg.ProbabilisticCfg.HashSalt
            cfg.ProbabilisticCfg.SamplingPercentage), none)) ∧
    (cfg.Type' = TraceState →
      getAndSubPolicyEvaluator S cfg
        = (some (S.NewTraceStateFilter cfg.TraceStateCfg.Key cfg.TraceStateCfg.Values), none)) ∧
    (cfg.Type' = SpanCount →
      getAndSubPolicyEvaluator S cfg = (some (S.NewSpanCount cfg.SpanCountCfg.MinSpans), none)) := by
  refine ⟨?_, ?_, ?_, ?_, ?_, ?_, ?_, ?_, ?_⟩
  · intro h
    simp only [List.mem_cons, List.mem_singleton, not_or, List.mem_nil_iff, not_false_eq_true,
      and_true] at h
    obtain ⟨h1, h2, h3, h4, h5, h6, h7, h8⟩ := h
    unfold getAndSubPolicyEvaluator
    rw [if_neg h1, if_neg h2, if_neg h3, if_neg h4, if_neg h5, if_neg h6, if_neg h7, if_neg h8]
  · intro h
    unfold getAndSubPolicyEvaluator
    rw [if_pos h]
  · intro h
    unfold getAndSubPolicyEvaluator
    rw [h, if_neg (by decide), if_pos rfl]
  · intro h
    unfold getAndSubPolicyEvaluator
    rw [h, if_neg (by decide), if_neg (by decide), if_pos rfl]
  · intro h
    unfold getAndSubPolicyEvaluator
    rw [h, if_neg (by decide), if_neg (by decide), if_neg (by decide), if_pos rfl]
  · intro h
    unfold getAndSubPolicyEvaluator
    rw [h, if_neg (by decide), if_neg (by decide), if_neg (by decide), if_neg (by decide),
      if_pos rfl]
  · intro h
    unfold getAndSubPolicyEvaluator
    rw [h, if_neg (by decide), if_neg (by decide), if_neg (by decide), if_neg (by decide),
      if_neg (by decide), if_pos rfl]
  · intro h
    unfold getAndSubPolicyEvaluator
    rw [h, if_neg (by decide), if_neg (by decide), if_neg (by decide), if_neg (by decide),
      if_neg (by decide), if_neg (by decide), if_pos rfl]
  · intro h
    unfold getAndSubPolicyEvaluator
    rw [h, if_neg (by decide), if_neg (by decide), if_neg (by decide), if_neg (by decide),
      if_neg (by decide), if_neg (by decide), if_neg (by decide), if_pos rfl]

/-- C18 on a recording instance of the constructors: a `numeric_attribute`
sub-policy is built by the numeric-attribute constructor on the key and the two
bounds of its section; the type `composite` is rejected. -/
theorem getAndSubPolicyEvaluator_spec_witness :
    getAndSubPolicyEvaluator recordingSampling
        { Type' := "numeric_attribute",
          NumericAttributeCfg := { Key := "http.status_code", MinValue := 400, MaxValue := 599 } }
      = (some (Policy.numericAttribute "http.status_code" 400 599), none) ∧
    getAndSubPolicyEvaluator recordingSampling { Type' := "composite" }
      = (none, some "unknown sampling policy type composite") :=
  ⟨(getAndSubPolicyEvaluator_spec recordingSampling
      { Type' := "numeric_attribute",
        NumericAttributeCfg := { Key := "http.status_code", MinValue := 400, MaxValue := 599 } }
      ).2.2.1 rfl,
   ((getAndSubPolicyEvaluator_spec recordingSampling { Type' := "composite" }).1
      (by decide)).trans rfl⟩

end TailSampling

/-! # `Set` and `Get` on body fields -/

namespace Stanza

variable {α : Type}

/-- Reading back along the keys after the loop of `Set` gives the value. -/
theorem BodyField.Get_Set_loop (value : Value α) :
    ∀ (keys : List String) (m : String → Option (Value α)), keys ≠ [] →
      BodyField.Get.loop keys (Value.map (BodyField.Set.loop value keys m)) = (value, true) := by
  intro keys
  induction keys with
  | nil => intro m h; exact absurd rfl h
  | cons k rest ih =>
    intro m _
    cases rest with
    | nil => simp [BodyField.Set.loop, BodyField.Get.loop]
    | cons k2 rest2 =>
      simp only [BodyField.Set.loop, BodyField.Get.loop, Kube.mapSet_self]
      exact ih _ (by simp)

/-- Reading back along the keys after the loops of `Merge` gives a map that
holds every entry of the merged map. -/
theorem BodyField.Get_Merge_loop (mapValues : String → Option (Value α)) :
    ∀ (keys : List String) (m : String → Option (Value α)),
      ∃ m', BodyField.Get.loop keys (Value.map (BodyField.Merge.loop mapValues keys m))
          = (Value.map m', true) ∧
        ∀ k x, mapValues k = some x → m' k = some x := by
  intro keys
  induction keys with
  | nil =>
    intro m
    refine ⟨_, rfl, ?_⟩
    intro k x h
    simp [BodyField.Merge.loop, h]
  | cons k rest ih =>
    intro m
    obtain ⟨m', h1, h2⟩ := ih (getNestedMap m k)
    refine ⟨m', ?_, h2⟩
    simpa [BodyField.Merge.loop, BodyField.Get.loop] using h1

/-- C20 as stated fails for a map value: the body is `{a: {x: 1}}`; setting the
field `a` to the map `{y: 2}` merges the map into the one stored at `a`, and
`Get` then returns a map that still holds `x`, which is not the value that was
set. -/
theorem BodyField_Set_map_value_is_merged :
    (BodyField.Get (NewBodyField ["a", "x"])
        ((NewBodyField ["a"]).Set Examples.nestedEntry Examples.mapValue).1
      = (Value.leaf 1, true)) ∧
    (BodyField.Get (NewBodyField ["a", "y"])
        ((NewBodyField ["a"]).Set Examples.nestedEntry Examples.mapValue).1
      = (Value.leaf 2, true)) ∧
    BodyField.Get (NewBodyField ["a"])
        ((NewBodyField ["a"]).Set Examples.nestedEntry Examples.mapValue).1
      ≠ (Examples.mapValue, true) := by
  refine ⟨rfl, rfl, ?_⟩
  intro h
  have h2 := congrArg
    (fun r : Value Int × Bool =>
      match r.1 with
      | Value.map m => (m "x").isSome
      | _ => false) h
  exact Bool.noConfusion h2

/-- C20, amended: `Set` always returns a nil error; for a value that is no
map, `Get` on the same field then returns the value and `true`; for a map
value `Set` merges, and `Get` then returns `true` with a map that holds every
entry of the value (and may hold more). -/
theorem BodyField_Set_Get (f : BodyField) (e : Entry α) (v : Value α) :
    (f.Set e v).2 = none ∧
    ((∀ m, v ≠ Value.map m) → f.Get (f.Set e v).1 = (v, true)) ∧
    (∀ mv, v = Value.map mv →
      ∃ m', f.Get (f.Set e v).1 = (Value.map m', true) ∧ ∀ k x, mv k = some x → m' k = some x) := by
  have hmerge : ∀ mv, ∃ m', f.Get (f.Set e (Value.map mv)).1 = (Value.map m', true) ∧
      ∀ k x, mv k = some x → m' k = some x := by
    intro mv
    exact BodyField.Get_Merge_loop mv f.Keys (bodyMap e.Body)
  have hset : ∀ w : Value α, (∀ m, w ≠ Value.map m) →
      (f.Set e w).1 = (if f.isRoot then { e with Body := w }
        else { e with Body := Value.map (BodyField.Set.loop w f.Keys (bodyMap e.Body)) }) := by
    intro w hw
    cases w with
    | nil => simp only [BodyField.Set]; split_ifs <;> rfl
    | leaf a => simp only [BodyField.Set]; split_ifs <;> rfl
    | map m => exact absurd rfl (hw m)
  refine ⟨?_, ?_, ?_⟩
  · cases v with
    | nil => simp only [BodyField.Set]; split_ifs <;> rfl
    | leaf a => simp only [BodyField.Set]; split_ifs <;> rfl
    | map m => rfl
  · intro hv
    rw [hset v hv]
    by_cases hr : f.isRoot = true
    · rw [if_pos hr]
      have hk : f.Keys = [] := List.length_eq_zero.mp (by simpa [BodyField.isRoot] using hr)
      simp [BodyField.Get, hk, BodyField.Get.loop]
    · rw [if_neg hr]
      have hk : f.Keys ≠ [] := by
        intro h0
        exact hr (by simp [BodyField.isRoot, h0])
      exact BodyField.Get_Set_loop v f.Keys (bodyMap e.Body) hk
  · intro mv hmv
    subst hmv
    exact hmerge mv

/-- C20, amended, on a concrete entry: setting the field `a.z` of the body
`{a: {x: 1}}` to the value 7 makes `Get` on `a.z` return 7. -/
theorem BodyField_Set_Get_witness :
    BodyField.Get (NewBodyField ["a", "z"])
        ((NewBodyField ["a", "z"]).Set Examples.nestedEntry (Value.leaf 7)).1
      = (Value.leaf 7, true) :=
  (BodyField_Set_Get (NewBodyField ["a", "z"]) Examples.nestedEntry (Value.leaf 7)).2.1
    (fun _ h => Value.noConfusion h)

end Stanza

/-! # `Set`, `Delete`, `Merge`, `Parent` and `Child` on body fields -/

namespace Stanza

variable {α : Type}

/-- Walking a path that is not empty from a value that is no map finds nothing. -/
theorem BodyField.Get_loop_of_not_map (keys : List String) (cur : Value α) (hk : keys ≠ [])
    (hc : ∀ m, cur ≠ Value.map m) : BodyField.Get.loop keys cur = (Value.nil, false) := by
  cases keys with
  | nil => exact absurd rfl hk
  | cons k rest =>
    cases cur with
    | nil => rfl
    | leaf a => rfl
    | map m => exact absurd rfl (hc m)

/-- Writing the value a key already holds leaves the map as it was. -/
theorem mapSet_same {ν : Type} (m : String → Option ν) (k : String) (v : ν) (h : m k = some v) :
    Kube.mapSet m k v = m := by
  funext x
  by_cases e : x = k
  · subst e; simp [h]
  · simp [Kube.mapSet_of_ne _ _ e]

/-- One step of `Get` on a map. -/
theorem BodyField.Get_loop_cons (k : String) (rest : List String)
    (m : String → Option (Value α)) :
    BodyField.Get.loop (k :: rest) (Value.map m) =
      match m k with
      | some v => BodyField.Get.loop rest v
      | none => (Value.nil, false) := rfl

/-- The pair returned by the loop of `Delete` is the pair `Get` returns. -/
theorem BodyField.Delete_loop_result :
    ∀ (keys : List String) (cur : Value α), keys ≠ [] →
      (BodyField.Delete.loop keys cur).2 = BodyField.Get.loop keys cur := by
  intro keys
  induction keys with
  | nil => intro cur h; exact absurd rfl h
  | cons k rest ih =>
    intro cur _
    cases cur with
    | nil => cases rest <;> rfl
    | leaf a => cases rest <;> rfl
    | map m =>
      cases rest with
      | nil =>
        cases hq : m k with
        | none => simp [BodyField.Delete.loop, BodyField.Get.loop, hq]
        | some v => simp [BodyField.Delete.loop, BodyField.Get.loop, hq]
      | cons k2 rest2 =>
        cases hq : m k with
        | none => simp [BodyField.Delete.loop, BodyField.Get.loop, hq]
        | some v =>
          simp only [BodyField.Delete.loop, BodyField.Get.loop, hq]
          exact ih v (by simp)

/-- When `Get` finds nothing, the loop of `Delete` leaves the value as it was. -/
theorem BodyField.Delete_loop_absent :
    ∀ (keys : List String) (cur : Value α),
      (BodyField.Get.loop keys cur).2 = false → (BodyField.Delete.loop keys cur).1 = cur := by
  intro keys
  induction keys with
  | nil => intro cur _; rfl
  | cons k rest ih =>
    intro cur h
    cases cur with
    | nil => cases rest <;> rfl
    | leaf a => cases rest <;> rfl
    | map m =>
      cases rest with
      | nil =>
        cases hq : m k with
        | none => simp [BodyField.Delete.loop, hq]
        | some v => simp [BodyField.Get.loop, hq] at h
      | cons k2 rest2 =>
        cases hq : m k with
        | none => simp [BodyField.Delete.loop, hq]
        | some v =>
          simp only [BodyField.Get.loop, hq] at h
          have hv := ih v h
          simp only [BodyField.Delete.loop, hq, hv]
          rw [mapSet_same m k v hq]

/-- After the loop of `Delete` removed the field, `Get` on it finds nothing. -/
theorem BodyField.Get_Delete_loop :
    ∀ (keys : List String) (cur : Value α), keys ≠ [] →
      (BodyField.Get.loop keys cur).2 = true →
      BodyField.Get.loop keys (BodyField.Delete.loop keys cur).1 = (Value.nil, false) := by
  intro keys
  induction keys with
  | nil => intro cur h; exact absurd rfl h
  | cons k rest ih =>
    intro cur _ h
    cases cur with
    | nil => simp [BodyField.Get.loop] at h
    | leaf a => simp [BodyField.Get.loop] at h
    | map m =>
      cases rest with
      | nil =>
        cases hq : m k with
        | none => simp [BodyField.Get.loop, hq] at h
        | some v => simp [BodyField.Delete.loop, BodyField.Get.loop, hq]
      | cons k2 rest2 =>
        cases hq : m k with
        | none => simp [BodyField.Get.loop, hq] at h
        | some v =>
          simp only [BodyField.Get.loop, hq] at h
          simp only [BodyField.Delete.loop, hq, BodyField.Get.loop, Kube.mapSet_self]
          exact ih v (by simp) h

/-- The loop of `Delete` on the field `ks ++ [k]` leaves what `Get` returns on
a sibling field `ks ++ [k1]` as it was. -/
theorem BodyField.Get_Delete_loop_sibling (k k1 : String) (hne : k1 ≠ k) :
    ∀ (ks : List String) (cur : Value α),
      BodyField.Get.loop (ks ++ [k1]) (BodyField.Delete.loop (ks ++ [k]) cur).1
        = BodyField.Get.loop (ks ++ [k1]) cur := by
  intro ks
  induction ks with
  | nil =>
    intro cur
    cases cur with
    | nil => rfl
    | leaf a => rfl
    | map m =>
      cases hq : m k with
      | none => simp [BodyField.Delete.loop, hq]
      | some v =>
        simp [BodyField.Delete.loop, BodyField.Get.loop, hq, Kube.mapDelete_of_ne _ hne]
  | cons k0 rest ih =>
    intro cur
    cases cur with
    | nil => cases rest <;> rfl
    | leaf a => cases rest <;> rfl
    | map m =>
      have hcons : ∀ x : String, rest ++ [x] ≠ [] := by intro x; simp
      cases hq : m k0 with
      | none =>
        cases hr : rest ++ [k] with
        | nil => exact absurd hr (hcons k)
        | cons a b => simp [BodyField.Delete.loop, hq]
      | some v =>
        cases hr : rest ++ [k] with
        | nil => exact absurd hr (hcons k)
        | cons a b =>
          simp only [List.cons_append, hr, BodyField.Delete.loop, hq, BodyField.Get.loop,
            Kube.mapSet_self]
          rw [← hr]
          exact ih v

/-- After the loops of `Merge`, `Get` on the child field of a merged key
returns the merged value. -/
theorem BodyField.Get_Merge_loop_key (mapValues : String → Option (Value α)) (k : String)
    (x : Value α) (hk : mapValues k = some x) :
    ∀ (keys : List String) (m : String → Option (Value α)),
      BodyField.Get.loop (keys ++ [k]) (Value.map (BodyField.Merge.loop mapValues keys m))
        = (x, true) := by
  intro keys
  induction keys with
  | nil => intro m; simp [BodyField.Merge.loop, BodyField.Get.loop, hk]
  | cons k0 rest ih =>
    intro m
    simp only [List.cons_append, BodyField.Merge.loop, BodyField.Get.loop, Kube.mapSet_self]
    exact ih _

/-- After the loops of `Merge`, a key of the map at the field that is no key of
the merged map holds the value it held. -/
theorem BodyField.Get_Merge_loop_other (mapValues : String → Option (Value α)) (k : String)
    (hk : mapValues k = none) (v : Value α) :
    ∀ (keys : List String) (m : String → Option (Value α)),
      BodyField.Get.loop (keys ++ [k]) (Value.map m) = (v, true) →
      BodyField.Get.loop (keys ++ [k]) (Value.map (BodyField.Merge.loop mapValues keys m))
        = (v, true) := by
  intro keys
  induction keys with
  | nil =>
    intro m h
    simpa [BodyField.Merge.loop, BodyField.Get.loop, hk] using h
  | cons k0 rest ih =>
    intro m h
    simp only [List.cons_append, BodyField.Get.loop] at h
    cases hq : m k0 with
    | none => simp [hq] at h
    | some w =>
      simp only [hq] at h
      cases w with
      | nil =>
        rw [BodyField.Get_loop_of_not_map _ _ (by simp) (fun _ e => Value.noConfusion e)] at h
        simp at h
      | leaf a =>
        rw [BodyField.Get_loop_of_not_map _ _ (by simp) (fun _ e => Value.noConfusion e)] at h
        simp at h
      | map n =>
        simp only [List.cons_append, BodyField.Merge.loop, BodyField.Get.loop, Kube.mapSet_self,
          getNestedMap, hq]
        exact ih n h

/-- C21: for an entry whose body is a map, a single-key field `[k]` and a
value that is no map, `Set` writes the value under `k` in the body map and
nothing else: `Get` on every field that starts with another top-level key
returns what it returned before (the values of the other keys, nested maps
included, are untouched), and the attributes, the resource and the two
timestamps of the entry are unchanged. -/
theorem BodyField_Set_single_key_frame (e : Entry α) (m : String → Option (Value α))
    (k : String) (v : Value α) (hbody : e.Body = Value.map m)
    (hv : ∀ mv, v ≠ Value.map mv) :
    ((NewBodyField [k]).Set e v).1.Body = Value.map (Kube.mapSet m k v) ∧
    (∀ k1, k1 ≠ k → Kube.mapSet m k v k1 = m k1) ∧
    (∀ (k1 : String) (rest : List String), k1 ≠ k →
      BodyField.Get (NewBodyField (k1 :: rest)) ((NewBodyField [k]).Set e v).1
        = BodyField.Get (NewBodyField (k1 :: rest)) e) ∧
    BodyField.Get (NewBodyField [k]) ((NewBodyField [k]).Set e v).1 = (v, true) ∧
    ((NewBodyField [k]).Set e v).1.Attributes = e.Attributes ∧
    ((NewBodyField [k]).Set e v).1.Resource = e.Resource ∧
    ((NewBodyField [k]).Set e v).1.Timestamp = e.Timestamp ∧
    ((NewBodyField [k]).Set e v).1.ObservedTimestamp = e.ObservedTimestamp := by
  have hset : ((NewBodyField [k]).Set e v).1
      = { e with Body := Value.map (Kube.mapSet m k v) } := by
    cases v with
    | nil => simp [BodyField.Set, NewBodyField, BodyField.isRoot, BodyField.Set.loop, bodyMap, hbody]
    | leaf a =>
      simp [BodyField.Set, NewBodyField, BodyField.isRoot, BodyField.Set.loop, bodyMap, hbody]
    | map mv => exact absurd rfl (hv mv)
  rw [hset]
  refine ⟨rfl, fun k1 h1 => Kube.mapSet_of_ne _ _ h1, ?_, ?_, rfl, rfl, rfl, rfl⟩
  · intro k1 rest h1
    simp [BodyField.Get, NewBodyField, BodyField.Get.loop, hbody, Kube.mapSet_of_ne _ _ h1]
  · simp [BodyField.Get, NewBodyField, BodyField.Get.loop]

/-- C21 on the entry of the tests: with the body `{a: {x: 1}}`, setting the
field `new` to 1 leaves the nested value under `a` in place. -/
theorem BodyField_Set_single_key_frame_witness :
    BodyField.Get (NewBodyField ["a", "x"])
        ((NewBodyField ["new"]).Set Examples.nestedEntry (Value.leaf 1)).1
      = BodyField.Get (NewBodyField ["a", "x"]) Examples.nestedEntry ∧
    BodyField.Get (NewBodyField ["a", "x"]) Examples.nestedEntry = (Value.leaf 1, true) :=
  ⟨(BodyField_Set_single_key_frame Examples.nestedEntry
      (Kube.mapSet Kube.mapEmpty "a" (Value.map (Kube.mapSet Kube.mapEmpty "x" (Value.leaf 1))))
      "new" (Value.leaf 1) rfl (fun _ h => Value.noConfusion h)).2.2.1 "a" ["x"] (by decide),
   rfl⟩

/-- C22: `Delete` returns the pair that `Get` returns on the entry before the
call; for the root field it returns the old body with `true` and sets the body
to nil; for another field that existed, `Get` on the field then returns
`(nil, false)` and `Get` on every sibling key returns what it returned before;
when the field did not exist the entry is unchanged; the attributes, the
resource and the timestamps are never touched. -/
theorem BodyField_Delete_spec (f : BodyField) (e : Entry α) :
    (f.Delete e).2 = f.Get e ∧
    (f.isRoot = true → (f.Delete e).2 = (e.Body, true) ∧ (f.Delete e).1.Body = Value.nil) ∧
    (f.isRoot = false → (f.Get e).2 = true → f.Get (f.Delete e).1 = (Value.nil, false)) ∧
    (∀ (ks : List String) (k k1 : String), f.Keys = ks ++ [k] → k1 ≠ k →
      BodyField.Get (NewBodyField (ks ++ [k1])) (f.Delete e).1
        = BodyField.Get (NewBodyField (ks ++ [k1])) e) ∧
    ((f.Get e).2 = false → (f.Delete e).1 = e) ∧
    ((f.Delete e).1.Attributes = e.Attributes ∧ (f.Delete e).1.Resource = e.Resource ∧
      (f.Delete e).1.Timestamp = e.Timestamp ∧
      (f.Delete e).1.ObservedTimestamp = e.ObservedTimestamp) := by
  by_cases hr : f.isRoot = true
  · have hk : f.Keys = [] := List.length_eq_zero.mp (by simpa [BodyField.isRoot] using hr)
    have hd : f.Delete e = ({ e with Body := Value.nil }, (e.Body, true)) := by
      simp [BodyField.Delete, hr]
    have hg : f.Get e = (e.Body, true) := by simp [BodyField.Get, hk, BodyField.Get.loop]
    rw [hd, hg]
    refine ⟨rfl, fun _ => ⟨rfl, rfl⟩, fun h => by simp [hr] at h, ?_, fun h => by simp at h,
      rfl, rfl, rfl, rfl⟩
    intro ks k k1 h _
    rw [hk] at h
    exact absurd h.symm (by simp)
  · have hk : f.Keys ≠ [] := by
      intro h0
      exact hr (by simp [BodyField.isRoot, h0])
    have hd : f.Delete e = ({ e with Body := (BodyField.Delete.loop f.Keys e.Body).1 },
        (BodyField.Delete.loop f.Keys e.Body).2) := by
      simp [BodyField.Delete, hr]
    rw [hd]
    refine ⟨BodyField.Delete_loop_result f.Keys e.Body hk, fun h => absurd h hr, ?_, ?_, ?_,
      rfl, rfl, rfl, rfl⟩
    · intro _ h
      exact BodyField.Get_Delete_loop f.Keys e.Body hk h
    · intro ks k k1 h hne
      simp only [BodyField.Get, NewBodyField, h]
      exact BodyField.Get_Delete_loop_sibling k k1 hne ks e.Body
    · intro h
      have := BodyField.Delete_loop_absent f.Keys e.Body h
      simp only [this]

/-- C22 on a concrete entry: deleting the field `a.x` of the body `{a: {x: 1}}`
returns the value 1 and `true`, and `Get` on the field then finds nothing. -/
theorem BodyField_Delete_spec_witness :
    ((NewBodyField ["a", "x"]).Delete Examples.nestedEntry).2 = (Value.leaf 1, true) ∧
    BodyField.Get (NewBodyField ["a", "x"])
        ((NewBodyField ["a", "x"]).Delete Examples.nestedEntry).1 = (Value.nil, false) :=
  ⟨(BodyField_Delete_spec (NewBodyField ["a", "x"]) Examples.nestedEntry).1.trans rfl,
   (BodyField_Delete_spec (NewBodyField ["a", "x"]) Examples.nestedEntry).2.2.1 rfl rfl⟩

/-- C23: after `f.Merge(e, m)`, `Get` on the child field of every key `k` of `m`
returns `(m[k], true)`, whatever the body held along the path of `f`; a key of
the map at `f` that is no key of `m` keeps the value `Get` found there before;
the attributes, the resource and the timestamps are unchanged. -/
theorem BodyField_Merge_spec (f : BodyField) (e : Entry α)
    (m : String → Option (Value α)) :
    (∀ k x, m k = some x → (f.Child k).Get (f.Merge e m) = (x, true)) ∧
    (∀ k v, m k = none → (f.Child k).Get e = (v, true) →
      (f.Child k).Get (f.Merge e m) = (v, true)) ∧
    ((f.Merge e m).Attributes = e.Attributes ∧ (f.Merge e m).Resource = e.Resource ∧
      (f.Merge e m).Timestamp = e.Timestamp ∧
      (f.Merge e m).ObservedTimestamp = e.ObservedTimestamp) := by
  refine ⟨?_, ?_, rfl, rfl, rfl, rfl⟩
  · intro k x hk
    exact BodyField.Get_Merge_loop_key m k x hk f.Keys (bodyMap e.Body)
  · intro k v hk hg
    simp only [BodyField.Get, BodyField.Child] at hg
    cases hb : e.Body with
    | nil =>
      rw [hb, BodyField.Get_loop_of_not_map _ _ (by simp) (fun _ h => Value.noConfusion h)] at hg
      simp at hg
    | leaf a =>
      rw [hb, BodyField.Get_loop_of_not_map _ _ (by simp) (fun _ h => Value.noConfusion h)] at hg
      simp at hg
    | map m0 =>
      rw [hb] at hg
      simp only [BodyField.Get, BodyField.Child, BodyField.Merge, hb, bodyMap]
      exact BodyField.Get_Merge_loop_other m k hk v f.Keys m0 hg

/-- C23 on concrete entries: merging `{y: 2}` at the field `a` of the body
`{a: {x: 1}}` gives `a.y` the value 2 and keeps `a.x`; merging it at the field
`b.c` of an entry whose body is no map builds the maps along the path. -/
theorem BodyField_Merge_spec_witness :
    BodyField.Get (NewBodyField ["a", "y"])
        ((NewBodyField ["a"]).Merge Examples.nestedEntry
          (Kube.mapSet Kube.mapEmpty "y" (Value.leaf 2))) = (Value.leaf 2, true) ∧
    BodyField.Get (NewBodyField ["a", "x"])
        ((NewBodyField ["a"]).Merge Examples.nestedEntry
          (Kube.mapSet Kube.mapEmpty "y" (Value.leaf 2))) = (Value.leaf 1, true) ∧
    BodyField.Get (NewBodyField ["b", "c", "y"])
        ((NewBodyField ["b", "c"]).Merge ({ Body := Value.leaf 0 } : Entry Int)
          (Kube.mapSet Kube.mapEmpty "y" (Value.leaf 2))) = (Value.leaf 2, true) :=
  ⟨(BodyField_Merge_spec (NewBodyField ["a"]) Examples.nestedEntry
      (Kube.mapSet Kube.mapEmpty "y" (Value.leaf 2))).1 "y" (Value.leaf 2) rfl,
   (BodyField_Merge_spec (NewBodyField ["a"]) Examples.nestedEntry
      (Kube.mapSet Kube.mapEmpty "y" (Value.leaf 2))).2.1 "x" (Value.leaf 1) rfl rfl,
   (BodyField_Merge_spec (NewBodyField ["b", "c"]) ({ Body := Value.leaf 0 } : Entry Int)
      (Kube.mapSet Kube.mapEmpty "y" (Value.leaf 2))).1 "y" (Value.leaf 2) rfl⟩

/-- C24: `Parent` of the root field is the root field; `Parent` of another
field drops exactly its last key; `Parent` is a left inverse of `Child`; and
`Child` appends the key to the key sequence of the field, which stays what it
was. -/
theorem BodyField_Parent_Child (f : BodyField) (k : String) :
    (f.isRoot = true → f.Parent = f) ∧
    (f.Keys = [] → f.Parent = f) ∧
    (∀ (ks : List String) (last : String), f.Keys = ks ++ [last] → f.Parent.Keys = ks) ∧
    (f.Child k).Parent.Keys = f.Keys ∧
    (f.Child k).Parent = f ∧
    (f.Child k).Keys = f.Keys ++ [k] ∧
    (f.Child k).isRoot = false := by
  have hchild : (f.Child k).Parent.Keys = f.Keys := by
    simp [BodyField.Child, BodyField.Parent, BodyField.isRoot]
  refine ⟨?_, ?_, ?_, hchild, ?_, rfl, ?_⟩
  · intro h
    simp [BodyField.Parent, h]
  · intro h
    simp [BodyField.Parent, BodyField.isRoot, h]
  · intro ks last h
    simp [BodyField.Parent, BodyField.isRoot, h]
  · cases f with
    | mk keys =>
      have := hchild
      simp only at this
      cases hp : (BodyField.Child { Keys := keys } k).Parent with
      | mk pk =>
        rw [hp] at this
        simp only at this
        rw [this]
  · simp [BodyField.Child, BodyField.isRoot]

/-- C24 on a concrete field: the parent of `a.b` is `a`, and the parent of the
child `c` of `a.b` is `a.b`. -/
theorem BodyField_Parent_Child_witness :
    (NewBodyField ["a", "b"]).Parent.Keys = ["a"] ∧
    ((NewBodyField ["a", "b"]).Child "c").Parent = NewBodyField ["a", "b"] :=
  ⟨(BodyField_Parent_Child (NewBodyField ["a", "b"]) "c").2.2.1 ["a"] "b" rfl,
   (BodyField_Parent_Child (NewBodyField ["a", "b"]) "c").2.2.2.2.1⟩

end Stanza

/-! # Order of the delete queue, bounds of the identifier array and container images -/

namespace Kube

/-- The requests appended by the loop of `forgetPod` carry clock values read at
positions from `k` on, in non-decreasing order when the clock does not
decrease. -/
theorem forgetPod.new_requests_sorted (podName : String) (clock : Nat → Time)
    (hmono : ∀ i j, i ≤ j → clock i ≤ clock j) (p : Nat × PodIdentifier → Bool) :
    ∀ (ids : List PodIdentifier) (k : Nat),
      ((((ids.enumFrom k).filter p).map
          (fun ki => ({ id := ki.2, podName := podName, ts := clock ki.1 } : deleteRequest))).map
          deleteRequest.ts).Sorted (· ≤ ·) ∧
      ∀ d ∈ ((ids.enumFrom k).filter p).map
          (fun ki => ({ id := ki.2, podName := podName, ts := clock ki.1 } : deleteRequest)),
        ∃ j, k ≤ j ∧ d.ts = clock j := by
  intro ids
  induction ids with
  | nil => intro k; simp
  | cons id rest ih =>
    intro k
    obtain ⟨hs, hb⟩ := ih (k + 1)
    have hb' : ∀ d ∈ ((rest.enumFrom (k + 1)).filter p).map
        (fun ki => ({ id := ki.2, podName := podName, ts := clock ki.1 } : deleteRequest)),
        ∃ j, k ≤ j ∧ d.ts = clock j := by
      intro d hd
      obtain ⟨j, hj, e⟩ := hb d hd
      exact ⟨j, by omega, e⟩
    simp only [List.enumFrom_cons, List.filter_cons]
    cases hp : p (k, id) with
    | false =>
      simp only [Bool.false_eq_true, if_false]
      exact ⟨hs, hb'⟩
    | true =>
      simp only [if_true, List.map_cons, List.sorted_cons, List.mem_cons]
      refine ⟨⟨?_, hs⟩, ?_⟩
      · intro t ht
        obtain ⟨d, hd, rfl⟩ := List.mem_map.mp ht
        obtain ⟨j, hj, e⟩ := hb d hd
        rw [e]
        exact hmono k j (by omega)
      · intro d hd
        rcases hd with rfl | hd
        · exact ⟨k, le_refl _, rfl⟩
        · exact hb' d hd

/-- Appending to a sorted list of timestamps elements that are sorted and not
below a bound of the list keeps it sorted. -/
theorem sorted_append_of_bound (q new : List deleteRequest) (lo : Time)
    (hq : (q.map deleteRequest.ts).Sorted (· ≤ ·)) (hlo : ∀ d ∈ q, d.ts ≤ lo)
    (hnew : (new.map deleteRequest.ts).Sorted (· ≤ ·)) (hge : ∀ d ∈ new, lo ≤ d.ts) :
    ((q ++ new).map deleteRequest.ts).Sorted (· ≤ ·) := by
  rw [List.map_append]
  unfold List.Sorted at *
  rw [List.pairwise_append]
  refine ⟨hq, hnew, ?_⟩
  intro a ha b hb
  obtain ⟨d, hd, rfl⟩ := List.mem_map.mp ha
  obtain ⟨d2, hd2, rfl⟩ := List.mem_map.mp hb
  exact le_trans (hlo d hd) (hge d2 hd2)

/-- A pod delete event whose clock is non-decreasing and not below the queued
timestamps keeps the queue sorted, and every bound of its clock bounds the
queue. -/
theorem handlePodDelete_sorted (n : Nat) (c c' : WatchClient) (obj : Obj) (clock : Nat → Time)
    (lo : Time) (h : handlePodDelete n c obj clock = some c')
    (hq : (c.deleteQueue.map deleteRequest.ts).Sorted (· ≤ ·))
    (hlo : ∀ d ∈ c.deleteQueue, d.ts ≤ lo) (hge : ∀ k, lo ≤ clock k)
    (hmono : ∀ i j, i ≤ j → clock i ≤ clock j) :
    (c'.deleteQueue.map deleteRequest.ts).Sorted (· ≤ ·) ∧
    ∀ hi, (∀ k, clock k ≤ hi) → ∀ d ∈ c'.deleteQueue, d.ts ≤ hi := by
  have hfacts : ∃ new, c'.deleteQueue = c.deleteQueue ++ new ∧
      (new.map deleteRequest.ts).Sorted (· ≤ ·) ∧ ∀ d ∈ new, ∃ j, d.ts = clock j := by
    cases obj with
    | ofPod pod =>
      simp only [handlePodDelete, forgetPod] at h
      cases hids : getIdentifiersFromAssoc n c (podFromAPI c pod) with
      | none => simp [hids] at h
      | some ids =>
        simp only [hids, Option.some.injEq] at h
        rw [forgetPod.loop_eq] at h
        subst h
        obtain ⟨hs, hb⟩ := forgetPod.new_requests_sorted pod.Name clock hmono
          (fun ki =>
            match c.Pods ki.2 with
            | some p => !p.Ignore && decide (p.Name = pod.Name)
            | none => false) ids 0
        exact ⟨_, rfl, hs, fun d hd => (hb d hd).imp (fun _ hj => hj.2)⟩
    | ofNamespace ns =>
      simp only [handlePodDelete, Option.some.injEq] at h
      subst h
      exact ⟨[], by simp, by simp, by simp⟩
    | other =>
      simp only [handlePodDelete, Option.some.injEq] at h
      subst h
      exact ⟨[], by simp, by simp, by simp⟩
  obtain ⟨new, hnew, hs, hb⟩ := hfacts
  rw [hnew]
  refine ⟨sorted_append_of_bound _ _ lo hq hlo hs ?_, ?_⟩
  · intro d hd
    obtain ⟨j, e⟩ := hb d hd
    rw [e]
    exact hge j
  · intro hi hhi d hd
    rcases List.mem_append.mp hd with hd | hd
    · exact le_trans (hlo d hd) (le_trans (hge 0) (hhi 0))
    · obtain ⟨j, e⟩ := hb d hd
      rw [e]
      exact hhi j

/-- An eviction pass keeps a sorted queue sorted and removes requests only. -/
theorem deleteLoop.pass_sorted (c : WatchClient) (g : Duration) (now : Time)
    (hq : (c.deleteQueue.map deleteRequest.ts).Sorted (· ≤ ·)) :
    ((deleteLoop.pass c g now).deleteQueue.map deleteRequest.ts).Sorted (· ≤ ·) ∧
    ∀ d ∈ (deleteLoop.pass c g now).deleteQueue, d ∈ c.deleteQueue := by
  rw [deleteLoop.pass_deleteQueue]
  refine ⟨?_, fun d hd => (List.dropWhile_suffix _).subset hd⟩
  exact List.Pairwise.sublist ((List.dropWhile_suffix _).sublist.map _) hq

/-- Along a run whose clock is non-decreasing, a sorted queue bounded by the
first clock bound stays sorted. -/
theorem run_sorted (n : Nat) (g : Duration) :
    ∀ (events : List Event) (c c' : WatchClient) (lo : Time),
      (c.deleteQueue.map deleteRequest.ts).Sorted (· ≤ ·) →
      (∀ d ∈ c.deleteQueue, d.ts ≤ lo) → ClockOrdered lo events →
      run n g c events = some c' →
      (c'.deleteQueue.map deleteRequest.ts).Sorted (· ≤ ·) := by
  intro events
  induction events with
  | nil =>
    intro c c' lo hq _ _ h
    simp only [run, Option.some.injEq] at h
    exact h ▸ hq
  | cons e rest ih =>
    intro c c' lo hq hlo hclock h
    simp only [run] at h
    cases hs : step n g c e with
    | none => simp [hs] at h
    | some c1 =>
      simp only [hs] at h
      have same : c1.deleteQueue = c.deleteQueue → ClockOrdered lo rest →
          (c'.deleteQueue.map deleteRequest.ts).Sorted (· ≤ ·) := by
        intro hsame hc
        exact ih c1 c' lo (hsame ▸ hq) (hsame ▸ hlo) hc h
      cases e with
      | podAdd obj =>
        refine same ?_ hclock
        cases obj with
        | ofPod pod => exact (addOrUpdatePod_frame n c c1 pod hs).1
        | ofNamespace ns =>
          simp only [step, handlePodAdd, Option.some.injEq] at hs
          rw [← hs]
        | other =>
          simp only [step, handlePodAdd, Option.some.injEq] at hs
          rw [← hs]
      | podUpdate old obj =>
        refine same ?_ hclock
        cases obj with
        | ofPod pod => exact (addOrUpdatePod_frame n c c1 pod hs).1
        | ofNamespace ns =>
          simp only [step, handlePodUpdate, Option.some.injEq] at hs
          rw [← hs]
        | other =>
          simp only [step, handlePodUpdate, Option.some.injEq] at hs
          rw [← hs]
      | podDelete obj clock =>
        obtain ⟨hge, hmono, hi, hhi, hrest⟩ := hclock
        obtain ⟨hs1, hb1⟩ := handlePodDelete_sorted n c c1 obj clock lo hs hq hlo hge hmono
        exact ih c1 c' hi hs1 (hb1 hi hhi) hrest h
      | namespaceAdd obj =>
        simp only [step, Option.some.injEq] at hs
        subst hs
        exact same (namespace_handlers_frame c obj obj).1.2 hclock
      | namespaceUpdate old obj =>
        simp only [step, Option.some.injEq] at hs
        subst hs
        exact same (namespace_handlers_frame c old obj).2.1.2 hclock
      | namespaceDelete obj =>
        simp only [step, Option.some.injEq] at hs
        subst hs
        exact same (namespace_handlers_frame c obj obj).2.2.2 hclock
      | sweep now =>
        simp only [step, Option.some.injEq] at hs
        subst hs
        obtain ⟨hs1, hsub⟩ := deleteLoop.pass_sorted c g now hq
        exact ih _ c' lo hs1 (fun d hd => hlo d (hsub d hd)) hclock h

/-- The loop over the sources that fit into the array returns and keeps the
number of slots. -/
theorem getIdentifiersFromAssoc.sources_total_length (pod : Pod) :
    ∀ (srcs : List AssociationSource) (i : Nat) (st : PodIdentifier × Bool),
      i + srcs.length ≤ st.1.length →
      ∃ st1, getIdentifiersFromAssoc.sources pod i srcs st = some st1 ∧
        st1.1.length = st.1.length := by
  intro srcs
  induction srcs with
  | nil => intro i st _; exact ⟨st, rfl, rfl⟩
  | cons s rest ih =>
    intro i st h
    simp only [List.length_cons] at h
    obtain ⟨st1, h1, hl⟩ := getIdentifiersFromAssoc.source_total pod i s st (by omega)
    obtain ⟨st2, h2, hl2⟩ := ih (i + 1) st1 (by omega)
    exact ⟨st2, by simp [getIdentifiersFromAssoc.sources, h1, h2], hl2.trans hl⟩

/-- C25: along a run from the state built by `New` in which the clock read by
`appendDeleteQueue` does not decrease, the timestamps of the queued requests
are non-decreasing from head to tail; `appendDeleteQueue` with a clock value
not below the queued timestamps keeps a sorted queue sorted, and so does an
eviction pass. -/
theorem deleteQueue_sorted (n : Nat) (g : Duration) (rules : ExtractionRules)
    (associations : List Association) (events : List Event) (c : WatchClient) (lo : Time)
    (hclock : ClockOrdered lo events)
    (hreach : run n g (New rules associations) events = some c) :
    (c.deleteQueue.map deleteRequest.ts).Sorted (· ≤ ·) ∧
    (∀ (c0 : WatchClient) (podID : PodIdentifier) (podName : String) (now : Time),
      (c0.deleteQueue.map deleteRequest.ts).Sorted (· ≤ ·) →
      (∀ d ∈ c0.deleteQueue, d.ts ≤ now) →
      ((appendDeleteQueue c0 podID podName now).deleteQueue.map deleteRequest.ts).Sorted
        (· ≤ ·)) ∧
    (∀ (c0 : WatchClient) (g0 : Duration) (now : Time),
      (c0.deleteQueue.map deleteRequest.ts).Sorted (· ≤ ·) →
      ((deleteLoop.pass c0 g0 now).deleteQueue.map deleteRequest.ts).Sorted (· ≤ ·)) := by
  refine ⟨?_, ?_, ?_⟩
  · exact run_sorted n g events (New rules associations) c lo (by simp [New])
      (by intro d hd; simp [New] at hd) hclock hreach
  · intro c0 podID podName now hq hb
    exact sorted_append_of_bound c0.deleteQueue _ now hq hb (by simp) (by simp)
  · intro c0 g0 now hq
    exact (deleteLoop.pass_sorted c0 g0 now hq).1

/-- C25 on a concrete run: pod `a` is added, deleted at time 100, a pass runs
at time 120 and the delete event is delivered again at time 200; the queue
then holds four requests stamped 100, 100, 200, 200. -/
theorem deleteQueue_sorted_witness :
    (Examples.after (New Examples.rules [])
        (run 4 50 (New Examples.rules []) Examples.deleteTwiceEvents)).deleteQueue.map
        deleteRequest.ts = [100, 100, 200, 200] ∧
    ((Examples.after (New Examples.rules [])
        (run 4 50 (New Examples.rules []) Examples.deleteTwiceEvents)).deleteQueue.map
        deleteRequest.ts).Sorted (· ≤ ·) :=
  ⟨by decide,
    (deleteQueue_sorted 4 50 Examples.rules [] Examples.deleteTwiceEvents
      (Examples.after (New Examples.rules [])
        (run 4 50 (New Examples.rules []) Examples.deleteTwiceEvents)) 0
      ⟨fun _ => (by decide : (0 : Int) ≤ 100), fun _ _ _ => le_refl _, 100, fun _ => le_refl _,
        fun _ => (by decide : (100 : Int) ≤ 200), fun _ _ _ => le_refl _, 200,
        fun _ => le_refl _, trivial⟩
      rfl).1⟩

/-- C28, evaluated on the code: with both image rules enabled, the container
whose image is `registry.local:5000/app:1.2` is recorded with the image name
`registry.local` and the image tag `5000/app`, the first two parts of the split
at `:`; the images `nginx:1.21` and `busybox` are recorded as the claim says. -/
theorem extractPodContainersAttributes_registry_port :
    Strings.Split "registry.local:5000/app:1.2" ":" = ["registry.local", "5000/app", "1.2"] ∧
    (extractPodContainersAttributes { ContainerImageName := true, ContainerImageTag := true }
        Examples.podRegistry).lookup "app"
      = some { ImageName := "registry.local", ImageTag := "5000/app" } ∧
    (extractPodContainersAttributes { ContainerImageName := true, ContainerImageTag := true }
        Examples.podRegistry).lookup "web"
      = some { ImageName := "nginx", ImageTag := "1.21" } ∧
    (extractPodContainersAttributes { ContainerImageName := true, ContainerImageTag := true }
        Examples.podRegistry).lookup "init"
      = some { ImageName := "busybox", ImageTag := "" } := by
  decide

/-- C26: when every configured association has at most
`PodIdentifierMaxLength` sources, which is what `Config.Validate` accepts,
`getIdentifiersFromAssoc` returns a list for every pod: the loop over the
sources of each association returns and leaves an identifier of
`PodIdentifierMaxLength` slots, and the assignment `ret[i]` at the index of any
of its sources is within bounds. -/
theorem getIdentifiersFromAssoc_in_bounds {α : Type} (n : Nat) (c : WatchClient) (pod : Pod)
    (hvalid : ∀ a ∈ c.Associations, a.Sources.length ≤ n) :
    (∃ ids, getIdentifiersFromAssoc n c pod = some ids) ∧
    (∀ a ∈ c.Associations,
      ∃ st, getIdentifiersFromAssoc.sources pod 0 a.Sources (PodIdentifier.zero n, false)
          = some st ∧ st.1.length = n) ∧
    (∀ a ∈ c.Associations, ∀ i, i < a.Sources.length →
      ∀ (ret : PodIdentifier) (x : PodIdentifierAttribute), ret.length = n →
        PodIdentifier.assign ret i x = some (ret.set i x)) ∧
    (∀ (APIConfigValidate : α → Option String) (cfg : K8sAttributesProcessor.Config α),
      K8sAttributesProcessor.Config.Validate n APIConfigValidate cfg = none →
      ∀ a ∈ cfg.Association, a.Sources.length ≤ n) := by
  refine ⟨getIdentifiersFromAssoc_total n c pod hvalid, ?_, ?_, ?_⟩
  · intro a ha
    obtain ⟨st, h1, h2⟩ := getIdentifiersFromAssoc.sources_total_length pod a.Sources 0
      (PodIdentifier.zero n, false) (by simpa [PodIdentifier.zero_length] using hvalid a ha)
    exact ⟨st, h1, by simpa [PodIdentifier.zero_length] using h2⟩
  · intro a ha i hi ret x hret
    have : i < ret.length := by
      have := hvalid a ha
      omega
    simp [PodIdentifier.assign, this]
  · intro v cfg hv a ha
    by_contra hlen
    have hl := (K8sAttributesProcessor.Config.Validate.loop_spec n cfg.Association).1
      ⟨a, ha, by omega⟩
    unfold K8sAttributesProcessor.Config.Validate at hv
    cases hq : v cfg.APIConfig with
    | some err => simp [hq] at hv
    | none => simp [hq, hl] at hv

/-- C26 on a concrete configuration: with the two-source rule and the
connection rule configured and four slots, the identifiers of the pod `h` are
computed. -/
theorem getIdentifiersFromAssoc_in_bounds_witness :
    ∃ ids, getIdentifiersFromAssoc 4 (New Examples.rules [Examples.nameRule, Examples.connRule])
        (podFromAPI (New Examples.rules [Examples.nameRule, Examples.connRule]) Examples.podHost)
      = some ids :=
  (getIdentifiersFromAssoc_in_bounds (α := Unit) 4
    (New Examples.rules [Examples.nameRule, Examples.connRule])
    (podFromAPI (New Examples.rules [Examples.nameRule, Examples.connRule]) Examples.podHost)
    (by decide)).1

end Kube

/-! # Table metrics and query filters of the PostgreSQL receiver -/

namespace PostgreSQL

/-- The quoting loop appends the quoted names in input order. -/
theorem filterQueryByDatabases.quote_eq :
    ∀ (databases acc : List String),
      filterQueryByDatabases.quote databases acc
        = acc ++ databases.map (fun db => "'" ++ db ++ "'") := by
  intro databases
  induction databases with
  | nil => intro acc; simp [filterQueryByDatabases.quote]
  | cons db rest ih => intro acc; simp [filterQueryByDatabases.quote, ih]

/-- C27, evaluated on the code: a row that scans with `n_dead_tup = 5` is
stored under `tableKey(db, table)` with every column in its field except
`dead`, which is left at zero: the struct literal has no `dead` entry. A row
whose scan fails adds its error and no entry. -/
theorem getDatabaseTableMetrics_drops_dead :
    (getDatabaseTableMetrics
        (Except.ok [Except.ok { table := "public.t", live := 7, dead := 5, ins := 1, upd := 2,
                                del := 3, hotUpd := 4, tableSize := 8192, vacuumCount := 6 },
                    Except.error "scan failed"]) "otel").2 = ["scan failed"] ∧
    (getDatabaseTableMetrics
        (Except.ok [Except.ok { table := "public.t", live := 7, dead := 5, ins := 1, upd := 2,
                                del := 3, hotUpd := 4, tableSize := 8192, vacuumCount := 6 },
                    Except.error "scan failed"]) "otel").1.map
        (fun ts => ts (tableKey "otel" "public.t"))
      = some (some { database := "otel", table := "public.t", live := 7, dead := 0,
                     inserts := 1, upd := 2, del := 3, hotUpd := 4, size := 8192,
                     vacuumCount := 6 }) ∧
    ∀ (db : String) (row : Row) (ts : String → Option tableStats) (errors : List String),
      ((getDatabaseTableMetrics.loop db [Except.ok row] ts errors).1
        (tableKey db row.table)).map (fun s => s.dead) = some 0 := by
  refine ⟨by decide, by decide, ?_⟩
  intro db row ts errors
  simp [getDatabaseTableMetrics.loop]

/-- C29: `filterQueryByDatabases` returns the base query, followed when the
list of databases is not empty by ` AND datname IN (L)` if the base query
contains `WHERE` and by ` WHERE datname IN (L)` otherwise, `L` being the names
in input order, each in single quotes, joined by commas, followed by
` GROUP BY datname` when `groupBy` is set, followed by `;`. -/
theorem filterQueryByDatabases_spec (baseQuery : String) (databases : List String)
    (groupBy : Bool) :
    filterQueryByDatabases baseQuery databases groupBy =
      baseQuery ++
        (if databases = [] then ""
         else
          (if Strings.Contains baseQuery "WHERE" then " AND datname IN ("
           else " WHERE datname IN (") ++
            ",".intercalate (databases.map (fun db => "'" ++ db ++ "'")) ++ ")") ++
        (if groupBy then " GROUP BY datname" else "") ++ ";" ∧
    ∃ pre, filterQueryByDatabases baseQuery databases groupBy = pre ++ ";" := by
  refine ⟨?_, ⟨_, rfl⟩⟩
  unfold filterQueryByDatabases
  simp only [filterQueryByDatabases.quote_eq, List.nil_append, Strings.Join]
  cases databases with
  | nil => cases groupBy <;> simp
  | cons db rest =>
    by_cases hw : Strings.Contains baseQuery "WHERE" = true <;> cases groupBy <;>
      simp [hw, String.append_assoc]

end PostgreSQL

/-! # The function `TraceID` -/

namespace TQL

/-- Copying 16 bytes into the zero array of 16 bytes gives the bytes. -/
theorem copy_of_length (bytes : List Nat) (h : bytes.length = 16) :
    copy (List.replicate 16 0) bytes = bytes := by
  unfold copy
  have h1 : bytes.take (List.replicate 16 0).length = bytes := by
    rw [List.length_replicate, ← h, List.take_length]
  rw [h1, h]
  simp

/-- C30: `TraceID(bytes)` returns the error "traces ids must be 16 bytes" and no
function exactly when the number of bytes is not 16; otherwise it returns a nil
error and a function that returns, for every transform context, the trace ID
whose bytes are the input bytes in order. -/
theorem TraceID_spec {κ : Type} (bytes : List Nat) :
    (bytes.length ≠ 16 →
      TraceID (κ := κ) bytes = (none, some "traces ids must be 16 bytes")) ∧
    (bytes.length = 16 →
      ∃ f : κ → PTraceID, TraceID (κ := κ) bytes = (some f, none) ∧
        ∀ ctx, f ctx = { bytes := bytes }) ∧
    ((TraceID (κ := κ) bytes).2 ≠ none ↔ bytes.length ≠ 16) ∧
    ((TraceID (κ := κ) bytes).1.isNone = true ↔ bytes.length ≠ 16) := by
  by_cases h : bytes.length = 16
  · have ht : TraceID (κ := κ) bytes = (some (fun _ => { bytes := bytes }), none) := by
      unfold TraceID
      rw [if_neg (by simp [h])]
      simp only [copy_of_length bytes h]
    refine ⟨fun hn => absurd h hn, fun _ => ⟨_, ht, fun _ => rfl⟩, ?_, ?_⟩
    · rw [ht]; simp [h]
    · rw [ht]; simp [h]
  · have ht : TraceID (κ := κ) bytes = (none, some "traces ids must be 16 bytes") := by
      unfold TraceID
      rw [if_pos h]
    refine ⟨fun _ => ht, fun hn => absurd hn h, ?_, ?_⟩
    · rw [ht]; simp [h]
    · rw [ht]; simp [h]

/-- C30 on concrete bytes: the sixteen bytes 1 to 16 give a function that
returns the trace ID with those bytes for the context `()`, and three bytes
give the error. -/
theorem TraceID_spec_witness :
    (∃ f : Unit → PTraceID,
      TraceID (κ := Unit) [1, 2, 3, 4, 5, 6, 7, 8, 9, 10, 11, 12, 13, 14, 15, 16] = (some f, none) ∧
        ∀ ctx, f ctx = { bytes := [1, 2, 3, 4, 5, 6, 7, 8, 9, 10, 11, 12, 13, 14, 15, 16] }) ∧
    TraceID (κ := Unit) [1, 2, 3] = (none, some "traces ids must be 16 bytes") :=
  ⟨(TraceID_spec (κ := Unit) [1, 2, 3, 4, 5, 6, 7, 8, 9, 10, 11, 12, 13, 14, 15, 16]).2.1 rfl,
   (TraceID_spec (κ := Unit) [1, 2, 3]).1 (by decide)⟩

end TQL
